import Mathlib

/-!
# CHIP-8 interpreter (`Chip8.h`, `Chip8.c`): embedding and verified properties

The machine state `struct Chip8` becomes the structure `Chip8`.  Its arrays are
functions on `Fin n`, so a cell outside an array does not exist in the model.
Machine integers are natural numbers; every place where the C code truncates to
`uint8_t` or `uint16_t` carries an explicit `% 256` or `% 65536`.

An array access whose index is computed from machine state is checked: an index
outside the array is undefined behaviour in C and is reported as
`Fault.outOfBounds`.  `exit(3)` is reported as `Fault.exit3`.
-/

namespace Chip8Emu

/-! ## Data model -/

/-- Ways in which `emulateCycle` can end without returning to its caller. -/
inductive Fault where
  /-- The call `exit(3)`. -/
  | exit3
  /-- An array was indexed outside its bounds. -/
  | outOfBounds
  deriving DecidableEq, Repr

/-- The `struct Chip8` of `Chip8.h`. -/
structure Chip8 where
  /-- Field `uint8_t memory[4096]` -/
  memory : Fin 4096 → Nat
  /-- Field `uint8_t V[16]` -/
  V : Fin 16 → Nat
  /-- Field `uint16_t stack[16]` -/
  stack : Fin 16 → Nat
  /-- Field `uint16_t sp` -/
  sp : Nat
  /-- Field `uint16_t pc` -/
  pc : Nat
  /-- Field `uint16_t opcode` -/
  opcode : Nat
  /-- Field `uint16_t I` -/
  I : Nat
  /-- Field `uint8_t soundTimer` -/
  soundTimer : Nat
  /-- Field `uint8_t delayTimer` -/
  delayTimer : Nat
  /-- Field `uint8_t graphics[64 * 32]` -/
  graphics : Fin 2048 → Nat
  /-- Field `uint8_t keys[16]` -/
  keys : Fin 16 → Nat
  /-- Field `int8_t drawFlag` -/
  drawFlag : Nat

/-- Every field holds a value of its C type. -/
structure WF (s : Chip8) : Prop where
  memory : ∀ i, s.memory i < 256
  V : ∀ i, s.V i < 256
  stack : ∀ i, s.stack i < 65536
  sp : s.sp < 65536
  pc : s.pc < 65536
  opcode : s.opcode < 65536
  I : s.I < 65536
  soundTimer : s.soundTimer < 256
  delayTimer : s.delayTimer < 256
  graphics : ∀ i, s.graphics i < 256
  keys : ∀ i, s.keys i < 256
  drawFlag : s.drawFlag < 128

/-! ## Array access and loops -/

/-- Checked read `a[i]`. -/
def rd {n : Nat} (a : Fin n → Nat) (i : Nat) : Except Fault Nat :=
  if h : i < n then .ok (a ⟨i, h⟩) else .error Fault.outOfBounds

/-- The array `a` after `a[i] = v`, for an index known to lie inside the array. -/
def upd {n : Nat} (a : Fin n → Nat) (i v : Nat) : Fin n → Nat :=
  fun j => if j.val = i then v else a j

/-- Checked write `a[i] = v`. -/
def wr {n : Nat} (a : Fin n → Nat) (i v : Nat) : Except Fault (Fin n → Nat) :=
  if i < n then .ok (upd a i v) else .error Fault.outOfBounds

/-- The loop `for (int i = 0; i < n; i++) body(i)` with a body that cannot fault. -/
def forLoop {σ : Type} (body : Nat → σ → σ) : Nat → σ → σ
  | 0, s => s
  | k + 1, s => body k (forLoop body k s)

/-- The loop `for (int i = 0; i < n; i++) body(i)`; a fault in the body ends the loop. -/
def forLoopM {σ : Type} (body : Nat → σ → Except Fault σ) : Nat → σ → Except Fault σ
  | 0, s => .ok s
  | k + 1, s =>
    match forLoopM body k s with
    | .ok t => body k t
    | .error e => .error e

/-! ## Operand fields of an opcode (the macros of `Chip8.c`) -/

/-- The macro `#define X ((chip.opcode & 0x0F00) >> 8)`, a register index. -/
def X (op : Nat) : Fin 16 :=
  ⟨(op &&& 0x0F00) >>> 8, by
    have h : op &&& 0x0F00 ≤ 0x0F00 := Nat.and_le_right
    rw [Nat.shiftRight_eq_div_pow]
    omega⟩

/-- The macro `#define Y ((chip.opcode & 0x00F0) >> 4)`, a register index. -/
def Y (op : Nat) : Fin 16 :=
  ⟨(op &&& 0x00F0) >>> 4, by
    have h : op &&& 0x00F0 ≤ 0x00F0 := Nat.and_le_right
    rw [Nat.shiftRight_eq_div_pow]
    omega⟩

/-- The macro `#define NNN (chip.opcode & 0x0FFF)` -/
def NNN (op : Nat) : Nat := op &&& 0x0FFF

/-- The macro `#define NN (chip.opcode & 0x00FF)` -/
def NN (op : Nat) : Nat := op &&& 0x00FF

/-- The register `VF`, written `chip.V[0xF]` in the source. -/
def VF : Fin 16 := ⟨0xF, by decide⟩

/-- The register `V0`, written `chip.V[0x0]` in the source. -/
def V0 : Fin 16 := ⟨0x0, by decide⟩

/-! ## `init` -/

/-- The table `chip8_fontset[80]`. -/
def chip8_fontset : List Nat :=
  [0xF0, 0x90, 0x90, 0x90, 0xF0,
   0x20, 0x60, 0x20, 0x20, 0x70,
   0xF0, 0x10, 0xF0, 0x80, 0xF0,
   0xF0, 0x10, 0xF0, 0x10, 0xF0,
   0x90, 0x90, 0xF0, 0x10, 0x10,
   0xF0, 0x80, 0xF0, 0x10, 0xF0,
   0xF0, 0x80, 0xF0, 0x90, 0xF0,
   0xF0, 0x10, 0x20, 0x40, 0x40,
   0xF0, 0x90, 0xF0, 0x90, 0xF0,
   0xF0, 0x90, 0xF0, 0x10, 0xF0,
   0xF0, 0x90, 0xF0, 0x90, 0x90,
   0xE0, 0x90, 0xE0, 0x90, 0xE0,
   0xF0, 0x80, 0x80, 0x80, 0xF0,
   0xE0, 0x90, 0x90, 0x90, 0xE0,
   0xF0, 0x80, 0xF0, 0x80, 0xF0,
   0xF0, 0x80, 0xF0, 0x80, 0x80]

/-- The loop `for (int i = 0; i < 2048; i++) chip.graphics[i] = 0;`, which stands both in
`init` and in the instruction `00E0`. -/
def clearDisplay (s : Chip8) : Chip8 :=
  forLoop (fun i s => { s with graphics := upd s.graphics i 0 }) 2048 s

/-- The function `init` of `Chip8.c`.  All its loops run over constant ranges that lie
inside the arrays they write, so it cannot fault.  The call `srand(time(NULL))` touches
no field of the machine. -/
def init (s : Chip8) : Chip8 :=
  let s := { s with pc := 0x200 }
  let s := { s with sp := 0 }
  let s := { s with opcode := 0 }
  let s := { s with I := 0 }
  let s := clearDisplay s
  let s := forLoop (fun i s =>
    let s := { s with stack := upd s.stack i 0 }
    let s := { s with V := upd s.V i 0 }
    { s with keys := upd s.keys i 0 }) 16 s
  let s := forLoop (fun i s => { s with memory := upd s.memory i 0 }) 4096 s
  let s := forLoop (fun i s => { s with memory := upd s.memory i (chip8_fontset.getD i 0) }) 80 s
  let s := { s with soundTimer := 0 }
  { s with delayTimer := 0 }

/-! ## `load` -/

/-- The function `load` of `Chip8.c`; the result pairs the returned `int8_t` with the
machine.  The file is given by its content: `none` when `fopen` fails, otherwise the
bytes that `fread` delivers.  `malloc` and `fread` are taken to succeed on an opened file.
The copy loop runs only under the size test, which keeps `i + 512` below 4096. -/
def load (file : Option (List Nat)) (s : Chip8) : Nat × Chip8 :=
  let s := init s
  match file with
  | none => (0, s)
  | some rom_buffer =>
    let rom_size := rom_buffer.length
    if (4096 - 512) > rom_size then
      (1, forLoop (fun i s =>
        { s with memory := upd s.memory (i + 512) (rom_buffer.getD i 0 % 256) }) rom_size s)
    else
      (0, s)

/-! ## `emulateCycle` -/

/-- The statement `chip.pc += n` on the 16-bit program counter. -/
def advance (n : Nat) (s : Chip8) : Chip8 :=
  { s with pc := (s.pc + n) % 65536 }

/-- The statement `VX = v` (also `chip.V[i] = v`) for a register index `i`. -/
def setV (i : Fin 16) (v : Nat) (s : Chip8) : Chip8 :=
  { s with V := upd s.V i.val v }

/-- The inner switch of `case 0x0000`. -/
def case0 (s : Chip8) : Except Fault Chip8 :=
  match s.opcode &&& 0x00FF with
  | 0x00E0 =>
    let s := clearDisplay s
    let s := { s with drawFlag := 1 }
    .ok (advance 2 s)
  | 0x00EE => do
    let s := { s with sp := (s.sp + 65535) % 65536 }
    let ret ← rd s.stack s.sp
    let s := { s with pc := ret }
    pure (advance 2 s)
  | _ => .error Fault.exit3

/-- The inner switch of `case 0x8000`.  The macros `VX` and `VY` are re-read from the
machine at each use, in source order. -/
def case8 (s : Chip8) : Except Fault Chip8 :=
  let x := X s.opcode
  let y := Y s.opcode
  match s.opcode &&& 0x000F with
  | 0x0000 =>
    let s := setV x (s.V y) s
    .ok (advance 2 s)
  | 0x0001 =>
    let s := setV x (s.V x ||| s.V y) s
    .ok (advance 2 s)
  | 0x0002 =>
    let s := setV x (s.V x &&& s.V y) s
    .ok (advance 2 s)
  | 0x0003 =>
    let s := setV x (s.V x ^^^ s.V y) s
    .ok (advance 2 s)
  | 0x0004 =>
    let s := setV x ((s.V x + s.V y) % 256) s
    let s := if ((s.V y : Int) + s.V y > 0xFF - (s.V x : Int)) then setV VF 1 s else setV VF 0 s
    .ok (advance 2 s)
  | 0x0005 =>
    let s := if s.V y > s.V x then setV VF 0 s else setV VF 1 s
    let s := setV x (Int.toNat (((s.V x : Int) - s.V y) % 256)) s
    .ok (advance 2 s)
  | 0x0006 =>
    let s := setV VF (s.V x &&& 0x1) s
    let s := setV x (s.V x >>> 1) s
    .ok (advance 2 s)
  | 0x0007 =>
    let s := if s.V x > s.V y then setV VF 0 s else setV VF 1 s
    let s := setV x (Int.toNat (((s.V y : Int) - s.V x) % 256)) s
    .ok (advance 2 s)
  | 0x000E =>
    let s := setV VF (s.V x >>> 7) s
    let s := setV x ((s.V x <<< 1) % 256) s
    .ok (advance 2 s)
  | _ => .error Fault.exit3

/-- One pass of the inner loop of `case 0xD000`: column `xline` of sprite row `yline`. -/
def drawPixel (x y pixel yline xline : Nat) (s : Chip8) : Except Fault Chip8 :=
  if (pixel &&& (0x80 >>> xline)) ≠ 0 then do
    let g ← rd s.graphics (x + xline + ((y + yline) * 64))
    let s := if g = 1 then setV VF 1 s else s
    let g ← rd s.graphics (x + xline + ((y + yline) * 64))
    let graphics ← wr s.graphics (x + xline + ((y + yline) * 64)) (g ^^^ 1)
    pure { s with graphics := graphics }
  else
    pure s

/-- One pass of the outer loop of `case 0xD000`: sprite row `yline`. -/
def drawRow (x y yline : Nat) (s : Chip8) : Except Fault Chip8 := do
  let pixel ← rd s.memory (s.I + yline)
  forLoopM (drawPixel x y pixel yline) 8 s

/-- The body of `case 0xD000`. -/
def caseD (s : Chip8) : Except Fault Chip8 := do
  let x := s.V (X s.opcode)
  let y := s.V (Y s.opcode)
  let height := s.opcode &&& 0x000F
  let s := setV VF 0 s
  let s ← forLoopM (drawRow x y) height s
  let s := { s with drawFlag := 1 }
  pure (advance 2 s)

/-- The inner switch of `case 0xE000`. -/
def caseE (s : Chip8) : Except Fault Chip8 :=
  match s.opcode &&& 0x00FF with
  | 0x009E => do
    let k ← rd s.keys (s.V (X s.opcode))
    if k ≠ 0 then pure (advance 4 s) else pure (advance 2 s)
  | 0x00A1 => do
    let k ← rd s.keys (s.V (X s.opcode))
    if k = 0 then pure (advance 4 s) else pure (advance 2 s)
  | _ => .ok s

/-- One pass of the key scan of `FX0A`; the second component is `key_pressed`. -/
def keyScan (i : Nat) (p : Chip8 × Nat) : Except Fault (Chip8 × Nat) := do
  let k ← rd p.1.keys i
  if k ≠ 0 then pure (setV (X p.1.opcode) i p.1, 1) else pure p

/-- The inner switch of `case 0xF000`.  The first component of the result tells whether
the function returns at once (`return` in `FX0A`), skipping the timer update. -/
def caseF (s : Chip8) : Except Fault (Bool × Chip8) :=
  let x := X s.opcode
  match s.opcode &&& 0x00FF with
  | 0x0007 =>
    let s := setV x s.delayTimer s
    .ok (false, advance 2 s)
  | 0x000A => do
    let key_pressed := 0
    let (s, key_pressed) ← forLoopM keyScan 16 (s, key_pressed)
    if key_pressed = 0 then
      pure (true, s)
    else
      pure (false, advance 2 s)
  | 0x0015 =>
    let s := { s with delayTimer := s.V x }
    .ok (false, advance 2 s)
  | 0x0018 =>
    let s := { s with soundTimer := s.V x }
    .ok (false, advance 2 s)
  | 0x001E =>
    let s := setV VF (if s.I + s.V x > 0xFFF then 1 else 0) s
    let s := { s with I := (s.I + s.V x) % 65536 }
    .ok (false, advance 2 s)
  | 0x0029 =>
    let s := { s with I := (s.V x * 0x5) % 65536 }
    .ok (false, advance 2 s)
  | 0x0033 => do
    let m ← wr s.memory s.I (s.V x / 100)
    let s := { s with memory := m }
    let m ← wr s.memory (s.I + 1) ((s.V x / 10) % 10)
    let s := { s with memory := m }
    let m ← wr s.memory (s.I + 2) (s.V x % 10)
    let s := { s with memory := m }
    pure (false, advance 2 s)
  | 0x0055 => do
    let s ← forLoopM (fun i s => do
      let v ← rd s.V i
      let m ← wr s.memory (s.I + i) v
      pure { s with memory := m }) (x.val + 1) s
    pure (false, advance 2 s)
  | 0x0065 => do
    let s ← forLoopM (fun i s => do
      let v ← rd s.memory (s.I + i)
      let r ← wr s.V i v
      pure { s with V := r }) (x.val + 1) s
    pure (false, advance 2 s)
  | _ => .ok (false, s)

/-- The outer switch of `emulateCycle`: decode and execute `chip.opcode`.  The argument
`rnd` is the value that `rand()` returns if the instruction calls it.  The first
component of the result is true when the function returns from inside the switch. -/
def execute (rnd : Nat) (s : Chip8) : Except Fault (Bool × Chip8) :=
  let x := X s.opcode
  let y := Y s.opcode
  match s.opcode &&& 0xF000 with
  | 0x0000 => do
    let s ← case0 s
    pure (false, s)
  | 0x1000 =>
    .ok (false, { s with pc := NNN s.opcode })
  | 0x2000 => do
    let stack ← wr s.stack s.sp s.pc
    let s := { s with stack := stack }
    let s := { s with sp := (s.sp + 1) % 65536 }
    pure (false, { s with pc := NNN s.opcode })
  | 0x3000 =>
    if s.V x = NN s.opcode then .ok (false, advance 4 s) else .ok (false, advance 2 s)
  | 0x4000 =>
    if s.V x ≠ NN s.opcode then .ok (false, advance 4 s) else .ok (false, advance 2 s)
  | 0x5000 =>
    if s.V x = s.V y then .ok (false, advance 4 s) else .ok (false, advance 2 s)
  | 0x6000 =>
    let s := setV x (NN s.opcode) s
    .ok (false, advance 2 s)
  | 0x7000 =>
    let s := setV x ((s.V x + NN s.opcode) % 256) s
    .ok (false, advance 2 s)
  | 0x8000 => do
    let s ← case8 s
    pure (false, s)
  | 0x9000 =>
    if s.V x ≠ s.V y then .ok (false, advance 4 s) else .ok (false, advance 2 s)
  | 0xA000 =>
    let s := { s with I := NNN s.opcode }
    .ok (false, advance 2 s)
  | 0xB000 =>
    .ok (false, { s with pc := (NNN s.opcode + s.V V0) % 65536 })
  | 0xC000 =>
    let s := setV x ((rnd % (0xFF + 1)) &&& NN s.opcode) s
    .ok (false, advance 2 s)
  | 0xD000 => do
    let s ← caseD s
    pure (false, s)
  | 0xE000 => do
    let s ← caseE s
    pure (false, s)
  | 0xF000 =>
    caseF s
  | _ => .error Fault.exit3

/-- The timer update at the end of `emulateCycle`.  Each decrement is guarded by
`> 0`, so it cannot wrap. -/
def updateTimers (s : Chip8) : Chip8 :=
  let s := if s.delayTimer > 0 then { s with delayTimer := s.delayTimer - 1 } else s
  if s.soundTimer > 0 then { s with soundTimer := s.soundTimer - 1 } else s

/-- The function `emulateCycle` of `Chip8.c`: fetch, decode and execute one instruction,
then update the timers. -/
def emulateCycle (rnd : Nat) (s : Chip8) : Except Fault Chip8 := do
  let hi ← rd s.memory s.pc
  let lo ← rd s.memory (s.pc + 1)
  let s := { s with opcode := ((hi <<< 8) ||| lo) % 65536 }
  let (returned, s) ← execute rnd s
  if returned then pure s else pure (updateTimers s)

/-! ## The call with its store unguarded

In `emulateCycle` above the store `chip.stack[chip.sp] = chip.pc` is checked, so a call with
16 entries on the stack ends in `Fault.outOfBounds`.  The source has no test of `sp`: the
store is issued and `chip.sp++` follows.  The definitions below keep that. -/

/-- The statements of `case 0x2000`, `chip.stack[chip.sp] = chip.pc; chip.sp++;
chip.pc = NNN;`, with no test before the store.  With `sp < 16` the store writes the stack
entry.  With `sp = 16` it addresses the cell behind the last entry, which in `struct Chip8`
is the field `sp`, declared right after `stack[16]` with the same type; C leaves the effect
of this store open, and `lands` tells whether it reaches that field or is dropped.  Stores
further behind the array are not followed. -/
def case2Unguarded (lands : Bool) (s : Chip8) : Except Fault Chip8 :=
  if s.sp < 16 then
    let s := { s with stack := upd s.stack s.sp s.pc }
    let s := { s with sp := (s.sp + 1) % 65536 }
    .ok { s with pc := NNN s.opcode }
  else if s.sp = 16 then
    let s := if lands = true then { s with sp := s.pc } else s
    let s := { s with sp := (s.sp + 1) % 65536 }
    .ok { s with pc := NNN s.opcode }
  else
    .error Fault.outOfBounds

/-- The function `emulateCycle` with the store of `case 0x2000` unguarded.  Every other
instruction is executed by `emulateCycle` itself. -/
def emulateCycleUnguarded (lands : Bool) (rnd : Nat) (s : Chip8) : Except Fault Chip8 := do
  let hi ← rd s.memory s.pc
  let lo ← rd s.memory (s.pc + 1)
  let s1 := { s with opcode := ((hi <<< 8) ||| lo) % 65536 }
  if s1.opcode &&& 0xF000 = 0x2000 then do
    let t ← case2Unguarded lands s1
    pure (updateTimers t)
  else
    emulateCycle rnd s

/-! ## Notions used to state what the loops compute -/

/-- The array in which the first `k` cells hold `f` and the others are those of `a`. -/
def fill {n : Nat} (k : Nat) (f : Nat → Nat) (a : Fin n → Nat) : Fin n → Nat :=
  fun j => if j.val < k then f j.val else a j

/-! ## Notions used to state what a sprite draw does -/

/-- The framebuffer `g` with every cell selected by `m` toggled (`^= 1`). -/
def xorMask (m : Fin 2048 → Bool) (g : Fin 2048 → Nat) : Fin 2048 → Nat :=
  fun j => if m j = true then g j ^^^ 1 else g j

/-- The cell addressed by column `c` of sprite row `r`, selected when bit `c` (counted from
the most significant bit) of the row byte `pixel` is set. -/
def pixelMask (x y pixel r c : Nat) : Fin 2048 → Bool :=
  fun j => decide ((pixel &&& (0x80 >>> c)) ≠ 0 ∧ j.val = x + c + ((y + r) * 64))

/-- The cells toggled an odd number of times by the first `k` columns of sprite row `r`. -/
def rowMask (x y pixel r : Nat) : Nat → Fin 2048 → Bool
  | 0 => fun _ => false
  | k + 1 => fun j => Bool.xor (rowMask x y pixel r k j) (pixelMask x y pixel r k j)

/-- The cells toggled an odd number of times by the first `n` rows of the sprite whose row
bytes are `rows 0`, `rows 1`, ... -/
def spriteMask (x y : Nat) (rows : Nat → Nat) : Nat → Fin 2048 → Bool
  | 0 => fun _ => false
  | n + 1 => fun j => Bool.xor (spriteMask x y rows n j) (rowMask x y (rows n) n 8 j)

/-- The machine `t` arises from `s` by toggling the cells of `m`, with `VF` possibly raised
to 1: raised if it was 1, and raised if a toggled cell held 1 in `s`.  Nothing else differs. -/
def Drawn (m : Fin 2048 → Bool) (s t : Chip8) : Prop :=
  ∃ v : Nat, t = { s with graphics := xorMask m s.graphics, V := upd s.V 0xF v } ∧
    (s.V VF = 1 → v = 1) ∧ (∀ j, m j = true → s.graphics j = 1 → v = 1)

/-- The collision flag `VF` of `t` is that of `s` or has been raised to 1, and it is 1 only if
it was 1 in `s` or a cell selected by `m` held 1 in `s`. -/
def Raised (m : Fin 2048 → Bool) (s t : Chip8) : Prop :=
  (t.V VF = s.V VF ∨ t.V VF = 1) ∧
    (t.V VF = 1 → s.V VF = 1 ∨ ∃ j, m j = true ∧ s.graphics j = 1)

/-! ## Concrete machines used as test inputs -/

/-- The machine with every cell and register zero. -/
def blank : Chip8 :=
  { memory := fun _ => 0, V := fun _ => 0, stack := fun _ => 0, sp := 0, pc := 0, opcode := 0,
    I := 0, soundTimer := 0, delayTimer := 0, graphics := fun _ => 0, keys := fun _ => 0,
    drawFlag := 0 }

/-- The machine about to execute the instruction with bytes `hi`, `lo` at address 0x200,
with register file `V` and keypad `keys`; everything else is zero. -/
def atInstr (hi lo : Nat) (V keys : Fin 16 → Nat) : Chip8 :=
  { blank with
    memory := fun a => if a.val = 0x200 then hi else if a.val = 0x201 then lo else 0
    pc := 0x200
    V := V
    keys := keys }

/-- The machine about to execute `2300` (call 0x300) at address 0x200, with `00EE` stored at
address 0x300, `sp = 2`, and stack entries 0x6A0 and 0x6B0 below the stack pointer. -/
def callMachine : Chip8 :=
  { blank with
    memory := fun a =>
      if a.val = 0x200 then 0x23 else if a.val = 0x201 then 0x00
      else if a.val = 0x300 then 0x00 else if a.val = 0x301 then 0xEE else 0
    pc := 0x200
    sp := 2
    stack := fun k => if k.val = 0 then 0x6A0 else if k.val = 1 then 0x6B0 else 0 }

/-- The machine about to execute `D011` twice (at 0x200 and 0x202), with `I = 0x300`, the
one-row sprite `0x80` stored there, all registers zero and a dark screen. -/
def drawMachine : Chip8 :=
  { blank with
    memory := fun a =>
      if a.val = 0x200 then 0xD0 else if a.val = 0x201 then 0x11
      else if a.val = 0x202 then 0xD0 else if a.val = 0x203 then 0x11
      else if a.val = 0x300 then 0x80 else 0
    pc := 0x200
    I := 0x300 }

/-- A register file (or keypad) holding `a` at index `i`, `b` at index `j` and 0 elsewhere. -/
def two (i a j b : Nat) : Fin 16 → Nat :=
  fun k => if k.val = i then a else if k.val = j then b else 0

/-- The machine about to execute `F155` at 0x200 with `V0 = 7`, `V1 = 9`, `V2 = 4` and
`I = 0x300`. -/
def storeMachine : Chip8 :=
  { blank with
    memory := fun a => if a.val = 0x200 then 0xF1 else if a.val = 0x201 then 0x55 else 0
    pc := 0x200
    I := 0x300
    V := fun k => if k.val = 0 then 7 else if k.val = 1 then 9 else if k.val = 2 then 4 else 0 }

/-- The machine about to execute `D011` at 0x200 with `V0 = 60`, `V1 = 0`, `I = 0x300`, the
one-row sprite `0xFF` stored there and a dark screen. -/
def wrapMachine : Chip8 :=
  { blank with
    memory := fun a =>
      if a.val = 0x200 then 0xD0 else if a.val = 0x201 then 0x11
      else if a.val = 0x300 then 0xFF else 0
    pc := 0x200
    I := 0x300
    V := fun k => if k.val = 0 then 60 else 0 }

/-- The machine about to execute `2300` (call 0x300) at address 0x200 with 16 entries on the
stack (`sp = 16`). -/
def fullStackMachine : Chip8 :=
  { atInstr 0x23 0x00 (fun _ => 0) (fun _ => 0) with sp := 16 }

/-- The machine about to execute the opcode `01E0` at address 0x200 with framebuffer cell 0
lit and every other cell dark. -/
def litMachine : Chip8 :=
  { blank with
    memory := fun a => if a.val = 0x200 then 0x01 else if a.val = 0x201 then 0xE0 else 0
    pc := 0x200
    graphics := fun j => if j.val = 0 then 1 else 0 }

/-! ## Decoding lemmas: the bit masks of the decoder as quotients and remainders -/

theorem and_shiftLeft_eq (a b k : Nat) : a &&& (b <<< k) = ((a >>> k) &&& b) <<< k := by
  apply Nat.eq_of_testBit_eq
  intro i
  simp only [Nat.testBit_and, Nat.testBit_shiftLeft, Nat.testBit_shiftRight]
  by_cases h : k ≤ i
  · simp [h]
  · simp [h]

theorem and_00FF (op : Nat) : op &&& 0x00FF = op % 256 :=
  Nat.and_pow_two_sub_one_eq_mod op 8

theorem and_0FFF (op : Nat) : op &&& 0x0FFF = op % 4096 :=
  Nat.and_pow_two_sub_one_eq_mod op 12

theorem and_000F (op : Nat) : op &&& 0x000F = op % 16 :=
  Nat.and_pow_two_sub_one_eq_mod op 4

theorem and_F000 (op : Nat) : op &&& 0xF000 = op / 4096 % 16 * 4096 := by
  have h : (0xF000 : Nat) = 15 <<< 12 := by decide
  rw [h, and_shiftLeft_eq, Nat.shiftRight_eq_div_pow, Nat.shiftLeft_eq]
  have h4 := Nat.and_pow_two_sub_one_eq_mod (op / 2 ^ 12) 4
  simp at h4 ⊢
  exact h4

theorem X_val (op : Nat) : (X op).val = op / 256 % 16 := by
  have h : (0x0F00 : Nat) = 15 <<< 8 := by decide
  show (op &&& 0x0F00) >>> 8 = op / 256 % 16
  rw [h, and_shiftLeft_eq, Nat.shiftLeft_shiftRight, Nat.shiftRight_eq_div_pow]
  exact Nat.and_pow_two_sub_one_eq_mod _ 4

theorem Y_val (op : Nat) : (Y op).val = op / 16 % 16 := by
  have h : (0x00F0 : Nat) = 15 <<< 4 := by decide
  show (op &&& 0x00F0) >>> 4 = op / 16 % 16
  rw [h, and_shiftLeft_eq, Nat.shiftLeft_shiftRight, Nat.shiftRight_eq_div_pow]
  exact Nat.and_pow_two_sub_one_eq_mod _ 4

theorem NN_eq (op : Nat) : NN op = op % 256 := and_00FF op

theorem NNN_eq (op : Nat) : NNN op = op % 4096 := and_0FFF op

/-- The fetched opcode is the big-endian pair of the two bytes. -/
theorem fetch_eq (hi lo : Nat) (hhi : hi < 256) (hlo : lo < 256) :
    ((hi <<< 8) ||| lo) % 65536 = hi * 256 + lo := by
  rw [Nat.shiftLeft_eq, Nat.mul_comm, ← Nat.mul_add_lt_is_or (by simpa using hlo)]
  omega

/-! ## Sequencing in `Except Fault`

Sequencing is rewritten with these equations, so that no proof step asks for the
evaluation of a bounds check on a symbolic index. -/

theorem ok_bind {α β : Type} (a : α) (f : α → Except Fault β) :
    (Except.ok a >>= f) = f a := rfl

theorem error_bind {α β : Type} (e : Fault) (f : α → Except Fault β) :
    ((Except.error e : Except Fault α) >>= f) = Except.error e := rfl

theorem pure_eq_ok {α : Type} (a : α) : (pure a : Except Fault α) = Except.ok a := rfl

/-! ## Array access lemmas -/

theorem rd_of_lt {n : Nat} (a : Fin n → Nat) (i : Nat) (h : i < n) :
    rd a i = .ok (a ⟨i, h⟩) := by
  simp [rd, h]

theorem rd_val {n : Nat} (a : Fin n → Nat) (i : Fin n) : rd a i.val = .ok (a i) := by
  simp [rd]

theorem rd_eq_ok {n : Nat} {a : Fin n → Nat} {i v : Nat} (h : rd a i = .ok v) :
    ∃ hi : i < n, a ⟨i, hi⟩ = v := by
  unfold rd at h
  split at h
  · rename_i hi
    exact ⟨hi, by injection h⟩
  · cases h

theorem wr_of_lt {n : Nat} (a : Fin n → Nat) (i v : Nat) (h : i < n) :
    wr a i v = .ok (upd a i v) := by
  simp [wr, h]

theorem upd_same {n : Nat} (a : Fin n → Nat) (i : Fin n) (v : Nat) : upd a i.val v i = v := by
  simp [upd]

theorem upd_other {n : Nat} (a : Fin n → Nat) (i : Nat) (j : Fin n) (v : Nat) (h : j.val ≠ i) :
    upd a i v j = a j := by
  simp [upd, h]

theorem upd_apply {n : Nat} (a : Fin n → Nat) (i v : Nat) (j : Fin n) :
    upd a i v j = if j.val = i then v else a j := rfl

@[simp] theorem VF_val : VF.val = 15 := rfl

@[simp] theorem V0_val : V0.val = 0 := rfl

theorem fill_zero {n : Nat} (f : Nat → Nat) (a : Fin n → Nat) : fill 0 f a = a := by
  funext j
  simp [fill]

theorem upd_fill {n : Nat} (k : Nat) (f : Nat → Nat) (a : Fin n → Nat) :
    upd (fill k f a) k (f k) = fill (k + 1) f a := by
  funext j
  simp only [upd, fill]
  by_cases h1 : j.val = k
  · simp [h1]
  · by_cases h2 : j.val < k
    · have h3 : j.val < k + 1 := by omega
      simp [h1, h2, h3]
    · have h3 : ¬ j.val < k + 1 := by omega
      simp [h1, h2, h3]

theorem fill_all {n : Nat} (k : Nat) (h : n ≤ k) (f : Nat → Nat) (a : Fin n → Nat) :
    fill k f a = fun j => f j.val := by
  funext j
  have hj : j.val < k := by omega
  simp [fill, hj]

/-! ## Loop equations

The loops are unfolded only through these equations: their iteration counts are
literals as large as 4096, which must not be expanded by definitional unfolding. -/

theorem forLoop_zero {σ : Type} (body : Nat → σ → σ) (s : σ) : forLoop body 0 s = s := rfl

theorem forLoop_succ {σ : Type} (body : Nat → σ → σ) (k : Nat) (s : σ) :
    forLoop body (k + 1) s = body k (forLoop body k s) := rfl

theorem forLoopM_zero {σ : Type} (body : Nat → σ → Except Fault σ) (s : σ) :
    forLoopM body 0 s = .ok s := rfl

theorem forLoopM_succ {σ : Type} (body : Nat → σ → Except Fault σ) (k : Nat) (s : σ) :
    forLoopM body (k + 1) s =
      match forLoopM body k s with
      | .ok t => body k t
      | .error e => .error e := rfl

attribute [irreducible] forLoop forLoopM

/-! ## The loops of `init` and `load` in closed form -/

theorem loop_graphics (f : Nat → Nat) (n : Nat) (s : Chip8) :
    forLoop (fun i s => { s with graphics := upd s.graphics i (f i) }) n s
      = { s with graphics := fill n f s.graphics } := by
  induction n with
  | zero => simp [forLoop_zero, fill_zero]
  | succ k ih => simp [forLoop_succ, ih, upd_fill]

theorem loop_memory (f : Nat → Nat) (n : Nat) (s : Chip8) :
    forLoop (fun i s => { s with memory := upd s.memory i (f i) }) n s
      = { s with memory := fill n f s.memory } := by
  induction n with
  | zero => simp [forLoop_zero, fill_zero]
  | succ k ih => simp [forLoop_succ, ih, upd_fill]

theorem loop_regs (n : Nat) (s : Chip8) :
    forLoop (fun i s =>
      let s := { s with stack := upd s.stack i 0 }
      let s := { s with V := upd s.V i 0 }
      { s with keys := upd s.keys i 0 }) n s
      = { s with stack := fill n (fun _ => 0) s.stack, V := fill n (fun _ => 0) s.V,
                 keys := fill n (fun _ => 0) s.keys } := by
  induction n with
  | zero => simp [forLoop_zero, fill_zero]
  | succ k ih =>
    simp only [forLoop_succ, ih]
    rw [← upd_fill k (fun _ => 0) s.stack, ← upd_fill k (fun _ => 0) s.V,
      ← upd_fill k (fun _ => 0) s.keys]

/-- The body of `init` with its `let` bindings substituted. -/
theorem init_unfold (s : Chip8) :
    init s =
      { { (forLoop (fun i (s : Chip8) =>
              { s with memory := upd s.memory i (chip8_fontset.getD i 0) }) 80
          (forLoop (fun i (s : Chip8) => { s with memory := upd s.memory i 0 }) 4096
            (forLoop (fun i (s : Chip8) =>
                let s := { s with stack := upd s.stack i 0 }
                let s := { s with V := upd s.V i 0 }
                { s with keys := upd s.keys i 0 }) 16
              (clearDisplay
                { { { { s with pc := 0x200 } with sp := 0 } with opcode := 0 } with I := 0 })))) with
        soundTimer := 0 } with delayTimer := 0 } := rfl

/-- The machine that `init` leaves: everything but `drawFlag` is fixed. -/
theorem init_eq (s : Chip8) :
    init s =
      { memory := fun i => if i.val < 80 then chip8_fontset.getD i.val 0 else 0
        V := fun _ => 0
        stack := fun _ => 0
        sp := 0
        pc := 0x200
        opcode := 0
        I := 0
        soundTimer := 0
        delayTimer := 0
        graphics := fun _ => 0
        keys := fun _ => 0
        drawFlag := s.drawFlag } := by
  rw [init_unfold, clearDisplay, loop_graphics (fun _ => 0), loop_regs, loop_memory (fun _ => 0),
    loop_memory (fun i => chip8_fontset.getD i 0)]
  simp only [fill_all 2048 (Nat.le_refl _), fill_all 16 (Nat.le_refl _),
    fill_all 4096 (Nat.le_refl _)]
  rfl

theorem loop_copy (g : Nat → Nat) (n : Nat) (s : Chip8) :
    forLoop (fun i s => { s with memory := upd s.memory (i + 512) (g i) }) n s
      = { s with memory := fun j =>
            if 512 ≤ j.val ∧ j.val < 512 + n then g (j.val - 512) else s.memory j } := by
  induction n with
  | zero =>
    rw [forLoop_zero]
    have h : (fun j : Fin 4096 =>
        if 512 ≤ j.val ∧ j.val < 512 + 0 then g (j.val - 512) else s.memory j) = s.memory := by
      funext j
      have hj : ¬ (512 ≤ j.val ∧ j.val < 512 + 0) := by omega
      simp [hj]
    rw [h]
  | succ k ih =>
    rw [forLoop_succ, ih]
    simp only [Chip8.mk.injEq, true_and, and_true]
    funext j
    simp only [upd]
    by_cases h1 : j.val = k + 512
    · have h2 : 512 ≤ j.val ∧ j.val < 512 + (k + 1) := by omega
      have h3 : j.val - 512 = k := by omega
      rw [if_pos h1, if_pos h2, h3]
    · by_cases h2 : 512 ≤ j.val ∧ j.val < 512 + k
      · have h3 : 512 ≤ j.val ∧ j.val < 512 + (k + 1) := by omega
        simp [h1, h2, h3]
      · have h3 : ¬ (512 ≤ j.val ∧ j.val < 512 + (k + 1)) := by omega
        simp [h1, h2, h3]

/-- A file shorter than 3584 bytes is loaded: `load` returns 1 and the bytes lie at
address 512 and up, in the machine that `init` leaves. -/
theorem load_of_lt (rom : List Nat) (s : Chip8) (h : rom.length < 3584) :
    load (some rom) s =
      (1, { init s with memory := fun j =>
              if 512 ≤ j.val ∧ j.val < 512 + rom.length then rom.getD (j.val - 512) 0 % 256
              else (init s).memory j }) := by
  have hc : (4096 - 512) > rom.length := by omega
  simp only [load, hc, if_true]
  rw [loop_copy (fun i => rom.getD i 0 % 256)]

/-- A file of 3584 bytes or more is rejected: `load` returns 0 and the machine is the
one that `init` leaves. -/
theorem load_of_ge (rom : List Nat) (s : Chip8) (h : 3584 ≤ rom.length) :
    load (some rom) s = (0, init s) := by
  have hc : ¬ (4096 - 512) > rom.length := by omega
  simp only [load, hc, if_false]

theorem load_ret_one (rom : List Nat) (s : Chip8) (h : (load (some rom) s).1 = 1) :
    rom.length < 3584 := by
  by_contra hge
  rw [load_of_ge rom s (by omega)] at h
  cases h

/-! ## Field lemmas for the elementary statements -/

@[simp] theorem advance_pc (n : Nat) (s : Chip8) : (advance n s).pc = (s.pc + n) % 65536 := rfl
@[simp] theorem advance_V (n : Nat) (s : Chip8) : (advance n s).V = s.V := rfl
@[simp] theorem advance_memory (n : Nat) (s : Chip8) : (advance n s).memory = s.memory := rfl
@[simp] theorem advance_graphics (n : Nat) (s : Chip8) : (advance n s).graphics = s.graphics := rfl
@[simp] theorem advance_stack (n : Nat) (s : Chip8) : (advance n s).stack = s.stack := rfl
@[simp] theorem advance_sp (n : Nat) (s : Chip8) : (advance n s).sp = s.sp := rfl
@[simp] theorem advance_I (n : Nat) (s : Chip8) : (advance n s).I = s.I := rfl
@[simp] theorem advance_keys (n : Nat) (s : Chip8) : (advance n s).keys = s.keys := rfl
@[simp] theorem advance_opcode (n : Nat) (s : Chip8) : (advance n s).opcode = s.opcode := rfl
@[simp] theorem advance_drawFlag (n : Nat) (s : Chip8) : (advance n s).drawFlag = s.drawFlag := rfl
@[simp] theorem advance_delayTimer (n : Nat) (s : Chip8) :
    (advance n s).delayTimer = s.delayTimer := rfl
@[simp] theorem advance_soundTimer (n : Nat) (s : Chip8) :
    (advance n s).soundTimer = s.soundTimer := rfl

@[simp] theorem setV_V (i : Fin 16) (v : Nat) (s : Chip8) : (setV i v s).V = upd s.V i.val v := rfl
@[simp] theorem setV_pc (i : Fin 16) (v : Nat) (s : Chip8) : (setV i v s).pc = s.pc := rfl
@[simp] theorem setV_memory (i : Fin 16) (v : Nat) (s : Chip8) :
    (setV i v s).memory = s.memory := rfl
@[simp] theorem setV_graphics (i : Fin 16) (v : Nat) (s : Chip8) :
    (setV i v s).graphics = s.graphics := rfl
@[simp] theorem setV_stack (i : Fin 16) (v : Nat) (s : Chip8) : (setV i v s).stack = s.stack := rfl
@[simp] theorem setV_sp (i : Fin 16) (v : Nat) (s : Chip8) : (setV i v s).sp = s.sp := rfl
@[simp] theorem setV_I (i : Fin 16) (v : Nat) (s : Chip8) : (setV i v s).I = s.I := rfl
@[simp] theorem setV_keys (i : Fin 16) (v : Nat) (s : Chip8) : (setV i v s).keys = s.keys := rfl
@[simp] theorem setV_opcode (i : Fin 16) (v : Nat) (s : Chip8) :
    (setV i v s).opcode = s.opcode := rfl
@[simp] theorem setV_drawFlag (i : Fin 16) (v : Nat) (s : Chip8) :
    (setV i v s).drawFlag = s.drawFlag := rfl
@[simp] theorem setV_delayTimer (i : Fin 16) (v : Nat) (s : Chip8) :
    (setV i v s).delayTimer = s.delayTimer := rfl
@[simp] theorem setV_soundTimer (i : Fin 16) (v : Nat) (s : Chip8) :
    (setV i v s).soundTimer = s.soundTimer := rfl

/-- The timer update changes nothing but the two timers. -/
theorem updateTimers_eq (s : Chip8) :
    updateTimers s = { s with delayTimer := s.delayTimer - 1, soundTimer := s.soundTimer - 1 } := by
  unfold updateTimers
  by_cases hd : s.delayTimer > 0 <;> by_cases hs : s.soundTimer > 0
  · simp [hd, hs]
  · have h0 : s.soundTimer = 0 := by omega
    simp [hd, h0]
  · have h0 : s.delayTimer = 0 := by omega
    simp [hs, h0]
  · have h0 : s.delayTimer = 0 := by omega
    have h1 : s.soundTimer = 0 := by omega
    have e : s = { s with delayTimer := 0, soundTimer := 0 } := by
      cases s
      simp_all
    simp [h0, h1]
    exact e

@[simp] theorem updateTimers_pc (s : Chip8) : (updateTimers s).pc = s.pc := by
  rw [updateTimers_eq]
@[simp] theorem updateTimers_V (s : Chip8) : (updateTimers s).V = s.V := by
  rw [updateTimers_eq]
@[simp] theorem updateTimers_memory (s : Chip8) : (updateTimers s).memory = s.memory := by
  rw [updateTimers_eq]
@[simp] theorem updateTimers_graphics (s : Chip8) : (updateTimers s).graphics = s.graphics := by
  rw [updateTimers_eq]
@[simp] theorem updateTimers_stack (s : Chip8) : (updateTimers s).stack = s.stack := by
  rw [updateTimers_eq]
@[simp] theorem updateTimers_sp (s : Chip8) : (updateTimers s).sp = s.sp := by
  rw [updateTimers_eq]
@[simp] theorem updateTimers_I (s : Chip8) : (updateTimers s).I = s.I := by
  rw [updateTimers_eq]
@[simp] theorem updateTimers_keys (s : Chip8) : (updateTimers s).keys = s.keys := by
  rw [updateTimers_eq]
@[simp] theorem updateTimers_opcode (s : Chip8) : (updateTimers s).opcode = s.opcode := by
  rw [updateTimers_eq]
@[simp] theorem updateTimers_drawFlag (s : Chip8) : (updateTimers s).drawFlag = s.drawFlag := by
  rw [updateTimers_eq]
@[simp] theorem updateTimers_delayTimer (s : Chip8) :
    (updateTimers s).delayTimer = s.delayTimer - 1 := by
  rw [updateTimers_eq]
@[simp] theorem updateTimers_soundTimer (s : Chip8) :
    (updateTimers s).soundTimer = s.soundTimer - 1 := by
  rw [updateTimers_eq]

/-- The operand fields of the opcode with bytes `hi` and `lo`. -/
theorem X_bytes (hi lo : Nat) (x : Fin 16) (hlo : lo < 256) (h : hi % 16 = x.val) :
    X (hi * 256 + lo) = x := by
  apply Fin.ext
  rw [X_val]
  omega

theorem Y_bytes (hi lo : Nat) (y : Fin 16) (hlo : lo < 256) (h : lo / 16 = y.val) :
    Y (hi * 256 + lo) = y := by
  apply Fin.ext
  rw [Y_val]
  omega

/-- Fetching from the test machine `atInstr`. -/
theorem atInstr_hi (hi lo : Nat) (V keys : Fin 16 → Nat) :
    rd (atInstr hi lo V keys).memory (atInstr hi lo V keys).pc = .ok hi := rfl

theorem atInstr_lo (hi lo : Nat) (V keys : Fin 16 → Nat) :
    rd (atInstr hi lo V keys).memory ((atInstr hi lo V keys).pc + 1) = .ok lo := rfl

/-! ## Fetch and dispatch -/

/-- A cycle whose two instruction bytes are `hi` and `lo`, and whose instruction leaves
the switch normally, ends with the timer update. -/
theorem emulateCycle_next (rnd : Nat) (s t : Chip8) (hi lo : Nat)
    (h1 : rd s.memory s.pc = .ok hi) (h2 : rd s.memory (s.pc + 1) = .ok lo)
    (hhi : hi < 256) (hlo : lo < 256)
    (hex : execute rnd { s with opcode := hi * 256 + lo } = .ok (false, t)) :
    emulateCycle rnd s = .ok (updateTimers t) := by
  simp only [emulateCycle, h1, h2, ok_bind, fetch_eq hi lo hhi hlo, hex]
  rfl

/-- A cycle whose instruction returns from inside the switch skips the timer update. -/
theorem emulateCycle_return (rnd : Nat) (s t : Chip8) (hi lo : Nat)
    (h1 : rd s.memory s.pc = .ok hi) (h2 : rd s.memory (s.pc + 1) = .ok lo)
    (hhi : hi < 256) (hlo : lo < 256)
    (hex : execute rnd { s with opcode := hi * 256 + lo } = .ok (true, t)) :
    emulateCycle rnd s = .ok t := by
  simp only [emulateCycle, h1, h2, ok_bind, fetch_eq hi lo hhi hlo, hex]
  rfl

/-- A cycle whose instruction faults, faults. -/
theorem emulateCycle_error (rnd : Nat) (s : Chip8) (hi lo : Nat) (e : Fault)
    (h1 : rd s.memory s.pc = .ok hi) (h2 : rd s.memory (s.pc + 1) = .ok lo)
    (hhi : hi < 256) (hlo : lo < 256)
    (hex : execute rnd { s with opcode := hi * 256 + lo } = .error e) :
    emulateCycle rnd s = .error e := by
  simp only [emulateCycle, h1, h2, ok_bind, fetch_eq hi lo hhi hlo, hex, error_bind]

theorem execute_6 (rnd : Nat) (s : Chip8) (h : s.opcode / 4096 % 16 = 6) :
    execute rnd s = .ok (false, advance 2 (setV (X s.opcode) (NN s.opcode) s)) := by
  have h6 : s.opcode &&& 0xF000 = 0x6000 := by rw [and_F000, h]
  simp only [execute, h6]

theorem execute_8 (rnd : Nat) (s t : Chip8) (h : s.opcode / 4096 % 16 = 8)
    (hc : case8 s = .ok t) : execute rnd s = .ok (false, t) := by
  have h8 : s.opcode &&& 0xF000 = 0x8000 := by rw [and_F000, h]
  simp only [execute, h8]
  simp only [hc, ok_bind]
  rfl

theorem case8_4 (s : Chip8) (h : s.opcode % 16 = 4) :
    case8 s = .ok (advance 2
      (if ((setV (X s.opcode) ((s.V (X s.opcode) + s.V (Y s.opcode)) % 256) s).V (Y s.opcode) : Int)
          + (setV (X s.opcode) ((s.V (X s.opcode) + s.V (Y s.opcode)) % 256) s).V (Y s.opcode)
          > 0xFF - ((setV (X s.opcode) ((s.V (X s.opcode) + s.V (Y s.opcode)) % 256) s).V
              (X s.opcode) : Int)
       then setV VF 1 (setV (X s.opcode) ((s.V (X s.opcode) + s.V (Y s.opcode)) % 256) s)
       else setV VF 0 (setV (X s.opcode) ((s.V (X s.opcode) + s.V (Y s.opcode)) % 256) s))) := by
  have h4 : s.opcode &&& 0x000F = 4 := by rw [and_000F, h]
  simp only [case8, h4]

theorem case8_5 (s : Chip8) (h : s.opcode % 16 = 5) :
    case8 s = .ok (advance 2
      (setV (X s.opcode)
        (Int.toNat ((((if s.V (Y s.opcode) > s.V (X s.opcode) then setV VF 0 s
              else setV VF 1 s).V (X s.opcode) : Int)
            - (if s.V (Y s.opcode) > s.V (X s.opcode) then setV VF 0 s
              else setV VF 1 s).V (Y s.opcode)) % 256))
        (if s.V (Y s.opcode) > s.V (X s.opcode) then setV VF 0 s else setV VF 1 s))) := by
  have h5 : s.opcode &&& 0x000F = 5 := by rw [and_000F, h]
  simp only [case8, h5]

theorem execute_0 (rnd : Nat) (s t : Chip8) (h : s.opcode / 4096 % 16 = 0)
    (hc : case0 s = .ok t) : execute rnd s = .ok (false, t) := by
  have h0 : s.opcode &&& 0xF000 = 0x0000 := by rw [and_F000, h]
  simp only [execute, h0]
  simp only [hc, ok_bind]
  rfl

theorem execute_2 (rnd : Nat) (s : Chip8) (h : s.opcode / 4096 % 16 = 2) (hsp : s.sp < 16) :
    execute rnd s = .ok (false,
      { s with stack := upd s.stack s.sp s.pc, sp := (s.sp + 1) % 65536, pc := NNN s.opcode }) := by
  have h2 : s.opcode &&& 0xF000 = 0x2000 := by rw [and_F000, h]
  simp only [execute, h2]
  simp only [wr_of_lt _ _ _ hsp, ok_bind]
  rfl

theorem execute_F (rnd : Nat) (s : Chip8) (h : s.opcode / 4096 % 16 = 15) :
    execute rnd s = caseF s := by
  have hF : s.opcode &&& 0xF000 = 0xF000 := by rw [and_F000, h]
  simp only [execute, hF]

theorem case0_EE (s : Chip8) (ret : Nat) (h : s.opcode % 256 = 0xEE)
    (hrd : rd s.stack ((s.sp + 65535) % 65536) = .ok ret) :
    case0 s = .ok (advance 2 { s with sp := (s.sp + 65535) % 65536, pc := ret }) := by
  have hEE : s.opcode &&& 0x00FF = 0x00EE := by rw [and_00FF, h]
  simp only [case0, hEE]
  simp only [hrd, ok_bind]
  rfl

theorem caseF_0A (s : Chip8) (p : Chip8 × Nat) (h : s.opcode % 256 = 0x0A)
    (hscan : forLoopM keyScan 16 (s, 0) = .ok p) :
    caseF s = if p.2 = 0 then .ok (true, p.1) else .ok (false, advance 2 p.1) := by
  have h0A : s.opcode &&& 0x00FF = 0x000A := by rw [and_00FF, h]
  simp only [caseF, h0A]
  simp only [hscan, ok_bind]
  rfl

/-- What `2NNN` (bytes `0x2a`, `b`) does with fewer than 16 entries on the stack. -/
theorem step_2NNN (rnd : Nat) (s : Chip8) (a b : Nat) (ha : a < 16) (hb : b < 256)
    (hsp : s.sp < 16)
    (hhi : rd s.memory s.pc = .ok (0x20 + a)) (hlo : rd s.memory (s.pc + 1) = .ok b) :
    emulateCycle rnd s = .ok (updateTimers
      { s with opcode := (0x20 + a) * 256 + b, stack := upd s.stack s.sp s.pc,
               sp := s.sp + 1, pc := a * 256 + b }) := by
  have hsp1 : (s.sp + 1) % 65536 = s.sp + 1 := by omega
  have hnnn : NNN ((0x20 + a) * 256 + b) = a * 256 + b := by
    rw [NNN_eq]
    omega
  have hex := execute_2 rnd { s with opcode := (0x20 + a) * 256 + b }
    (by show ((0x20 + a) * 256 + b) / 4096 % 16 = 2; omega) hsp
  have h1 := emulateCycle_next rnd s _ _ _ hhi hlo (by omega) hb hex
  simp only [hsp1, hnnn] at h1
  exact h1

/-- What `00EE` does with a nonempty stack whose top entry is `ret`. -/
theorem step_00EE (rnd : Nat) (s : Chip8) (ret : Nat)
    (hhi : rd s.memory s.pc = .ok 0x00) (hlo : rd s.memory (s.pc + 1) = .ok 0xEE)
    (hsp : 0 < s.sp) (hsp2 : s.sp < 65536)
    (hret : rd s.stack (s.sp - 1) = .ok ret) :
    emulateCycle rnd s = .ok (updateTimers
      { s with opcode := 0x00 * 256 + 0xEE, sp := s.sp - 1, pc := (ret + 2) % 65536 }) := by
  have hsp1 : (s.sp + 65535) % 65536 = s.sp - 1 := by omega
  have hc0 := case0_EE { s with opcode := 0x00 * 256 + 0xEE } ret (by simp) (by
    show rd s.stack ((s.sp + 65535) % 65536) = .ok ret
    rw [hsp1]
    exact hret)
  have hex := execute_0 rnd _ _ (by simp) hc0
  have h1 := emulateCycle_next rnd s _ 0x00 0xEE hhi hlo (by decide) (by decide) hex
  simp only [hsp1] at h1
  exact h1

/-! ## The key scan of `FX0A` -/

theorem keyScan_released (k : Nat) (hk : k < 16) (p : Chip8 × Nat)
    (h : p.1.keys ⟨k, hk⟩ = 0) : keyScan k p = .ok p := by
  simp only [keyScan, rd_of_lt _ _ hk, ok_bind, pure_eq_ok]
  simp [h]

theorem keyScan_pressed (k : Nat) (hk : k < 16) (p : Chip8 × Nat)
    (h : p.1.keys ⟨k, hk⟩ ≠ 0) :
    keyScan k p = .ok (setV (X p.1.opcode) k p.1, 1) := by
  simp only [keyScan, rd_of_lt _ _ hk, ok_bind, pure_eq_ok]
  simp [h]

theorem setV_setV (x : Fin 16) (a b : Nat) (s : Chip8) :
    setV x b (setV x a s) = setV x b s := by
  simp only [setV, Chip8.mk.injEq, true_and, and_true]
  funext j
  simp only [upd]
  by_cases hj : j.val = x.val <;> simp [hj]

/-- With no key pressed below `n`, the scan of the first `n` keys changes nothing. -/
theorem keyScan_loop_none (s : Chip8) (n : Nat) (hn : n ≤ 16)
    (h : ∀ k : Fin 16, k.val < n → s.keys k = 0) :
    forLoopM keyScan n (s, 0) = .ok (s, 0) := by
  induction n with
  | zero => exact forLoopM_zero _ _
  | succ k ih =>
    rw [forLoopM_succ, ih (by omega) (fun j hj => h j (by omega))]
    exact keyScan_released k (by omega) (s, 0) (h ⟨k, by omega⟩ (by simp))

/-- The scan of the first `n` keys leaves the machine unchanged or with `VX` overwritten. -/
theorem keyScan_loop_shape (s : Chip8) (n : Nat) (hn : n ≤ 16) :
    forLoopM keyScan n (s, 0) = .ok (s, 0) ∨
      ∃ m : Nat, forLoopM keyScan n (s, 0) = .ok (setV (X s.opcode) m s, 1) := by
  induction n with
  | zero => exact Or.inl (forLoopM_zero _ _)
  | succ k ih =>
    rw [forLoopM_succ]
    by_cases hk : s.keys ⟨k, by omega⟩ = 0
    · rcases ih (by omega) with h | ⟨m, h⟩
      · rw [h]
        exact Or.inl (keyScan_released k (by omega) (s, 0) hk)
      · rw [h]
        exact Or.inr ⟨m, keyScan_released k (by omega) (setV (X s.opcode) m s, 1) hk⟩
    · rcases ih (by omega) with h | ⟨m, h⟩
      · rw [h]
        exact Or.inr ⟨k, keyScan_pressed k (by omega) (s, 0) hk⟩
      · rw [h]
        refine Or.inr ⟨k, ?_⟩
        show keyScan k (setV (X s.opcode) m s, 1) = _
        rw [keyScan_pressed k (by omega) (setV (X s.opcode) m s, 1) hk]
        show Except.ok (setV (X s.opcode) k (setV (X s.opcode) m s), 1) = _
        rw [setV_setV]

/-- The scan of the first `n` keys stores the highest pressed index below `n` in `VX`. -/
theorem keyScan_loop_pressed (s : Chip8) (n : Nat) (hn : n ≤ 16) (m : Fin 16) (hm : m.val < n)
    (hp : s.keys m ≠ 0) (hmax : ∀ k : Fin 16, m.val < k.val → k.val < n → s.keys k = 0) :
    forLoopM keyScan n (s, 0) = .ok (setV (X s.opcode) m.val s, 1) := by
  induction n with
  | zero => omega
  | succ k ih =>
    rw [forLoopM_succ]
    by_cases hmk : m.val = k
    · have hkey : s.keys ⟨k, by omega⟩ ≠ 0 := by
        have e : (⟨k, by omega⟩ : Fin 16) = m := Fin.ext hmk.symm
        rw [e]
        exact hp
      rcases keyScan_loop_shape s k (by omega) with h | ⟨m', h⟩
      · rw [h, hmk]
        exact keyScan_pressed k (by omega) (s, 0) hkey
      · rw [h, hmk]
        show keyScan k (setV (X s.opcode) m' s, 1) = _
        rw [keyScan_pressed k (by omega) (setV (X s.opcode) m' s, 1) hkey]
        show Except.ok (setV (X s.opcode) k (setV (X s.opcode) m' s), 1) = _
        rw [setV_setV]
    · have hlt : m.val < k := by omega
      rw [ih (by omega) hlt (fun j h1 h2 => hmax j h1 (by omega))]
      exact keyScan_released k (by omega) _ (hmax ⟨k, by omega⟩ hlt (by simp))

/-- Among the pressed keys there is one of highest index. -/
theorem highest_pressed (keys : Fin 16 → Nat) (n : Nat) (hn : n ≤ 16)
    (h : ∃ k : Fin 16, k.val < n ∧ keys k ≠ 0) :
    ∃ m : Fin 16, m.val < n ∧ keys m ≠ 0 ∧ ∀ k : Fin 16, m.val < k.val → k.val < n → keys k = 0 := by
  induction n with
  | zero =>
    obtain ⟨k, hk, _⟩ := h
    omega
  | succ j ih =>
    by_cases hj : keys ⟨j, by omega⟩ = 0
    · obtain ⟨k, hk, hk0⟩ := h
      have hkj : k.val ≠ j := by
        intro e
        apply hk0
        have e2 : k = ⟨j, by omega⟩ := Fin.ext e
        rw [e2]
        exact hj
      obtain ⟨m, hm, hm0, hmax⟩ := ih (by omega) ⟨k, by omega, hk0⟩
      refine ⟨m, by omega, hm0, ?_⟩
      intro i h1 h2
      by_cases hij : i.val = j
      · have e2 : i = ⟨j, by omega⟩ := Fin.ext hij
        rw [e2]
        exact hj
      · exact hmax i h1 (by omega)
    · refine ⟨⟨j, by omega⟩, by simp, hj, ?_⟩
      intro i h1 h2
      simp at h1
      omega

/-- What `FX0A` does when the highest pressed key is `m`: `VX = m` and `pc` advances by 2. -/
theorem step_FX0A_pressed (rnd : Nat) (s : Chip8) (x m : Fin 16)
    (hhi : rd s.memory s.pc = .ok (0xF0 + x.val))
    (hlo : rd s.memory (s.pc + 1) = .ok 0x0A)
    (hp : s.keys m ≠ 0) (hmax : ∀ k : Fin 16, m.val < k.val → s.keys k = 0) :
    ∃ s', emulateCycle rnd s = .ok s' ∧ s'.V x = m.val ∧ s'.pc = s.pc + 2 := by
  have hxlt := x.isLt
  obtain ⟨hpc, _⟩ := rd_eq_ok hlo
  have hX : X ((0xF0 + x.val) * 256 + 0x0A) = x := X_bytes _ _ x (by omega) (by omega)
  have hscan := keyScan_loop_pressed
    { s with opcode := (0xF0 + x.val) * 256 + 0x0A } 16 (Nat.le_refl _) m m.isLt hp
    (fun k h1 _ => hmax k h1)
  have hex : execute rnd { s with opcode := (0xF0 + x.val) * 256 + 0x0A } =
      .ok (false, advance 2 (setV x m.val { s with opcode := (0xF0 + x.val) * 256 + 0x0A })) := by
    rw [execute_F rnd _ (by show ((0xF0 + x.val) * 256 + 0x0A) / 4096 % 16 = 15; omega),
      caseF_0A _ _ (by show ((0xF0 + x.val) * 256 + 0x0A) % 256 = 0x0A; omega) hscan]
    simp [hX]
  refine ⟨_, emulateCycle_next rnd _ _ _ _ hhi hlo (by omega) (by omega) hex, ?_, ?_⟩
  · simp [upd_apply]
  · simp
    omega

/-! ## Sprite drawing -/

theorem xor_one_xor_one (a : Nat) : (a ^^^ 1) ^^^ 1 = a := by
  rw [Nat.xor_assoc, Nat.xor_self, Nat.xor_zero]

theorem xorMask_xorMask (m : Fin 2048 → Bool) (g : Fin 2048 → Nat) :
    xorMask m (xorMask m g) = g := by
  funext j
  cases h : m j <;> simp [xorMask, h, xor_one_xor_one]

theorem xorMask_false (g : Fin 2048 → Nat) : xorMask (fun _ => false) g = g := by
  funext j
  simp [xorMask]

theorem xorMask_xor (m1 m2 : Fin 2048 → Bool) (g : Fin 2048 → Nat) :
    xorMask m2 (xorMask m1 g) = xorMask (fun j => Bool.xor (m1 j) (m2 j)) g := by
  funext j
  cases h1 : m1 j <;> cases h2 : m2 j <;> simp [xorMask, h1, h2, xor_one_xor_one]

theorem upd_upd {n : Nat} (a : Fin n → Nat) (i v w : Nat) : upd (upd a i v) i w = upd a i w := by
  funext j
  simp only [upd]
  by_cases h : j.val = i <;> simp [h]

theorem upd_self {n : Nat} (a : Fin n → Nat) (i : Fin n) : upd a i.val (a i) = a := by
  funext j
  simp only [upd]
  by_cases h : j.val = i.val
  · have e : j = i := Fin.ext h
    simp [e]
  · simp [h]

theorem Drawn.refl (s : Chip8) : Drawn (fun _ => false) s s := by
  refine ⟨s.V VF, ?_, fun h => h, ?_⟩
  · rw [xorMask_false]
    have e : upd s.V 0xF (s.V VF) = s.V := upd_self s.V VF
    rw [e]
  · intro j hj
    cases hj

theorem Drawn.trans {m1 m2 : Fin 2048 → Bool} {s t u : Chip8}
    (h1 : Drawn m1 s t) (h2 : Drawn m2 t u) :
    Drawn (fun j => Bool.xor (m1 j) (m2 j)) s u := by
  obtain ⟨v1, e1, a1, b1⟩ := h1
  obtain ⟨v2, e2, a2, b2⟩ := h2
  have hVF : t.V VF = v1 := by
    rw [e1]
    simp [upd_apply]
  have hg : t.graphics = xorMask m1 s.graphics := by rw [e1]
  refine ⟨v2, ?_, ?_, ?_⟩
  · rw [e2, e1]
    simp only [xorMask_xor, upd_upd]
  · intro h
    exact a2 (by rw [hVF]; exact a1 h)
  · intro j hj hs
    cases hm1 : m1 j
    · have hm2 : m2 j = true := by
        have hj2 : Bool.xor (m1 j) (m2 j) = true := hj
        rw [hm1] at hj2
        simpa using hj2
      apply b2 j hm2
      rw [hg]
      simp [xorMask, hm1, hs]
    · exact a2 (by rw [hVF]; exact b1 j hm1 hs)

/-- One column of one sprite row, when the addressed cell lies in the framebuffer. -/
theorem drawPixel_drawn (x y pixel r c : Nat) (s : Chip8)
    (h : x + c + ((y + r) * 64) < 2048) :
    ∃ t, drawPixel x y pixel r c s = .ok t ∧ Drawn (pixelMask x y pixel r c) s t := by
  by_cases hb : (pixel &&& (0x80 >>> c)) ≠ 0
  · by_cases hg : s.graphics ⟨x + c + ((y + r) * 64), h⟩ = 1
    · refine ⟨{ (setV VF 1 s) with
                  graphics := upd s.graphics (x + c + ((y + r) * 64)) (1 ^^^ 1) },
        ?_, 1, ?_, fun _ => rfl, fun _ _ _ => rfl⟩
      · simp only [drawPixel, hb, ne_eq, not_false_eq_true, if_true, rd_of_lt _ _ h, ok_bind, hg]
        simp only [setV_graphics, rd_of_lt _ _ h, ok_bind, hg, wr_of_lt _ _ _ h, pure_eq_ok]
      · simp only [setV, VF_val, Chip8.mk.injEq, true_and, and_true]
        funext j
        simp only [upd, xorMask, pixelMask, hb, ne_eq, not_false_eq_true, true_and,
          decide_eq_true_eq]
        by_cases hj : j.val = x + c + ((y + r) * 64)
        · have e : j = ⟨x + c + ((y + r) * 64), h⟩ := Fin.ext hj
          simp [hj, e, hg]
        · simp [hj]
    · refine ⟨{ s with
                  graphics := upd s.graphics (x + c + ((y + r) * 64))
                    (s.graphics ⟨x + c + ((y + r) * 64), h⟩ ^^^ 1) },
        ?_, s.V VF, ?_, fun e => e, ?_⟩
      · simp only [drawPixel, hb, ne_eq, not_false_eq_true, if_true, rd_of_lt _ _ h, ok_bind, hg,
          if_false]
        simp only [rd_of_lt _ _ h, ok_bind, wr_of_lt _ _ _ h, pure_eq_ok]
      · have e : upd s.V 0xF (s.V VF) = s.V := upd_self s.V VF
        rw [e]
        simp only [Chip8.mk.injEq, true_and, and_true]
        funext j
        simp only [upd, xorMask, pixelMask, hb, ne_eq, not_false_eq_true, true_and,
          decide_eq_true_eq]
        by_cases hj : j.val = x + c + ((y + r) * 64)
        · have e : j = ⟨x + c + ((y + r) * 64), h⟩ := Fin.ext hj
          simp [hj, e]
        · simp [hj]
      · intro j hj hs
        exfalso
        apply hg
        simp only [pixelMask, decide_eq_true_eq] at hj
        have e : j = ⟨x + c + ((y + r) * 64), h⟩ := Fin.ext hj.2
        rw [← e]
        exact hs
  · refine ⟨s, ?_, ?_⟩
    · simp only [drawPixel, hb, if_false, pure_eq_ok]
    · have e : pixelMask x y pixel r c = fun _ => false := by
        funext j
        simp only [pixelMask, hb, false_and, decide_False]
      rw [e]
      exact Drawn.refl s

theorem Drawn.graphics_eq {m : Fin 2048 → Bool} {s t : Chip8} (h : Drawn m s t) :
    t.graphics = xorMask m s.graphics := by
  obtain ⟨v, e, _, _⟩ := h
  rw [e]

theorem Drawn.memory_eq {m : Fin 2048 → Bool} {s t : Chip8} (h : Drawn m s t) :
    t.memory = s.memory := by
  obtain ⟨v, e, _, _⟩ := h
  rw [e]

theorem Drawn.I_eq {m : Fin 2048 → Bool} {s t : Chip8} (h : Drawn m s t) : t.I = s.I := by
  obtain ⟨v, e, _, _⟩ := h
  rw [e]

theorem Drawn.pc_eq {m : Fin 2048 → Bool} {s t : Chip8} (h : Drawn m s t) : t.pc = s.pc := by
  obtain ⟨v, e, _, _⟩ := h
  rw [e]

theorem Drawn.V_eq {m : Fin 2048 → Bool} {s t : Chip8} (h : Drawn m s t) (i : Fin 16)
    (hi : i ≠ VF) : t.V i = s.V i := by
  obtain ⟨v, e, _, _⟩ := h
  have hi2 : i.val ≠ 15 := fun h2 => hi (Fin.ext h2)
  rw [e]
  simp [upd_apply, hi2]

theorem Drawn.collision {m : Fin 2048 → Bool} {s t : Chip8} (h : Drawn m s t) (j : Fin 2048)
    (hm : m j = true) (hg : s.graphics j = 1) : t.V VF = 1 := by
  obtain ⟨v, e, _, b⟩ := h
  rw [e]
  simp [upd_apply, b j hm hg]

/-- The first `k` columns of one sprite row. -/
theorem drawCols_drawn (x y pixel r : Nat) (s : Chip8) (k : Nat)
    (h : ∀ c, c < k → x + c + ((y + r) * 64) < 2048) :
    ∃ t, forLoopM (drawPixel x y pixel r) k s = .ok t ∧ Drawn (rowMask x y pixel r k) s t := by
  induction k with
  | zero => exact ⟨s, forLoopM_zero _ _, Drawn.refl s⟩
  | succ k ih =>
    obtain ⟨t, ht, hd⟩ := ih (fun c hc => h c (by omega))
    obtain ⟨u, hu, hd2⟩ := drawPixel_drawn x y pixel r k t (h k (by omega))
    refine ⟨u, ?_, hd.trans hd2⟩
    rw [forLoopM_succ, ht]
    exact hu

/-- One sprite row whose byte is `pixel`. -/
theorem drawRow_drawn (x y r pixel : Nat) (s : Chip8)
    (hrd : rd s.memory (s.I + r) = .ok pixel)
    (h : ∀ c, c < 8 → x + c + ((y + r) * 64) < 2048) :
    ∃ t, drawRow x y r s = .ok t ∧ Drawn (rowMask x y pixel r 8) s t := by
  obtain ⟨t, ht, hd⟩ := drawCols_drawn x y pixel r s 8 h
  refine ⟨t, ?_, hd⟩
  simp only [drawRow, hrd, ok_bind]
  exact ht

/-- The first `n` rows of the sprite whose row bytes are `rows`. -/
theorem drawRows_drawn (x y : Nat) (rows : Nat → Nat) (s : Chip8) (n : Nat)
    (hrd : ∀ r, r < n → rd s.memory (s.I + r) = .ok (rows r))
    (h : ∀ r c, r < n → c < 8 → x + c + ((y + r) * 64) < 2048) :
    ∃ t, forLoopM (drawRow x y) n s = .ok t ∧ Drawn (spriteMask x y rows n) s t := by
  induction n with
  | zero => exact ⟨s, forLoopM_zero _ _, Drawn.refl s⟩
  | succ k ih =>
    obtain ⟨t, ht, hd⟩ := ih (fun r hr => hrd r (by omega)) (fun r c hr hc => h r c (by omega) hc)
    have hrd2 : rd t.memory (t.I + k) = .ok (rows k) := by
      rw [hd.memory_eq, hd.I_eq]
      exact hrd k (by omega)
    obtain ⟨u, hu, hd2⟩ := drawRow_drawn x y k (rows k) t hrd2 (fun c hc => h k c (by omega) hc)
    refine ⟨u, ?_, hd.trans hd2⟩
    rw [forLoopM_succ, ht]
    exact hu

/-- The body of `case 0xD000` when the sprite rows can be read and every addressed cell
lies in the framebuffer. -/
theorem caseD_drawn (s : Chip8) (rows : Nat → Nat)
    (hrd : ∀ r, r < s.opcode % 16 → rd s.memory (s.I + r) = .ok (rows r))
    (h : ∀ r c, r < s.opcode % 16 → c < 8 →
      s.V (X s.opcode) + c + ((s.V (Y s.opcode) + r) * 64) < 2048) :
    ∃ t, caseD s = .ok (advance 2 { t with drawFlag := 1 }) ∧
      Drawn (spriteMask (s.V (X s.opcode)) (s.V (Y s.opcode)) rows (s.opcode % 16))
        (setV VF 0 s) t := by
  obtain ⟨t, ht, hd⟩ := drawRows_drawn (s.V (X s.opcode)) (s.V (Y s.opcode)) rows
    (setV VF 0 s) (s.opcode % 16) hrd h
  refine ⟨t, ?_, hd⟩
  simp only [caseD, and_000F, ht, ok_bind, pure_eq_ok]

theorem execute_D (rnd : Nat) (s t : Chip8) (h : s.opcode / 4096 % 16 = 13)
    (hc : caseD s = .ok t) : execute rnd s = .ok (false, t) := by
  have hD : s.opcode &&& 0xF000 = 0xD000 := by rw [and_F000, h]
  simp only [execute, hD]
  simp only [hc, ok_bind]
  rfl

/-- What `DXYN` (bytes `0xDx`, `0xyn`) does when the sprite rows can be read and the
sprite lies inside the framebuffer: the cells of the sprite mask are toggled, `VF` is the
collision flag, the redraw flag is set and `pc` advances by 2. -/
theorem step_DXYN (rnd : Nat) (s : Chip8) (x y : Fin 16) (n : Nat) (hn : n < 16)
    (rows : Nat → Nat)
    (hhi : rd s.memory s.pc = .ok (0xD0 + x.val))
    (hlo : rd s.memory (s.pc + 1) = .ok (0x10 * y.val + n))
    (hrd : ∀ r, r < n → rd s.memory (s.I + r) = .ok (rows r))
    (hfit : ∀ r c, r < n → c < 8 → s.V x + c + ((s.V y + r) * 64) < 2048) :
    ∃ t, emulateCycle rnd s = .ok (updateTimers (advance 2 { t with drawFlag := 1 })) ∧
      Drawn (spriteMask (s.V x) (s.V y) rows n)
        (setV VF 0 { s with opcode := (0xD0 + x.val) * 256 + (0x10 * y.val + n) }) t := by
  have hxlt := x.isLt
  have hylt := y.isLt
  have hX : X ((0xD0 + x.val) * 256 + (0x10 * y.val + n)) = x :=
    X_bytes _ _ x (by omega) (by omega)
  have hY : Y ((0xD0 + x.val) * 256 + (0x10 * y.val + n)) = y :=
    Y_bytes _ _ y (by omega) (by omega)
  have hN : ((0xD0 + x.val) * 256 + (0x10 * y.val + n)) % 16 = n := by omega
  obtain ⟨t, ht, hd⟩ := caseD_drawn
    { s with opcode := (0xD0 + x.val) * 256 + (0x10 * y.val + n) } rows
    (by
      show ∀ r, r < ((0xD0 + x.val) * 256 + (0x10 * y.val + n)) % 16 →
        rd s.memory (s.I + r) = .ok (rows r)
      rw [hN]
      exact hrd)
    (by
      show ∀ r c, r < ((0xD0 + x.val) * 256 + (0x10 * y.val + n)) % 16 → c < 8 →
        s.V (X ((0xD0 + x.val) * 256 + (0x10 * y.val + n))) + c +
          ((s.V (Y ((0xD0 + x.val) * 256 + (0x10 * y.val + n))) + r) * 64) < 2048
      rw [hN, hX, hY]
      exact hfit)
  refine ⟨t, ?_, ?_⟩
  · exact emulateCycle_next rnd s _ _ _ hhi hlo (by omega) (by omega)
      (execute_D rnd _ _ (by
        show ((0xD0 + x.val) * 256 + (0x10 * y.val + n)) / 4096 % 16 = 13
        omega) ht)
  · have hd2 : Drawn
        (spriteMask (s.V (X ((0xD0 + x.val) * 256 + (0x10 * y.val + n))))
          (s.V (Y ((0xD0 + x.val) * 256 + (0x10 * y.val + n)))) rows
          (((0xD0 + x.val) * 256 + (0x10 * y.val + n)) % 16))
        (setV VF 0 { s with opcode := (0xD0 + x.val) * 256 + (0x10 * y.val + n) }) t := hd
    rw [hN, hX, hY] at hd2
    exact hd2

theorem execute_E (rnd : Nat) (s t : Chip8) (h : s.opcode / 4096 % 16 = 14)
    (hc : caseE s = .ok t) : execute rnd s = .ok (false, t) := by
  have hE : s.opcode &&& 0xF000 = 0xE000 := by rw [and_F000, h]
  simp only [execute, hE]
  simp only [hc, ok_bind]
  rfl

theorem execute_8_error (rnd : Nat) (s : Chip8) (e : Fault) (h : s.opcode / 4096 % 16 = 8)
    (hc : case8 s = .error e) : execute rnd s = .error e := by
  have h8 : s.opcode &&& 0xF000 = 0x8000 := by rw [and_F000, h]
  simp only [execute, h8]
  simp only [hc, error_bind]

/-- An `8XYn` whose low nibble is none of 0..7 and E reaches `exit(3)`. -/
theorem case8_default (s : Chip8) (h : 8 ≤ s.opcode % 16) (hE : s.opcode % 16 ≠ 14) :
    case8 s = .error Fault.exit3 := by
  have hlt : s.opcode % 16 < 16 := Nat.mod_lt _ (by decide)
  have hc : s.opcode % 16 = 8 ∨ s.opcode % 16 = 9 ∨ s.opcode % 16 = 10 ∨ s.opcode % 16 = 11 ∨
      s.opcode % 16 = 12 ∨ s.opcode % 16 = 13 ∨ s.opcode % 16 = 15 := by omega
  rcases hc with h | h | h | h | h | h | h <;> simp only [case8, and_000F, h]

theorem case8_7 (s : Chip8) (h : s.opcode % 16 = 7) :
    case8 s = .ok (advance 2
      (setV (X s.opcode)
        (Int.toNat ((((if s.V (X s.opcode) > s.V (Y s.opcode) then setV VF 0 s
              else setV VF 1 s).V (Y s.opcode) : Int)
            - (if s.V (X s.opcode) > s.V (Y s.opcode) then setV VF 0 s
              else setV VF 1 s).V (X s.opcode)) % 256))
        (if s.V (X s.opcode) > s.V (Y s.opcode) then setV VF 0 s else setV VF 1 s))) := by
  have h7 : s.opcode &&& 0x000F = 7 := by rw [and_000F, h]
  simp only [case8, h7]

/-- An `EXNN` whose low byte is neither `9E` nor `A1` leaves the switch with the machine
as it was. -/
theorem caseE_default (s : Chip8) (h1 : s.opcode % 256 ≠ 0x9E) (h2 : s.opcode % 256 ≠ 0xA1) :
    caseE s = .ok s := by
  have hA : ¬ (s.opcode &&& 0x00FF = 0x009E) := by rw [and_00FF]; exact h1
  have hB : ¬ (s.opcode &&& 0x00FF = 0x00A1) := by rw [and_00FF]; exact h2
  unfold caseE
  split
  · rename_i h; exact absurd h hA
  · rename_i h; exact absurd h hB
  · rfl

/-- An `FXNN` whose low byte is none of the nine listed leaves the switch with the machine
as it was. -/
theorem caseF_default (s : Chip8)
    (h : s.opcode % 256 ≠ 0x07 ∧ s.opcode % 256 ≠ 0x0A ∧ s.opcode % 256 ≠ 0x15 ∧
      s.opcode % 256 ≠ 0x18 ∧ s.opcode % 256 ≠ 0x1E ∧ s.opcode % 256 ≠ 0x29 ∧
      s.opcode % 256 ≠ 0x33 ∧ s.opcode % 256 ≠ 0x55 ∧ s.opcode % 256 ≠ 0x65) :
    caseF s = .ok (false, s) := by
  obtain ⟨h1, h2, h3, h4, h5, h6, h7, h8, h9⟩ := h
  rw [← and_00FF] at h1 h2 h3 h4 h5 h6 h7 h8 h9
  unfold caseF
  split
  · rename_i h; exact absurd h h1
  · rename_i h; exact absurd h h2
  · rename_i h; exact absurd h h3
  · rename_i h; exact absurd h h4
  · rename_i h; exact absurd h h5
  · rename_i h; exact absurd h h6
  · rename_i h; exact absurd h h7
  · rename_i h; exact absurd h h8
  · rename_i h; exact absurd h h9
  · rfl

theorem caseF_15 (s : Chip8) (h : s.opcode % 256 = 0x15) :
    caseF s = .ok (false, advance 2 { s with delayTimer := s.V (X s.opcode) }) := by
  have hn : s.opcode &&& 0x00FF = 0x0015 := by rw [and_00FF, h]
  simp only [caseF, hn]

theorem caseF_18 (s : Chip8) (h : s.opcode % 256 = 0x18) :
    caseF s = .ok (false, advance 2 { s with soundTimer := s.V (X s.opcode) }) := by
  have hn : s.opcode &&& 0x00FF = 0x0018 := by rw [and_00FF, h]
  simp only [caseF, hn]

theorem caseF_33 (s : Chip8) (h : s.opcode % 256 = 0x33) (hI : s.I + 2 < 4096) :
    caseF s = .ok (false, advance 2
      { s with
        memory := upd (upd (upd s.memory s.I (s.V (X s.opcode) / 100)) (s.I + 1)
                    ((s.V (X s.opcode) / 10) % 10)) (s.I + 2) (s.V (X s.opcode) % 10) }) := by
  have hn : s.opcode &&& 0x00FF = 0x0033 := by rw [and_00FF, h]
  simp only [caseF, hn]
  simp only [wr_of_lt _ _ _ (show s.I < 4096 by omega), ok_bind,
    wr_of_lt _ _ _ (show s.I + 1 < 4096 by omega), wr_of_lt _ _ _ hI, pure_eq_ok]

/-- What `FX15` does: `delayTimer = VX`, then the timer update of the same cycle. -/
theorem step_FX15 (rnd : Nat) (s : Chip8) (x : Fin 16)
    (hhi : rd s.memory s.pc = .ok (0xF0 + x.val))
    (hlo : rd s.memory (s.pc + 1) = .ok 0x15) :
    emulateCycle rnd s = .ok (updateTimers (advance 2
      { s with opcode := (0xF0 + x.val) * 256 + 0x15, delayTimer := s.V x })) := by
  have hxlt := x.isLt
  have hX : X ((0xF0 + x.val) * 256 + 0x15) = x := X_bytes _ _ x (by omega) (by omega)
  have hex : execute rnd { s with opcode := (0xF0 + x.val) * 256 + 0x15 } =
      .ok (false, advance 2
        { s with opcode := (0xF0 + x.val) * 256 + 0x15, delayTimer := s.V x }) := by
    rw [execute_F rnd _ (by show ((0xF0 + x.val) * 256 + 0x15) / 4096 % 16 = 15; omega),
      caseF_15 _ (by show ((0xF0 + x.val) * 256 + 0x15) % 256 = 0x15; omega)]
    simp only [hX]
  exact emulateCycle_next rnd _ _ _ _ hhi hlo (by omega) (by omega) hex

/-- What `FX18` does: `soundTimer = VX`, then the timer update of the same cycle. -/
theorem step_FX18 (rnd : Nat) (s : Chip8) (x : Fin 16)
    (hhi : rd s.memory s.pc = .ok (0xF0 + x.val))
    (hlo : rd s.memory (s.pc + 1) = .ok 0x18) :
    emulateCycle rnd s = .ok (updateTimers (advance 2
      { s with opcode := (0xF0 + x.val) * 256 + 0x18, soundTimer := s.V x })) := by
  have hxlt := x.isLt
  have hX : X ((0xF0 + x.val) * 256 + 0x18) = x := X_bytes _ _ x (by omega) (by omega)
  have hex : execute rnd { s with opcode := (0xF0 + x.val) * 256 + 0x18 } =
      .ok (false, advance 2
        { s with opcode := (0xF0 + x.val) * 256 + 0x18, soundTimer := s.V x }) := by
    rw [execute_F rnd _ (by show ((0xF0 + x.val) * 256 + 0x18) / 4096 % 16 = 15; omega),
      caseF_18 _ (by show ((0xF0 + x.val) * 256 + 0x18) % 256 = 0x18; omega)]
    simp only [hX]
  exact emulateCycle_next rnd _ _ _ _ hhi hlo (by omega) (by omega) hex

/-- What `FX33` does when `I + 2` is a memory address. -/
theorem step_FX33_eq (rnd : Nat) (s : Chip8) (x : Fin 16)
    (hhi : rd s.memory s.pc = .ok (0xF0 + x.val))
    (hlo : rd s.memory (s.pc + 1) = .ok 0x33) (hI : s.I + 2 < 4096) :
    emulateCycle rnd s = .ok (updateTimers (advance 2
      { s with
        opcode := (0xF0 + x.val) * 256 + 0x33
        memory := upd (upd (upd s.memory s.I (s.V x / 100)) (s.I + 1)
                    ((s.V x / 10) % 10)) (s.I + 2) (s.V x % 10) })) := by
  have hxlt := x.isLt
  have hX : X ((0xF0 + x.val) * 256 + 0x33) = x := X_bytes _ _ x (by omega) (by omega)
  have hex := caseF_33 { s with opcode := (0xF0 + x.val) * 256 + 0x33 }
    (by show ((0xF0 + x.val) * 256 + 0x33) % 256 = 0x33; omega) hI
  rw [← execute_F rnd _ (by show ((0xF0 + x.val) * 256 + 0x33) / 4096 % 16 = 15; omega)] at hex
  simp only [hX] at hex
  exact emulateCycle_next rnd _ _ _ _ hhi hlo (by omega) (by omega) hex

/-- What `8XY7` does, for any `X` and `Y`: the flag is written first, then `VX = VY - VX`
is computed from the registers as they are after that write. -/
theorem step_8XY7_eq (rnd : Nat) (s : Chip8) (x y : Fin 16)
    (hhi : rd s.memory s.pc = .ok (0x80 + x.val))
    (hlo : rd s.memory (s.pc + 1) = .ok (0x10 * y.val + 0x7)) :
    emulateCycle rnd s = .ok (updateTimers (advance 2
      (setV x
        (Int.toNat ((((setV VF (if s.V x > s.V y then 0 else 1)
              { s with opcode := (0x80 + x.val) * 256 + (0x10 * y.val + 0x7) }).V y : Int)
            - (setV VF (if s.V x > s.V y then 0 else 1)
              { s with opcode := (0x80 + x.val) * 256 + (0x10 * y.val + 0x7) }).V x) % 256))
        (setV VF (if s.V x > s.V y then 0 else 1)
          { s with opcode := (0x80 + x.val) * 256 + (0x10 * y.val + 0x7) })))) := by
  have hxlt := x.isLt
  have hylt := y.isLt
  have hX : X ((0x80 + x.val) * 256 + (0x10 * y.val + 0x7)) = x :=
    X_bytes _ _ x (by omega) (by omega)
  have hY : Y ((0x80 + x.val) * 256 + (0x10 * y.val + 0x7)) = y :=
    Y_bytes _ _ y (by omega) (by omega)
  have hc := case8_7 { s with opcode := (0x80 + x.val) * 256 + (0x10 * y.val + 0x7) }
    (by show ((0x80 + x.val) * 256 + (0x10 * y.val + 0x7)) % 16 = 7; omega)
  simp only [hX, hY] at hc
  have hif : (if s.V x > s.V y
        then setV VF 0 { s with opcode := (0x80 + x.val) * 256 + (0x10 * y.val + 0x7) }
        else setV VF 1 { s with opcode := (0x80 + x.val) * 256 + (0x10 * y.val + 0x7) }) =
      setV VF (if s.V x > s.V y then 0 else 1)
        { s with opcode := (0x80 + x.val) * 256 + (0x10 * y.val + 0x7) } := by
    split <;> rfl
  rw [hif] at hc
  exact emulateCycle_next rnd _ _ _ _ hhi hlo (by omega) (by omega)
    (execute_8 rnd _ _ (by
      show ((0x80 + x.val) * 256 + (0x10 * y.val + 0x7)) / 4096 % 16 = 8
      omega) hc)

/-- An `8XYn` whose low nibble is none of 0..7 and E ends the process with `exit(3)`. -/
theorem step_8XYn_default (rnd : Nat) (s : Chip8) (hi lo : Nat)
    (hhi : rd s.memory s.pc = .ok hi) (hlo : rd s.memory (s.pc + 1) = .ok lo)
    (hhi2 : hi < 256) (hlo2 : lo < 256)
    (h8 : hi / 16 = 8) (hn : ¬ (lo % 16 ≤ 7 ∨ lo % 16 = 0xE)) :
    emulateCycle rnd s = .error Fault.exit3 := by
  have hc := case8_default { s with opcode := hi * 256 + lo }
    (by show 8 ≤ (hi * 256 + lo) % 16; omega) (by show (hi * 256 + lo) % 16 ≠ 14; omega)
  exact emulateCycle_error rnd s hi lo _ hhi hlo hhi2 hlo2
    (execute_8_error rnd _ _ (by show (hi * 256 + lo) / 4096 % 16 = 8; omega) hc)

/-- An `EXNN` whose low byte is neither `9E` nor `A1` changes only `opcode` and the timers. -/
theorem step_EXNN_default (rnd : Nat) (s : Chip8) (hi lo : Nat)
    (hhi : rd s.memory s.pc = .ok hi) (hlo : rd s.memory (s.pc + 1) = .ok lo)
    (hhi2 : hi < 256) (hlo2 : lo < 256)
    (hE : hi / 16 = 0xE) (hn : lo ≠ 0x9E ∧ lo ≠ 0xA1) :
    emulateCycle rnd s = .ok (updateTimers { s with opcode := hi * 256 + lo }) := by
  have hc := caseE_default { s with opcode := hi * 256 + lo }
    (by show (hi * 256 + lo) % 256 ≠ 0x9E; omega) (by show (hi * 256 + lo) % 256 ≠ 0xA1; omega)
  exact emulateCycle_next rnd s _ hi lo hhi hlo hhi2 hlo2
    (execute_E rnd _ _ (by show (hi * 256 + lo) / 4096 % 16 = 14; omega) hc)

/-- An `FXNN` whose low byte is none of the nine listed changes only `opcode` and the
timers. -/
theorem step_FXNN_default (rnd : Nat) (s : Chip8) (hi lo : Nat)
    (hhi : rd s.memory s.pc = .ok hi) (hlo : rd s.memory (s.pc + 1) = .ok lo)
    (hhi2 : hi < 256) (hlo2 : lo < 256)
    (hF : hi / 16 = 0xF)
    (hn : lo ≠ 0x07 ∧ lo ≠ 0x0A ∧ lo ≠ 0x15 ∧ lo ≠ 0x18 ∧ lo ≠ 0x1E ∧ lo ≠ 0x29 ∧
      lo ≠ 0x33 ∧ lo ≠ 0x55 ∧ lo ≠ 0x65) :
    emulateCycle rnd s = .ok (updateTimers { s with opcode := hi * 256 + lo }) := by
  have hm : (hi * 256 + lo) % 256 = lo := by omega
  have hc := caseF_default { s with opcode := hi * 256 + lo }
    (by show (hi * 256 + lo) % 256 ≠ 0x07 ∧ _; rw [hm]; exact hn)
  rw [← execute_F rnd _ (by show (hi * 256 + lo) / 4096 % 16 = 15; omega)] at hc
  exact emulateCycle_next rnd s _ hi lo hhi hlo hhi2 hlo2 hc

/-! ## Register store and load (`FX55`, `FX65`) -/

theorem rd_upd_same {n : Nat} (a : Fin n → Nat) (i v : Nat) (h : i < n) :
    rd (upd a i v) i = .ok v := by
  rw [rd_of_lt _ _ h]
  simp [upd_apply]

theorem rd_upd_other {n : Nat} (a : Fin n → Nat) (i j v : Nat) (h : j ≠ i) :
    rd (upd a i v) j = rd a j := by
  unfold rd
  by_cases hj : j < n
  · simp [hj, upd_apply, h]
  · simp [hj]

/-- The loop of `FX55` over `n ≤ 16` registers with `I + n ≤ 4096`: the registers
`V0..V(n-1)` are copied to `memory[I..I+n)` and nothing else changes. -/
theorem storeLoop (s : Chip8) (n : Nat) (hn : n ≤ 16) (hI : s.I + n ≤ 4096) :
    ∃ m : Fin 4096 → Nat,
      forLoopM (fun i s => do
        let v ← rd s.V i
        let m ← wr s.memory (s.I + i) v
        pure { s with memory := m }) n s = .ok { s with memory := m } ∧
      (∀ i, i < n → rd m (s.I + i) = rd s.V i) ∧
      (∀ j : Fin 4096, (j.val < s.I ∨ s.I + n ≤ j.val) → m j = s.memory j) := by
  induction n with
  | zero =>
    refine ⟨s.memory, ?_, ?_, fun _ _ => rfl⟩
    · rw [forLoopM_zero]
    · intro i hi
      omega
  | succ k ih =>
    obtain ⟨m, hm, h1, h2⟩ := ih (by omega) (by omega)
    have hk : k < 16 := by omega
    have hIk : s.I + k < 4096 := by omega
    refine ⟨upd m (s.I + k) (s.V ⟨k, hk⟩), ?_, ?_, ?_⟩
    · rw [forLoopM_succ, hm]
      simp only [rd_of_lt _ _ hk, ok_bind, wr_of_lt _ _ _ hIk, pure_eq_ok]
    · intro i hi
      by_cases hik : i = k
      · rw [hik, rd_upd_same _ _ _ hIk, rd_of_lt _ _ hk]
      · rw [rd_upd_other _ _ _ _ (by omega)]
        exact h1 i (by omega)
    · intro j hj
      have hne : j.val ≠ s.I + k := by omega
      rw [upd_other _ _ _ _ hne]
      exact h2 j (by omega)

/-- The loop of `FX65` over `n ≤ 16` registers with `I + n ≤ 4096`: `memory[I..I+n)` is
copied to `V0..V(n-1)` and nothing else changes. -/
theorem loadLoop (s : Chip8) (n : Nat) (hn : n ≤ 16) (hI : s.I + n ≤ 4096) :
    ∃ r : Fin 16 → Nat,
      forLoopM (fun i s => do
        let v ← rd s.memory (s.I + i)
        let r ← wr s.V i v
        pure { s with V := r }) n s = .ok { s with V := r } ∧
      (∀ i, i < n → rd r i = rd s.memory (s.I + i)) ∧
      (∀ j : Fin 16, n ≤ j.val → r j = s.V j) := by
  induction n with
  | zero =>
    refine ⟨s.V, ?_, ?_, fun _ _ => rfl⟩
    · rw [forLoopM_zero]
    · intro i hi
      omega
  | succ k ih =>
    obtain ⟨r, hr, h1, h2⟩ := ih (by omega) (by omega)
    have hk : k < 16 := by omega
    have hIk : s.I + k < 4096 := by omega
    refine ⟨upd r k (s.memory ⟨s.I + k, hIk⟩), ?_, ?_, ?_⟩
    · rw [forLoopM_succ, hr]
      simp only [rd_of_lt _ _ hIk, ok_bind, wr_of_lt _ _ _ hk, pure_eq_ok]
    · intro i hi
      by_cases hik : i = k
      · rw [hik, rd_upd_same _ _ _ hk, rd_of_lt _ _ hIk]
      · rw [rd_upd_other _ _ _ _ (by omega)]
        exact h1 i (by omega)
    · intro j hj
      have hne : j.val ≠ k := by omega
      rw [upd_other _ _ _ _ hne]
      exact h2 j (by omega)

theorem caseF_55 (s t : Chip8) (h : s.opcode % 256 = 0x55)
    (hloop : forLoopM (fun i s => do
        let v ← rd s.V i
        let m ← wr s.memory (s.I + i) v
        pure { s with memory := m }) ((X s.opcode).val + 1) s = .ok t) :
    caseF s = .ok (false, advance 2 t) := by
  have hn : s.opcode &&& 0x00FF = 0x0055 := by rw [and_00FF, h]
  simp only [caseF, hn]
  rw [hloop]
  rfl

theorem caseF_65 (s t : Chip8) (h : s.opcode % 256 = 0x65)
    (hloop : forLoopM (fun i s => do
        let v ← rd s.memory (s.I + i)
        let r ← wr s.V i v
        pure { s with V := r }) ((X s.opcode).val + 1) s = .ok t) :
    caseF s = .ok (false, advance 2 t) := by
  have hn : s.opcode &&& 0x00FF = 0x0065 := by rw [and_00FF, h]
  simp only [caseF, hn]
  rw [hloop]
  rfl

/-- What `FX55` does when `I + X` is a memory address: `V0..VX` are copied to
`memory[I..I+X]`. -/
theorem step_FX55 (rnd : Nat) (s : Chip8) (x : Fin 16)
    (hhi : rd s.memory s.pc = .ok (0xF0 + x.val))
    (hlo : rd s.memory (s.pc + 1) = .ok 0x55) (hI : s.I + x.val ≤ 4095) :
    ∃ m : Fin 4096 → Nat,
      emulateCycle rnd s = .ok (updateTimers (advance 2
        { s with opcode := (0xF0 + x.val) * 256 + 0x55, memory := m })) ∧
      (∀ i, i < x.val + 1 → rd m (s.I + i) = rd s.V i) ∧
      (∀ j : Fin 4096, (j.val < s.I ∨ s.I + (x.val + 1) ≤ j.val) → m j = s.memory j) := by
  have hxlt := x.isLt
  have hX : X ((0xF0 + x.val) * 256 + 0x55) = x := X_bytes _ _ x (by omega) (by omega)
  obtain ⟨m, hm, h1, h2⟩ := storeLoop { s with opcode := (0xF0 + x.val) * 256 + 0x55 }
    (x.val + 1) (by omega) (by show s.I + (x.val + 1) ≤ 4096; omega)
  refine ⟨m, ?_, h1, h2⟩
  have hc := caseF_55 { s with opcode := (0xF0 + x.val) * 256 + 0x55 } _
    (by show ((0xF0 + x.val) * 256 + 0x55) % 256 = 0x55; omega)
    (by
      show forLoopM _ ((X ((0xF0 + x.val) * 256 + 0x55)).val + 1) _ = _
      rw [hX]
      exact hm)
  rw [← execute_F rnd _ (by show ((0xF0 + x.val) * 256 + 0x55) / 4096 % 16 = 15; omega)] at hc
  exact emulateCycle_next rnd _ _ _ _ hhi hlo (by omega) (by omega) hc

/-- What `FX65` does when `I + X` is a memory address: `memory[I..I+X]` is copied to
`V0..VX`. -/
theorem step_FX65 (rnd : Nat) (s : Chip8) (x : Fin 16)
    (hhi : rd s.memory s.pc = .ok (0xF0 + x.val))
    (hlo : rd s.memory (s.pc + 1) = .ok 0x65) (hI : s.I + x.val ≤ 4095) :
    ∃ r : Fin 16 → Nat,
      emulateCycle rnd s = .ok (updateTimers (advance 2
        { s with opcode := (0xF0 + x.val) * 256 + 0x65, V := r })) ∧
      (∀ i, i < x.val + 1 → rd r i = rd s.memory (s.I + i)) ∧
      (∀ j : Fin 16, x.val + 1 ≤ j.val → r j = s.V j) := by
  have hxlt := x.isLt
  have hX : X ((0xF0 + x.val) * 256 + 0x65) = x := X_bytes _ _ x (by omega) (by omega)
  obtain ⟨r, hr, h1, h2⟩ := loadLoop { s with opcode := (0xF0 + x.val) * 256 + 0x65 }
    (x.val + 1) (by omega) (by show s.I + (x.val + 1) ≤ 4096; omega)
  refine ⟨r, ?_, h1, h2⟩
  have hc := caseF_65 { s with opcode := (0xF0 + x.val) * 256 + 0x65 } _
    (by show ((0xF0 + x.val) * 256 + 0x65) % 256 = 0x65; omega)
    (by
      show forLoopM _ ((X ((0xF0 + x.val) * 256 + 0x65)).val + 1) _ = _
      rw [hX]
      exact hr)
  rw [← execute_F rnd _ (by show ((0xF0 + x.val) * 256 + 0x65) / 4096 % 16 = 15; omega)] at hc
  exact emulateCycle_next rnd _ _ _ _ hhi hlo (by omega) (by omega) hc

/-! ## The sprite mask as a set of cells -/

theorem and_two_pow_ne_zero (p i : Nat) : (p &&& 2 ^ i) ≠ 0 ↔ p.testBit i = true := by
  constructor
  · intro h
    by_contra hb
    apply h
    apply Nat.eq_of_testBit_eq
    intro k
    rw [Nat.testBit_and, Nat.testBit_two_pow, Nat.zero_testBit]
    by_cases hk : i = k
    · rw [← hk]
      simp [hb]
    · simp [hk]
  · intro h h0
    have h1 : (p &&& 2 ^ i).testBit i = true := by
      rw [Nat.testBit_and, h, Nat.testBit_two_pow_self]
      rfl
    rw [h0, Nat.zero_testBit] at h1
    cases h1

/-- The sprite bit that the draw loop tests for column `c` is bit `7 - c` of the row byte:
column 0 is the most significant bit. -/
theorem sprite_bit (p c : Nat) (hc : c < 8) :
    (p &&& (0x80 >>> c)) ≠ 0 ↔ p.testBit (7 - c) = true := by
  have h : (0x80 : Nat) >>> c = 2 ^ (7 - c) := by
    interval_cases c <;> rfl
  rw [h]
  exact and_two_pow_ne_zero p (7 - c)

theorem pixelMask_iff (x y p r c : Nat) (j : Fin 2048) :
    pixelMask x y p r c j = true ↔
      (p &&& (0x80 >>> c)) ≠ 0 ∧ j.val = x + c + ((y + r) * 64) := by
  simp only [pixelMask, decide_eq_true_eq]

/-- The first `k` columns of a row toggle exactly the cells they address. -/
theorem rowMask_iff (x y p r k : Nat) (j : Fin 2048) :
    rowMask x y p r k j = true ↔
      ∃ c, c < k ∧ (p &&& (0x80 >>> c)) ≠ 0 ∧ j.val = x + c + ((y + r) * 64) := by
  induction k with
  | zero =>
    constructor
    · intro h
      cases h
    · rintro ⟨c, hc, _⟩
      omega
  | succ k ih =>
    show Bool.xor (rowMask x y p r k j) (pixelMask x y p r k j) = true ↔ _
    cases h1 : rowMask x y p r k j <;> cases h2 : pixelMask x y p r k j
    · constructor
      · intro h
        cases h
      · rintro ⟨c, hc, hb, hj⟩
        by_cases hck : c = k
        · rw [hck] at hb hj
          have := (pixelMask_iff x y p r k j).2 ⟨hb, hj⟩
          rw [h2] at this
          cases this
        · have := ih.2 ⟨c, by omega, hb, hj⟩
          rw [h1] at this
          cases this
    · constructor
      · intro _
        obtain ⟨hb, hj⟩ := (pixelMask_iff x y p r k j).1 h2
        exact ⟨k, by omega, hb, hj⟩
      · intro _
        rfl
    · constructor
      · intro _
        obtain ⟨c, hc, hb, hj⟩ := ih.1 h1
        exact ⟨c, by omega, hb, hj⟩
      · intro _
        rfl
    · exfalso
      obtain ⟨c, hc, _, hj⟩ := ih.1 h1
      obtain ⟨_, hj2⟩ := (pixelMask_iff x y p r k j).1 h2
      omega

/-- The first `n` rows of a sprite toggle exactly the cells they address. -/
theorem spriteMask_iff (x y : Nat) (rows : Nat → Nat) (n : Nat) (j : Fin 2048) :
    spriteMask x y rows n j = true ↔
      ∃ r c, r < n ∧ c < 8 ∧ (rows r &&& (0x80 >>> c)) ≠ 0 ∧
        j.val = x + c + ((y + r) * 64) := by
  induction n with
  | zero =>
    constructor
    · intro h
      cases h
    · rintro ⟨r, c, hr, _⟩
      omega
  | succ n ih =>
    show Bool.xor (spriteMask x y rows n j) (rowMask x y (rows n) n 8 j) = true ↔ _
    cases h1 : spriteMask x y rows n j <;> cases h2 : rowMask x y (rows n) n 8 j
    · constructor
      · intro h
        cases h
      · rintro ⟨r, c, hr, hc, hb, hj⟩
        by_cases hrn : r = n
        · rw [hrn] at hb hj
          have := (rowMask_iff x y (rows n) n 8 j).2 ⟨c, hc, hb, hj⟩
          rw [h2] at this
          cases this
        · have := ih.2 ⟨r, c, by omega, hc, hb, hj⟩
          rw [h1] at this
          cases this
    · constructor
      · intro _
        obtain ⟨c, hc, hb, hj⟩ := (rowMask_iff x y (rows n) n 8 j).1 h2
        exact ⟨n, c, by omega, hc, hb, hj⟩
      · intro _
        rfl
    · constructor
      · intro _
        obtain ⟨r, c, hr, hc, hb, hj⟩ := ih.1 h1
        exact ⟨r, c, by omega, hc, hb, hj⟩
      · intro _
        rfl
    · exfalso
      obtain ⟨r, c, hr, hc, _, hj⟩ := ih.1 h1
      obtain ⟨c2, hc2, _, hj2⟩ := (rowMask_iff x y (rows n) n 8 j).1 h2
      omega

/-! ## Steps that complete -/

theorem rd_of_ge {n : Nat} (a : Fin n → Nat) (i : Nat) (h : n ≤ i) :
    rd a i = .error Fault.outOfBounds := by
  have h2 : ¬ i < n := by omega
  simp [rd, h2]

theorem wr_of_ge {n : Nat} (a : Fin n → Nat) (i v : Nat) (h : n ≤ i) :
    wr a i v = .error Fault.outOfBounds := by
  have h2 : ¬ i < n := by omega
  simp [wr, h2]

theorem wr_eq_ok {n : Nat} {a b : Fin n → Nat} {i v : Nat} (h : wr a i v = .ok b) :
    i < n ∧ b = upd a i v := by
  by_cases hi : i < n
  · rw [wr_of_lt _ _ _ hi] at h
    exact ⟨hi, (Except.ok.inj h).symm⟩
  · rw [wr_of_ge _ _ _ (by omega)] at h
    cases h

theorem bind_eq_ok {α β : Type} {x : Except Fault α} {f : α → Except Fault β} {b : β}
    (h : (x >>= f) = .ok b) : ∃ a, x = .ok a ∧ f a = .ok b := by
  cases x with
  | error e =>
    rw [error_bind] at h
    cases h
  | ok a =>
    rw [ok_bind] at h
    exact ⟨a, rfl, h⟩

/-- A property that every completed pass of a loop body preserves holds after the loop. -/
theorem forLoopM_inv {σ : Type} (P : σ → Prop) (body : Nat → σ → Except Fault σ) (n : Nat)
    (hbody : ∀ i s t, i < n → P s → body i s = .ok t → P t) :
    ∀ k, k ≤ n → ∀ s t, P s → forLoopM body k s = .ok t → P t := by
  intro k
  induction k with
  | zero =>
    intro _ s t hP h
    rw [forLoopM_zero] at h
    rw [← Except.ok.inj h]
    exact hP
  | succ k ih =>
    intro hk s t hP h
    rw [forLoopM_succ] at h
    cases hu : forLoopM body k s with
    | error e =>
      rw [hu] at h
      cases h
    | ok u =>
      rw [hu] at h
      exact hbody k u t (by omega) (ih (by omega) s u hP hu) h

/-! ## The collision flag of a sprite draw -/

theorem raised_refl (m : Fin 2048 → Bool) (s : Chip8) : Raised m s s :=
  ⟨Or.inl rfl, fun h => Or.inl h⟩

theorem raised_trans {m1 m2 : Fin 2048 → Bool} {s t u : Chip8}
    (hg : t.graphics = xorMask m1 s.graphics)
    (hdisj : ∀ j, m1 j = true → m2 j = true → False)
    (h1 : Raised m1 s t) (h2 : Raised m2 t u) :
    Raised (fun j => Bool.xor (m1 j) (m2 j)) s u := by
  obtain ⟨a1, b1⟩ := h1
  obtain ⟨a2, b2⟩ := h2
  refine ⟨?_, ?_⟩
  · rcases a2 with e | e
    · rw [e]
      exact a1
    · exact Or.inr e
  · intro hu
    rcases b2 hu with ht | ⟨j, hj, hc⟩
    · rcases b1 ht with hs | ⟨j, hj, hc⟩
      · exact Or.inl hs
      · refine Or.inr ⟨j, ?_, hc⟩
        cases hm2 : m2 j
        · simp [hj, hm2]
        · exact (hdisj j hj hm2).elim
    · cases hm1 : m1 j
      · refine Or.inr ⟨j, ?_, ?_⟩
        · simp [hm1, hj]
        · rw [hg] at hc
          simpa [xorMask, hm1] using hc
      · exact (hdisj j hm1 hj).elim

/-- One column of one sprite row raises `VF` exactly when the addressed cell held 1. -/
theorem drawPixel_raised (x y pixel r c : Nat) (s t : Chip8)
    (h : drawPixel x y pixel r c s = .ok t) : Raised (pixelMask x y pixel r c) s t := by
  by_cases hb : (pixel &&& (0x80 >>> c)) ≠ 0
  · by_cases hlt : x + c + ((y + r) * 64) < 2048
    · by_cases hg : s.graphics ⟨x + c + ((y + r) * 64), hlt⟩ = 1
      · simp only [drawPixel, hb, ne_eq, not_false_eq_true, if_true, rd_of_lt _ _ hlt, ok_bind,
          hg] at h
        simp only [setV_graphics, rd_of_lt _ _ hlt, ok_bind, hg, wr_of_lt _ _ _ hlt,
          pure_eq_ok] at h
        rw [← Except.ok.inj h]
        refine ⟨Or.inr ?_, fun _ => Or.inr ⟨⟨x + c + ((y + r) * 64), hlt⟩, ?_, hg⟩⟩
        · simp [setV, upd_apply]
        · simp [pixelMask, hb]
      · simp only [drawPixel, hb, ne_eq, not_false_eq_true, if_true, rd_of_lt _ _ hlt, ok_bind,
          hg, if_false] at h
        simp only [rd_of_lt _ _ hlt, ok_bind, wr_of_lt _ _ _ hlt, pure_eq_ok] at h
        rw [← Except.ok.inj h]
        exact ⟨Or.inl rfl, fun e => Or.inl e⟩
    · simp only [drawPixel, hb, ne_eq, not_false_eq_true, if_true,
        rd_of_ge _ _ (Nat.le_of_not_lt hlt), error_bind] at h
      cases h
  · simp only [drawPixel, hb, if_false, pure_eq_ok] at h
    rw [← Except.ok.inj h]
    exact raised_refl _ s

theorem rowMask_pixelMask_disjoint (x y pixel r k : Nat) (j : Fin 2048)
    (h1 : rowMask x y pixel r k j = true) (h2 : pixelMask x y pixel r k j = true) : False := by
  obtain ⟨c, hc, _, hj⟩ := (rowMask_iff x y pixel r k j).1 h1
  obtain ⟨_, hj2⟩ := (pixelMask_iff x y pixel r k j).1 h2
  omega

theorem spriteMask_rowMask_disjoint (x y : Nat) (rows : Nat → Nat) (n : Nat) (j : Fin 2048)
    (h1 : spriteMask x y rows n j = true) (h2 : rowMask x y (rows n) n 8 j = true) : False := by
  obtain ⟨r, c, hr, hc, _, hj⟩ := (spriteMask_iff x y rows n j).1 h1
  obtain ⟨c2, hc2, _, hj2⟩ := (rowMask_iff x y (rows n) n 8 j).1 h2
  omega

/-- The first `k` columns of one sprite row. -/
theorem drawCols_raised (x y pixel r : Nat) (s : Chip8) (k : Nat)
    (h : ∀ c, c < k → x + c + ((y + r) * 64) < 2048) (t : Chip8)
    (ht : forLoopM (drawPixel x y pixel r) k s = .ok t) :
    Raised (rowMask x y pixel r k) s t := by
  induction k generalizing t with
  | zero =>
    rw [forLoopM_zero] at ht
    rw [← Except.ok.inj ht]
    exact raised_refl _ s
  | succ k ih =>
    obtain ⟨u, hu, hd⟩ := drawCols_drawn x y pixel r s k (fun c hc => h c (by omega))
    rw [forLoopM_succ, hu] at ht
    exact raised_trans hd.graphics_eq (rowMask_pixelMask_disjoint x y pixel r k)
      (ih (fun c hc => h c (by omega)) u hu) (drawPixel_raised x y pixel r k u t ht)

/-- The first `n` rows of the sprite whose row bytes are `rows`. -/
theorem drawRows_raised (x y : Nat) (rows : Nat → Nat) (s : Chip8) (n : Nat)
    (hrd : ∀ r, r < n → rd s.memory (s.I + r) = .ok (rows r))
    (h : ∀ r c, r < n → c < 8 → x + c + ((y + r) * 64) < 2048) (t : Chip8)
    (ht : forLoopM (drawRow x y) n s = .ok t) :
    Raised (spriteMask x y rows n) s t := by
  induction n generalizing t with
  | zero =>
    rw [forLoopM_zero] at ht
    rw [← Except.ok.inj ht]
    exact raised_refl _ s
  | succ k ih =>
    obtain ⟨u, hu, hd⟩ := drawRows_drawn x y rows s k (fun r hr => hrd r (by omega))
      (fun r c hr hc => h r c (by omega) hc)
    rw [forLoopM_succ, hu] at ht
    have hrd2 : rd u.memory (u.I + k) = .ok (rows k) := by
      rw [hd.memory_eq, hd.I_eq]
      exact hrd k (by omega)
    have ht2 : forLoopM (drawPixel x y (rows k) k) 8 u = .ok t := by
      have e : drawRow x y k u = forLoopM (drawPixel x y (rows k) k) 8 u := by
        simp only [drawRow, hrd2, ok_bind]
      rw [← e]
      exact ht
    exact raised_trans hd.graphics_eq (spriteMask_rowMask_disjoint x y rows k)
      (ih (fun r hr => hrd r (by omega)) (fun r c hr hc => h r c (by omega) hc) u hu)
      (drawCols_raised x y (rows k) k u 8 (fun c hc => h k c (by omega) hc) t ht2)

/-- The body of `case 0xD000` with the exact value of the collision flag. -/
theorem caseD_raised (s : Chip8) (rows : Nat → Nat)
    (hrd : ∀ r, r < s.opcode % 16 → rd s.memory (s.I + r) = .ok (rows r))
    (h : ∀ r c, r < s.opcode % 16 → c < 8 →
      s.V (X s.opcode) + c + ((s.V (Y s.opcode) + r) * 64) < 2048) :
    ∃ t, caseD s = .ok (advance 2 { t with drawFlag := 1 }) ∧
      Drawn (spriteMask (s.V (X s.opcode)) (s.V (Y s.opcode)) rows (s.opcode % 16))
        (setV VF 0 s) t ∧
      Raised (spriteMask (s.V (X s.opcode)) (s.V (Y s.opcode)) rows (s.opcode % 16))
        (setV VF 0 s) t := by
  obtain ⟨t, ht, hd⟩ := drawRows_drawn (s.V (X s.opcode)) (s.V (Y s.opcode)) rows
    (setV VF 0 s) (s.opcode % 16) hrd h
  refine ⟨t, ?_, hd, drawRows_raised _ _ rows (setV VF 0 s) (s.opcode % 16) hrd h t ht⟩
  simp only [caseD, and_000F, ht, ok_bind, pure_eq_ok]

/-- What `DXYN` (bytes `0xDx`, `0xyn`) does to the whole machine when the sprite rows can be
read and the sprite lies inside the framebuffer.  The sprite mask is that of the register
values before the step. -/
theorem step_DXYN_frame (rnd : Nat) (s : Chip8) (x y : Fin 16) (n : Nat) (hn : n < 16)
    (rows : Nat → Nat)
    (hhi : rd s.memory s.pc = .ok (0xD0 + x.val))
    (hlo : rd s.memory (s.pc + 1) = .ok (0x10 * y.val + n))
    (hrd : ∀ r, r < n → rd s.memory (s.I + r) = .ok (rows r))
    (hfit : ∀ r c, r < n → c < 8 → s.V x + c + ((s.V y + r) * 64) < 2048) :
    ∃ t, emulateCycle rnd s = .ok t ∧
      t.graphics = xorMask (spriteMask (s.V x) (s.V y) rows n) s.graphics ∧
      (t.V VF = 1 ↔ ∃ j, spriteMask (s.V x) (s.V y) rows n j = true ∧ s.graphics j = 1) ∧
      (t.V VF = 1 ∨ t.V VF = 0) ∧
      t.drawFlag = 1 ∧ t.pc = s.pc + 2 ∧ t.memory = s.memory ∧ t.I = s.I ∧
      (∀ i, i ≠ VF → t.V i = s.V i) := by
  have hxlt := x.isLt
  have hylt := y.isLt
  obtain ⟨hpc, _⟩ := rd_eq_ok hlo
  have hX : X ((0xD0 + x.val) * 256 + (0x10 * y.val + n)) = x :=
    X_bytes _ _ x (by omega) (by omega)
  have hY : Y ((0xD0 + x.val) * 256 + (0x10 * y.val + n)) = y :=
    Y_bytes _ _ y (by omega) (by omega)
  have hN : ((0xD0 + x.val) * 256 + (0x10 * y.val + n)) % 16 = n := by omega
  obtain ⟨t, ht, hd, hr⟩ := caseD_raised
    { s with opcode := (0xD0 + x.val) * 256 + (0x10 * y.val + n) } rows
    (by
      show ∀ r, r < ((0xD0 + x.val) * 256 + (0x10 * y.val + n)) % 16 →
        rd s.memory (s.I + r) = .ok (rows r)
      rw [hN]
      exact hrd)
    (by
      show ∀ r c, r < ((0xD0 + x.val) * 256 + (0x10 * y.val + n)) % 16 → c < 8 →
        s.V (X ((0xD0 + x.val) * 256 + (0x10 * y.val + n))) + c +
          ((s.V (Y ((0xD0 + x.val) * 256 + (0x10 * y.val + n))) + r) * 64) < 2048
      rw [hN, hX, hY]
      exact hfit)
  have hd2 : Drawn
      (spriteMask (s.V (X ((0xD0 + x.val) * 256 + (0x10 * y.val + n))))
        (s.V (Y ((0xD0 + x.val) * 256 + (0x10 * y.val + n)))) rows
        (((0xD0 + x.val) * 256 + (0x10 * y.val + n)) % 16))
      (setV VF 0 { s with opcode := (0xD0 + x.val) * 256 + (0x10 * y.val + n) }) t := hd
  have hr2 : Raised
      (spriteMask (s.V (X ((0xD0 + x.val) * 256 + (0x10 * y.val + n))))
        (s.V (Y ((0xD0 + x.val) * 256 + (0x10 * y.val + n)))) rows
        (((0xD0 + x.val) * 256 + (0x10 * y.val + n)) % 16))
      (setV VF 0 { s with opcode := (0xD0 + x.val) * 256 + (0x10 * y.val + n) }) t := hr
  rw [hN, hX, hY] at hd2 hr2
  have hV0 : (setV VF 0 { s with opcode := (0xD0 + x.val) * 256 + (0x10 * y.val + n) }).V VF
      = 0 := by
    simp [setV, upd_apply]
  have hG0 : (setV VF 0 { s with opcode := (0xD0 + x.val) * 256 + (0x10 * y.val + n) }).graphics
      = s.graphics := rfl
  obtain ⟨ha, hb⟩ := hr2
  rw [hV0] at ha hb
  rw [hG0] at hb
  refine ⟨_, emulateCycle_next rnd s _ _ _ hhi hlo (by omega) (by omega)
      (execute_D rnd _ _ (by
        show ((0xD0 + x.val) * 256 + (0x10 * y.val + n)) / 4096 % 16 = 13
        omega) ht), ?_, ?_, ?_, ?_, ?_, ?_, ?_, ?_⟩
  · rw [updateTimers_graphics, advance_graphics]
    exact hd2.graphics_eq
  · rw [updateTimers_V, advance_V]
    constructor
    · intro h1
      rcases hb h1 with h0 | h2
      · cases h0
      · exact h2
    · rintro ⟨j, hj, hg⟩
      exact hd2.collision j hj hg
  · rw [updateTimers_V, advance_V]
    rcases ha with h0 | h1
    · exact Or.inr h0
    · exact Or.inl h1
  · rw [updateTimers_drawFlag]
    rfl
  · rw [updateTimers_pc, advance_pc]
    have e : t.pc = s.pc := hd2.pc_eq
    show (t.pc + 2) % 65536 = s.pc + 2
    rw [e]
    omega
  · rw [updateTimers_memory, advance_memory]
    exact hd2.memory_eq
  · rw [updateTimers_I, advance_I]
    exact hd2.I_eq
  · intro i hi
    rw [updateTimers_V, advance_V]
    have e := hd2.V_eq i hi
    have hi2 : i.val ≠ 15 := fun h2 => hi (Fin.ext h2)
    show t.V i = s.V i
    rw [e]
    simp [setV, upd_apply, hi2]

/-- The cells of the sprite mask, in terms of the sprite bytes read from memory: cell `j` is
selected exactly when it is addressed by a set bit, bit `7 - c` of row byte `r` standing for
column `c`. -/
theorem spriteMask_hit (mem : Fin 4096 → Nat) (I vx vy n : Nat) (j : Fin 2048)
    (hmem : I + n ≤ 4096) :
    spriteMask vx vy (fun r => if h : I + r < 4096 then mem ⟨I + r, h⟩ else 0) n j = true ↔
      ∃ r c p, r < n ∧ c < 8 ∧ rd mem (I + r) = .ok p ∧ p.testBit (7 - c) = true ∧
        j.val = vx + c + 64 * (vy + r) := by
  rw [spriteMask_iff]
  constructor
  · rintro ⟨r, c, hr, hc, hb, hj⟩
    have hlt : I + r < 4096 := by omega
    rw [dif_pos hlt] at hb
    exact ⟨r, c, mem ⟨I + r, hlt⟩, hr, hc, rd_of_lt _ _ hlt, (sprite_bit _ c hc).1 hb,
      by omega⟩
  · rintro ⟨r, c, p, hr, hc, hp, hb, hj⟩
    have hlt : I + r < 4096 := by omega
    rw [rd_of_lt _ _ hlt] at hp
    refine ⟨r, c, hr, hc, ?_, by omega⟩
    rw [dif_pos hlt, Except.ok.inj hp]
    exact (sprite_bit _ c hc).2 hb

/-! ## The stack pointer across a step -/

theorem clearDisplay_eq (s : Chip8) :
    clearDisplay s = { s with graphics := fill 2048 (fun _ => 0) s.graphics } := by
  rw [clearDisplay, loop_graphics (fun _ => 0)]

theorem case0_sp (s t : Chip8) (h : case0 s = .ok t) :
    t.sp = s.sp ∨ (s.opcode % 256 = 0xEE ∧ t.sp = (s.sp + 65535) % 65536) := by
  unfold case0 at h
  split at h
  · rw [clearDisplay_eq] at h
    rw [← Except.ok.inj h]
    exact Or.inl rfl
  · rename_i hEE
    rw [and_00FF] at hEE
    obtain ⟨ret, _, h2⟩ := bind_eq_ok h
    rw [pure_eq_ok] at h2
    rw [← Except.ok.inj h2]
    exact Or.inr ⟨hEE, rfl⟩
  · cases h

theorem case8_sp (s t : Chip8) (h : case8 s = .ok t) :
    t.sp = s.sp ∧ t.graphics = s.graphics := by
  unfold case8 at h
  split at h <;> first
    | (rw [← Except.ok.inj h]
       constructor <;> (try split) <;> rfl)
    | cases h

theorem drawPixel_sp (x y pixel r c : Nat) (s t : Chip8)
    (h : drawPixel x y pixel r c s = .ok t) : t.sp = s.sp := by
  unfold drawPixel at h
  split at h
  · obtain ⟨g, _, h1⟩ := bind_eq_ok h
    obtain ⟨g2, _, h2⟩ := bind_eq_ok h1
    obtain ⟨gr, _, h3⟩ := bind_eq_ok h2
    rw [pure_eq_ok] at h3
    rw [← Except.ok.inj h3]
    show (if g = 1 then setV VF 1 s else s).sp = s.sp
    split <;> rfl
  · rw [pure_eq_ok] at h
    rw [← Except.ok.inj h]

theorem drawRow_sp (x y r : Nat) (s t : Chip8) (h : drawRow x y r s = .ok t) :
    t.sp = s.sp := by
  unfold drawRow at h
  obtain ⟨pixel, _, h1⟩ := bind_eq_ok h
  exact forLoopM_inv (fun u => u.sp = s.sp) (drawPixel x y pixel r) 8
    (fun i u v _ hu hv => by
      show v.sp = s.sp
      rw [drawPixel_sp x y pixel r i u v hv]
      exact hu) 8 (Nat.le_refl 8) s t rfl h1

theorem caseD_sp (s t : Chip8) (h : caseD s = .ok t) : t.sp = s.sp := by
  unfold caseD at h
  obtain ⟨u, hu, h1⟩ := bind_eq_ok h
  rw [pure_eq_ok] at h1
  rw [← Except.ok.inj h1]
  show u.sp = s.sp
  exact forLoopM_inv (fun u => u.sp = s.sp) (drawRow (s.V (X s.opcode)) (s.V (Y s.opcode)))
    (s.opcode &&& 0x000F)
    (fun i u v _ hu hv => by
      show v.sp = s.sp
      rw [drawRow_sp _ _ i u v hv]
      exact hu) (s.opcode &&& 0x000F) (Nat.le_refl _) (setV VF 0 s) u rfl hu

theorem caseE_sp (s t : Chip8) (h : caseE s = .ok t) :
    t.sp = s.sp ∧ t.graphics = s.graphics := by
  unfold caseE at h
  split at h
  · obtain ⟨k, _, h1⟩ := bind_eq_ok h
    split at h1 <;>
      (rw [pure_eq_ok] at h1
       rw [← Except.ok.inj h1]
       exact ⟨rfl, rfl⟩)
  · obtain ⟨k, _, h1⟩ := bind_eq_ok h
    split at h1 <;>
      (rw [pure_eq_ok] at h1
       rw [← Except.ok.inj h1]
       exact ⟨rfl, rfl⟩)
  · rw [← Except.ok.inj h]
    exact ⟨rfl, rfl⟩

theorem keyScan_sp (i : Nat) (p q : Chip8 × Nat) (h : keyScan i p = .ok q) :
    q.1.sp = p.1.sp ∧ q.1.graphics = p.1.graphics := by
  unfold keyScan at h
  obtain ⟨k, _, h1⟩ := bind_eq_ok h
  split at h1 <;>
    (rw [pure_eq_ok] at h1
     rw [← Except.ok.inj h1]
     exact ⟨rfl, rfl⟩)

theorem caseF_sp (s t : Chip8) (b : Bool) (h : caseF s = .ok (b, t)) :
    t.sp = s.sp ∧ t.graphics = s.graphics := by
  unfold caseF at h
  split at h
  · rw [← (Prod.mk.inj (Except.ok.inj h)).2]
    exact ⟨rfl, rfl⟩
  · obtain ⟨p, hp, h1⟩ := bind_eq_ok h
    have hinv := forLoopM_inv (fun q : Chip8 × Nat => q.1.sp = s.sp ∧ q.1.graphics = s.graphics)
      keyScan 16
      (fun i u v _ hu hv => by
        obtain ⟨e1, e2⟩ := keyScan_sp i u v hv
        exact ⟨e1.trans hu.1, e2.trans hu.2⟩) 16 (Nat.le_refl _) (s, 0) p ⟨rfl, rfl⟩ hp
    obtain ⟨p1, p2⟩ := p
    have h2 : (if p2 = 0 then (pure (true, p1) : Except Fault (Bool × Chip8))
        else pure (false, advance 2 p1)) = .ok (b, t) := h1
    split at h2 <;>
      (rw [pure_eq_ok] at h2
       rw [← (Prod.mk.inj (Except.ok.inj h2)).2]
       exact hinv)
  · rw [← (Prod.mk.inj (Except.ok.inj h)).2]
    exact ⟨rfl, rfl⟩
  · rw [← (Prod.mk.inj (Except.ok.inj h)).2]
    exact ⟨rfl, rfl⟩
  · rw [← (Prod.mk.inj (Except.ok.inj h)).2]
    exact ⟨rfl, rfl⟩
  · rw [← (Prod.mk.inj (Except.ok.inj h)).2]
    exact ⟨rfl, rfl⟩
  · obtain ⟨m1, _, h1⟩ := bind_eq_ok h
    obtain ⟨m2, _, h2⟩ := bind_eq_ok h1
    obtain ⟨m3, _, h3⟩ := bind_eq_ok h2
    rw [pure_eq_ok] at h3
    rw [← (Prod.mk.inj (Except.ok.inj h3)).2]
    exact ⟨rfl, rfl⟩
  · obtain ⟨u, hu, h1⟩ := bind_eq_ok h
    rw [pure_eq_ok] at h1
    rw [← (Prod.mk.inj (Except.ok.inj h1)).2]
    exact forLoopM_inv (fun q : Chip8 => q.sp = s.sp ∧ q.graphics = s.graphics) _
      ((X s.opcode).val + 1)
      (fun i u v _ hu hv => by
        obtain ⟨a, _, h2⟩ := bind_eq_ok hv
        obtain ⟨m, _, h3⟩ := bind_eq_ok h2
        rw [pure_eq_ok] at h3
        rw [← Except.ok.inj h3]
        exact hu) _ (Nat.le_refl _) s u ⟨rfl, rfl⟩ hu
  · obtain ⟨u, hu, h1⟩ := bind_eq_ok h
    rw [pure_eq_ok] at h1
    rw [← (Prod.mk.inj (Except.ok.inj h1)).2]
    exact forLoopM_inv (fun q : Chip8 => q.sp = s.sp ∧ q.graphics = s.graphics) _
      ((X s.opcode).val + 1)
      (fun i u v _ hu hv => by
        obtain ⟨a, _, h2⟩ := bind_eq_ok hv
        obtain ⟨m, _, h3⟩ := bind_eq_ok h2
        rw [pure_eq_ok] at h3
        rw [← Except.ok.inj h3]
        exact hu) _ (Nat.le_refl _) s u ⟨rfl, rfl⟩ hu
  · rw [← (Prod.mk.inj (Except.ok.inj h)).2]
    exact ⟨rfl, rfl⟩

/-- The stack pointer after the decoded instruction: it is changed only by `case 0x2000`,
which increments it, and by `case 0x00EE` of `case 0x0000`, which decrements it; both
modulo 2^16, the pointer being a `uint16_t`. -/
theorem execute_sp (rnd : Nat) (s t : Chip8) (b : Bool) (h : execute rnd s = .ok (b, t)) :
    t.sp = s.sp ∨ (s.opcode / 4096 % 16 = 2 ∧ t.sp = (s.sp + 1) % 65536) ∨
      (s.opcode / 4096 % 16 = 0 ∧ s.opcode % 256 = 0xEE ∧
        t.sp = (s.sp + 65535) % 65536) := by
  unfold execute at h
  split at h
  · rename_i h0
    rw [and_F000] at h0
    obtain ⟨u, hu, h1⟩ := bind_eq_ok h
    rw [pure_eq_ok] at h1
    rw [← (Prod.mk.inj (Except.ok.inj h1)).2]
    rcases case0_sp s u hu with e | ⟨hEE, e⟩
    · exact Or.inl e
    · exact Or.inr (Or.inr ⟨by omega, hEE, e⟩)
  · rw [← (Prod.mk.inj (Except.ok.inj h)).2]
    exact Or.inl rfl
  · rename_i h2
    rw [and_F000] at h2
    obtain ⟨st, _, h1⟩ := bind_eq_ok h
    rw [pure_eq_ok] at h1
    rw [← (Prod.mk.inj (Except.ok.inj h1)).2]
    exact Or.inr (Or.inl ⟨by omega, rfl⟩)
  · have h1 : (if _ then (Except.ok (false, advance 4 s) : Except Fault (Bool × Chip8))
        else Except.ok (false, advance 2 s)) = .ok (b, t) := h
    split at h1 <;>
      (rw [← (Prod.mk.inj (Except.ok.inj h1)).2]
       exact Or.inl rfl)
  · have h1 : (if _ then (Except.ok (false, advance 4 s) : Except Fault (Bool × Chip8))
        else Except.ok (false, advance 2 s)) = .ok (b, t) := h
    split at h1 <;>
      (rw [← (Prod.mk.inj (Except.ok.inj h1)).2]
       exact Or.inl rfl)
  · have h1 : (if _ then (Except.ok (false, advance 4 s) : Except Fault (Bool × Chip8))
        else Except.ok (false, advance 2 s)) = .ok (b, t) := h
    split at h1 <;>
      (rw [← (Prod.mk.inj (Except.ok.inj h1)).2]
       exact Or.inl rfl)
  · rw [← (Prod.mk.inj (Except.ok.inj h)).2]
    exact Or.inl rfl
  · rw [← (Prod.mk.inj (Except.ok.inj h)).2]
    exact Or.inl rfl
  · obtain ⟨u, hu, h1⟩ := bind_eq_ok h
    rw [pure_eq_ok] at h1
    rw [← (Prod.mk.inj (Except.ok.inj h1)).2]
    exact Or.inl (case8_sp s u hu).1
  · have h1 : (if _ then (Except.ok (false, advance 4 s) : Except Fault (Bool × Chip8))
        else Except.ok (false, advance 2 s)) = .ok (b, t) := h
    split at h1 <;>
      (rw [← (Prod.mk.inj (Except.ok.inj h1)).2]
       exact Or.inl rfl)
  · rw [← (Prod.mk.inj (Except.ok.inj h)).2]
    exact Or.inl rfl
  · rw [← (Prod.mk.inj (Except.ok.inj h)).2]
    exact Or.inl rfl
  · rw [← (Prod.mk.inj (Except.ok.inj h)).2]
    exact Or.inl rfl
  · obtain ⟨u, hu, h1⟩ := bind_eq_ok h
    rw [pure_eq_ok] at h1
    rw [← (Prod.mk.inj (Except.ok.inj h1)).2]
    exact Or.inl (caseD_sp s u hu)
  · obtain ⟨u, hu, h1⟩ := bind_eq_ok h
    rw [pure_eq_ok] at h1
    rw [← (Prod.mk.inj (Except.ok.inj h1)).2]
    exact Or.inl (caseE_sp s u hu).1
  · exact Or.inl (caseF_sp s t b h).1
  · cases h

/-- The stack pointer after a step that completes, in terms of the opcode fetched at
`pc`. -/
theorem emulateCycle_sp (rnd : Nat) (s t : Chip8) (h : emulateCycle rnd s = .ok t) :
    ∃ hi lo op, rd s.memory s.pc = .ok hi ∧ rd s.memory (s.pc + 1) = .ok lo ∧
      op = ((hi <<< 8) ||| lo) % 65536 ∧
      (t.sp = s.sp ∨ (op / 4096 = 2 ∧ t.sp = (s.sp + 1) % 65536) ∨
        (op / 4096 = 0 ∧ op % 256 = 0xEE ∧ t.sp = (s.sp + 65535) % 65536)) := by
  unfold emulateCycle at h
  obtain ⟨hi, hhi, h1⟩ := bind_eq_ok h
  obtain ⟨lo, hlo, h2⟩ := bind_eq_ok h1
  obtain ⟨p, hp, h3⟩ := bind_eq_ok h2
  obtain ⟨b, u⟩ := p
  have hu := execute_sp rnd _ u b hp
  have hu2 : u.sp = s.sp ∨
      ((((hi <<< 8) ||| lo) % 65536) / 4096 % 16 = 2 ∧ u.sp = (s.sp + 1) % 65536) ∨
      ((((hi <<< 8) ||| lo) % 65536) / 4096 % 16 = 0 ∧
        (((hi <<< 8) ||| lo) % 65536) % 256 = 0xEE ∧
        u.sp = (s.sp + 65535) % 65536) := hu
  have hlt : ((hi <<< 8) ||| lo) % 65536 < 65536 := Nat.mod_lt _ (by decide)
  have h4 : (if b = true then (pure u : Except Fault Chip8) else pure (updateTimers u))
      = .ok t := h3
  have hsp : t.sp = u.sp := by
    split at h4
    · rw [pure_eq_ok] at h4
      rw [← Except.ok.inj h4]
    · rw [pure_eq_ok] at h4
      rw [← Except.ok.inj h4, updateTimers_sp]
  refine ⟨hi, lo, _, hhi, hlo, rfl, ?_⟩
  rw [hsp]
  rcases hu2 with e | ⟨a, e⟩ | ⟨a, c, e⟩
  · exact Or.inl e
  · exact Or.inr (Or.inl ⟨by omega, e⟩)
  · exact Or.inr (Or.inr ⟨by omega, c, e⟩)

theorem execute_0_error (rnd : Nat) (s : Chip8) (e : Fault) (h : s.opcode / 4096 % 16 = 0)
    (hc : case0 s = .error e) : execute rnd s = .error e := by
  have h0 : s.opcode &&& 0xF000 = 0x0000 := by rw [and_F000, h]
  simp only [execute, h0]
  simp only [hc, error_bind]

/-! ## The framebuffer across a step -/

theorem xorMask_cells (m : Fin 2048 → Bool) (g : Fin 2048 → Nat)
    (h : ∀ j, g j = 0 ∨ g j = 1) : ∀ j, xorMask m g j = 0 ∨ xorMask m g j = 1 := by
  intro j
  simp only [xorMask]
  split
  · rcases h j with e | e
    · rw [e]
      exact Or.inr rfl
    · rw [e]
      exact Or.inl rfl
  · exact h j

theorem case0_E0 (s : Chip8) (h : s.opcode % 256 = 0xE0) :
    case0 s = .ok (advance 2 { (clearDisplay s) with drawFlag := 1 }) := by
  have hE0 : s.opcode &&& 0x00FF = 0x00E0 := by rw [and_00FF, h]
  simp only [case0, hE0]

theorem clearDisplay_graphics (s : Chip8) (j : Fin 2048) : (clearDisplay s).graphics j = 0 := by
  rw [clearDisplay_eq]
  show fill 2048 (fun _ => 0) s.graphics j = 0
  rw [fill_all 2048 (Nat.le_refl _)]

theorem clearDisplay_opcode (s : Chip8) : (clearDisplay s).opcode = s.opcode := by
  rw [clearDisplay_eq]

/-- The inner switch of `case 0x0000` changes the framebuffer only in `case 0x00E0`, which
is selected by the low byte of the opcode and leaves every cell 0. -/
theorem case0_graphics (s t : Chip8) (h : case0 s = .ok t) :
    t.graphics = s.graphics ∨ (s.opcode &&& 0x00FF = 0x00E0 ∧ ∀ j, t.graphics j = 0) := by
  unfold case0 at h
  split at h
  · rename_i hE0
    rw [← Except.ok.inj h]
    exact Or.inr ⟨hE0, fun j => clearDisplay_graphics s j⟩
  · obtain ⟨ret, _, h2⟩ := bind_eq_ok h
    rw [pure_eq_ok] at h2
    rw [← Except.ok.inj h2]
    left
    rw [advance_graphics]
  · cases h

theorem drawPixel_cells (x y pixel r c : Nat) (s t : Chip8)
    (h : drawPixel x y pixel r c s = .ok t) (h01 : ∀ j, s.graphics j = 0 ∨ s.graphics j = 1) :
    ∀ j, t.graphics j = 0 ∨ t.graphics j = 1 := by
  by_cases hlt : x + c + ((y + r) * 64) < 2048
  · obtain ⟨u, hu, hd⟩ := drawPixel_drawn x y pixel r c s hlt
    rw [hu] at h
    rw [← Except.ok.inj h, hd.graphics_eq]
    exact xorMask_cells _ _ h01
  · by_cases hb : (pixel &&& (0x80 >>> c)) ≠ 0
    · simp only [drawPixel, hb, ne_eq, not_false_eq_true, if_true,
        rd_of_ge _ _ (Nat.le_of_not_lt hlt), error_bind] at h
      cases h
    · simp only [drawPixel, hb, if_false, pure_eq_ok] at h
      rw [← Except.ok.inj h]
      exact h01

theorem drawRow_cells (x y r : Nat) (s t : Chip8) (h : drawRow x y r s = .ok t)
    (h01 : ∀ j, s.graphics j = 0 ∨ s.graphics j = 1) :
    ∀ j, t.graphics j = 0 ∨ t.graphics j = 1 := by
  unfold drawRow at h
  obtain ⟨pixel, _, h1⟩ := bind_eq_ok h
  exact forLoopM_inv (fun u => ∀ j, u.graphics j = 0 ∨ u.graphics j = 1)
    (drawPixel x y pixel r) 8
    (fun i u v _ hu hv => drawPixel_cells x y pixel r i u v hv hu) 8 (Nat.le_refl 8) s t h01 h1

theorem caseD_cells (s t : Chip8) (h : caseD s = .ok t)
    (h01 : ∀ j, s.graphics j = 0 ∨ s.graphics j = 1) :
    ∀ j, t.graphics j = 0 ∨ t.graphics j = 1 := by
  unfold caseD at h
  obtain ⟨u, hu, h1⟩ := bind_eq_ok h
  rw [pure_eq_ok] at h1
  rw [← Except.ok.inj h1]
  show ∀ j, u.graphics j = 0 ∨ u.graphics j = 1
  exact forLoopM_inv (fun u => ∀ j, u.graphics j = 0 ∨ u.graphics j = 1)
    (drawRow (s.V (X s.opcode)) (s.V (Y s.opcode))) (s.opcode &&& 0x000F)
    (fun i u v _ hu hv => drawRow_cells _ _ i u v hv hu) (s.opcode &&& 0x000F) (Nat.le_refl _)
    (setV VF 0 s) u h01 hu

/-- The framebuffer after the decoded instruction: cells that were all 0 or 1 are again all
0 or 1, and the framebuffer is unchanged unless the decoder took `case 0x00E0` of
`case 0x0000` or took `case 0xD000`. -/
theorem execute_graphics (rnd : Nat) (s t : Chip8) (b : Bool)
    (h : execute rnd s = .ok (b, t)) :
    ((∀ j, s.graphics j = 0 ∨ s.graphics j = 1) → ∀ j, t.graphics j = 0 ∨ t.graphics j = 1) ∧
    (t.graphics = s.graphics ∨
      (s.opcode &&& 0xF000 = 0x0000 ∧ s.opcode &&& 0x00FF = 0x00E0) ∨
      s.opcode &&& 0xF000 = 0xD000) := by
  have same : ∀ u : Chip8, u.graphics = s.graphics →
      ((∀ j, s.graphics j = 0 ∨ s.graphics j = 1) → ∀ j, u.graphics j = 0 ∨ u.graphics j = 1) ∧
      (u.graphics = s.graphics ∨
        (s.opcode &&& 0xF000 = 0x0000 ∧ s.opcode &&& 0x00FF = 0x00E0) ∨
        s.opcode &&& 0xF000 = 0xD000) := by
    intro u e
    refine ⟨fun h01 j => ?_, Or.inl e⟩
    rw [e]
    exact h01 j
  unfold execute at h
  split at h
  · rename_i h0
    obtain ⟨u, hu, h1⟩ := bind_eq_ok h
    rw [pure_eq_ok] at h1
    rw [← (Prod.mk.inj (Except.ok.inj h1)).2]
    rcases case0_graphics s u hu with e | ⟨hE0, hz⟩
    · exact same u e
    · exact ⟨fun _ j => Or.inl (hz j), Or.inr (Or.inl ⟨h0, hE0⟩)⟩
  · rw [← (Prod.mk.inj (Except.ok.inj h)).2]
    exact same _ rfl
  · obtain ⟨st, _, h1⟩ := bind_eq_ok h
    rw [pure_eq_ok] at h1
    rw [← (Prod.mk.inj (Except.ok.inj h1)).2]
    exact same _ rfl
  · have h1 : (if _ then (Except.ok (false, advance 4 s) : Except Fault (Bool × Chip8))
        else Except.ok (false, advance 2 s)) = .ok (b, t) := h
    split at h1 <;>
      (rw [← (Prod.mk.inj (Except.ok.inj h1)).2]
       exact same _ rfl)
  · have h1 : (if _ then (Except.ok (false, advance 4 s) : Except Fault (Bool × Chip8))
        else Except.ok (false, advance 2 s)) = .ok (b, t) := h
    split at h1 <;>
      (rw [← (Prod.mk.inj (Except.ok.inj h1)).2]
       exact same _ rfl)
  · have h1 : (if _ then (Except.ok (false, advance 4 s) : Except Fault (Bool × Chip8))
        else Except.ok (false, advance 2 s)) = .ok (b, t) := h
    split at h1 <;>
      (rw [← (Prod.mk.inj (Except.ok.inj h1)).2]
       exact same _ rfl)
  · rw [← (Prod.mk.inj (Except.ok.inj h)).2]
    exact same _ rfl
  · rw [← (Prod.mk.inj (Except.ok.inj h)).2]
    exact same _ rfl
  · obtain ⟨u, hu, h1⟩ := bind_eq_ok h
    rw [pure_eq_ok] at h1
    rw [← (Prod.mk.inj (Except.ok.inj h1)).2]
    exact same u (case8_sp s u hu).2
  · have h1 : (if _ then (Except.ok (false, advance 4 s) : Except Fault (Bool × Chip8))
        else Except.ok (false, advance 2 s)) = .ok (b, t) := h
    split at h1 <;>
      (rw [← (Prod.mk.inj (Except.ok.inj h1)).2]
       exact same _ rfl)
  · rw [← (Prod.mk.inj (Except.ok.inj h)).2]
    exact same _ rfl
  · rw [← (Prod.mk.inj (Except.ok.inj h)).2]
    exact same _ rfl
  · rw [← (Prod.mk.inj (Except.ok.inj h)).2]
    exact same _ rfl
  · rename_i hD
    obtain ⟨u, hu, h1⟩ := bind_eq_ok h
    rw [pure_eq_ok] at h1
    rw [← (Prod.mk.inj (Except.ok.inj h1)).2]
    exact ⟨fun h01 => caseD_cells s u hu h01, Or.inr (Or.inr hD)⟩
  · obtain ⟨u, hu, h1⟩ := bind_eq_ok h
    rw [pure_eq_ok] at h1
    rw [← (Prod.mk.inj (Except.ok.inj h1)).2]
    exact same u (caseE_sp s u hu).2
  · exact same t (caseF_sp s t b h).2
  · cases h

/-- The framebuffer after a step that completes, in terms of the opcode fetched at `pc`. -/
theorem emulateCycle_graphics (rnd : Nat) (s t : Chip8) (h : emulateCycle rnd s = .ok t) :
    ∃ hi lo op, rd s.memory s.pc = .ok hi ∧ rd s.memory (s.pc + 1) = .ok lo ∧
      op = ((hi <<< 8) ||| lo) % 65536 ∧
      ((∀ j, s.graphics j = 0 ∨ s.graphics j = 1) → ∀ j, t.graphics j = 0 ∨ t.graphics j = 1) ∧
      (t.graphics = s.graphics ∨ (op / 4096 = 0 ∧ op % 256 = 0xE0) ∨ op / 4096 = 13) := by
  unfold emulateCycle at h
  obtain ⟨hi, hhi, h1⟩ := bind_eq_ok h
  obtain ⟨lo, hlo, h2⟩ := bind_eq_ok h1
  obtain ⟨p, hp, h3⟩ := bind_eq_ok h2
  obtain ⟨b, u⟩ := p
  obtain ⟨hcells, hchg⟩ := execute_graphics rnd _ u b hp
  have h4 : (if b = true then (pure u : Except Fault Chip8) else pure (updateTimers u))
      = .ok t := h3
  have hg : t.graphics = u.graphics := by
    split at h4
    · rw [pure_eq_ok] at h4
      rw [← Except.ok.inj h4]
    · rw [pure_eq_ok] at h4
      rw [← Except.ok.inj h4, updateTimers_graphics]
  have hlt : ((hi <<< 8) ||| lo) % 65536 < 65536 := Nat.mod_lt _ (by decide)
  refine ⟨hi, lo, _, hhi, hlo, rfl, ?_, ?_⟩
  · rw [hg]
    exact hcells
  · rw [hg]
    rcases hchg with e | ⟨h0, hE0⟩ | hD
    · exact Or.inl e
    · refine Or.inr (Or.inl ⟨?_, ?_⟩)
      · have h0b : (((hi <<< 8) ||| lo) % 65536) &&& 0xF000 = 0x0000 := h0
        rw [and_F000] at h0b
        omega
      · have hEb : (((hi <<< 8) ||| lo) % 65536) &&& 0x00FF = 0x00E0 := hE0
        rw [and_00FF] at hEb
        exact hEb
    · refine Or.inr (Or.inr ?_)
      have hDb : (((hi <<< 8) ||| lo) % 65536) &&& 0xF000 = 0xD000 := hD
      rw [and_F000] at hDb
      omega

/-- An opcode with top nibble 0 and low byte `0xE0` (bytes `0x0a`, `0xE0`) is executed as
clear screen, whatever the nibble `a`. -/
theorem step_0aE0 (rnd : Nat) (s : Chip8) (a : Nat) (ha : a < 16)
    (hhi : rd s.memory s.pc = .ok a) (hlo : rd s.memory (s.pc + 1) = .ok 0xE0) :
    emulateCycle rnd s = .ok (updateTimers (advance 2
      { (clearDisplay { s with opcode := a * 256 + 0xE0 }) with drawFlag := 1 })) :=
  emulateCycle_next rnd s _ _ _ hhi hlo (by omega) (by omega)
    (execute_0 rnd _ _ (by show (a * 256 + 0xE0) / 4096 % 16 = 0; omega)
      (case0_E0 { s with opcode := a * 256 + 0xE0 } (by show (a * 256 + 0xE0) % 256 = 0xE0; omega)))

/-! ## Steps that end in `exit(3)` -/

theorem rd_error {n : Nat} {a : Fin n → Nat} {i : Nat} {e : Fault} (h : rd a i = .error e) :
    e = Fault.outOfBounds := by
  by_cases hi : i < n
  · rw [rd_of_lt _ _ hi] at h
    cases h
  · rw [rd_of_ge _ _ (by omega)] at h
    exact (Except.error.inj h).symm

theorem wr_error {n : Nat} {a : Fin n → Nat} {i v : Nat} {e : Fault}
    (h : wr a i v = .error e) : e = Fault.outOfBounds := by
  by_cases hi : i < n
  · rw [wr_of_lt _ _ _ hi] at h
    cases h
  · rw [wr_of_ge _ _ _ (by omega)] at h
    exact (Except.error.inj h).symm

theorem bind_eq_error {α β : Type} {x : Except Fault α} {f : α → Except Fault β} {e : Fault}
    (h : (x >>= f) = .error e) : x = .error e ∨ ∃ a, x = .ok a ∧ f a = .error e := by
  cases x with
  | error e2 =>
    rw [error_bind] at h
    rw [Except.error.inj h]
    exact Or.inl rfl
  | ok a =>
    rw [ok_bind] at h
    exact Or.inr ⟨a, rfl, h⟩

/-- A loop fails only with a fault of its body. -/
theorem forLoopM_error {σ : Type} (Q : Fault → Prop) (body : Nat → σ → Except Fault σ)
    (hbody : ∀ i s e, body i s = .error e → Q e) :
    ∀ n s e, forLoopM body n s = .error e → Q e := by
  intro n
  induction n with
  | zero =>
    intro s e h
    rw [forLoopM_zero] at h
    cases h
  | succ k ih =>
    intro s e h
    rw [forLoopM_succ] at h
    cases hu : forLoopM body k s with
    | error e2 =>
      rw [hu] at h
      have e3 : e2 = e := Except.error.inj h
      rw [← e3]
      exact ih s e2 hu
    | ok u =>
      rw [hu] at h
      exact hbody k u e h

theorem drawPixel_error (x y pixel r c : Nat) (s : Chip8) (e : Fault)
    (h : drawPixel x y pixel r c s = .error e) : e = Fault.outOfBounds := by
  unfold drawPixel at h
  split at h
  · rcases bind_eq_error h with h1 | ⟨g, _, h1⟩
    · exact rd_error h1
    · rcases bind_eq_error h1 with h2 | ⟨g2, _, h2⟩
      · exact rd_error h2
      · rcases bind_eq_error h2 with h3 | ⟨m, _, h3⟩
        · exact wr_error h3
        · rw [pure_eq_ok] at h3
          cases h3
  · rw [pure_eq_ok] at h
    cases h

theorem drawRow_error (x y r : Nat) (s : Chip8) (e : Fault)
    (h : drawRow x y r s = .error e) : e = Fault.outOfBounds := by
  unfold drawRow at h
  rcases bind_eq_error h with h1 | ⟨pixel, _, h1⟩
  · exact rd_error h1
  · exact forLoopM_error (fun e => e = Fault.outOfBounds) (drawPixel x y pixel r)
      (fun i u e2 hu => drawPixel_error x y pixel r i u e2 hu) 8 s e h1

theorem caseD_error (s : Chip8) (e : Fault) (h : caseD s = .error e) :
    e = Fault.outOfBounds := by
  unfold caseD at h
  rcases bind_eq_error h with h1 | ⟨u, _, h1⟩
  · exact forLoopM_error (fun e => e = Fault.outOfBounds)
      (drawRow (s.V (X s.opcode)) (s.V (Y s.opcode)))
      (fun i u e2 hu => drawRow_error _ _ i u e2 hu) _ _ e h1
  · rw [pure_eq_ok] at h1
    cases h1

theorem caseE_error (s : Chip8) (e : Fault) (h : caseE s = .error e) :
    e = Fault.outOfBounds := by
  unfold caseE at h
  split at h
  · rcases bind_eq_error h with h1 | ⟨k, _, h1⟩
    · exact rd_error h1
    · split at h1 <;>
        (rw [pure_eq_ok] at h1
         cases h1)
  · rcases bind_eq_error h with h1 | ⟨k, _, h1⟩
    · exact rd_error h1
    · split at h1 <;>
        (rw [pure_eq_ok] at h1
         cases h1)
  · cases h

theorem keyScan_error (i : Nat) (p : Chip8 × Nat) (e : Fault) (h : keyScan i p = .error e) :
    e = Fault.outOfBounds := by
  unfold keyScan at h
  rcases bind_eq_error h with h1 | ⟨k, _, h1⟩
  · exact rd_error h1
  · split at h1 <;>
      (rw [pure_eq_ok] at h1
       cases h1)

theorem caseF_error (s : Chip8) (e : Fault) (h : caseF s = .error e) :
    e = Fault.outOfBounds := by
  unfold caseF at h
  split at h
  · cases h
  · rcases bind_eq_error h with h1 | ⟨p, _, h1⟩
    · exact forLoopM_error (fun e => e = Fault.outOfBounds) keyScan
        (fun i u e2 hu => keyScan_error i u e2 hu) 16 _ e h1
    · obtain ⟨p1, p2⟩ := p
      have h2 : (if p2 = 0 then (pure (true, p1) : Except Fault (Bool × Chip8))
          else pure (false, advance 2 p1)) = .error e := h1
      split at h2 <;>
        (rw [pure_eq_ok] at h2
         cases h2)
  · cases h
  · cases h
  · cases h
  · cases h
  · rcases bind_eq_error h with h1 | ⟨m1, _, h1⟩
    · exact wr_error h1
    · rcases bind_eq_error h1 with h2 | ⟨m2, _, h2⟩
      · exact wr_error h2
      · rcases bind_eq_error h2 with h3 | ⟨m3, _, h3⟩
        · exact wr_error h3
        · rw [pure_eq_ok] at h3
          cases h3
  · rcases bind_eq_error h with h1 | ⟨u, _, h1⟩
    · exact forLoopM_error (fun e => e = Fault.outOfBounds) _
        (fun i u e2 hu => by
          rcases bind_eq_error hu with h2 | ⟨v, _, h2⟩
          · exact rd_error h2
          · rcases bind_eq_error h2 with h3 | ⟨m, _, h3⟩
            · exact wr_error h3
            · rw [pure_eq_ok] at h3
              cases h3) _ _ e h1
    · rw [pure_eq_ok] at h1
      cases h1
  · rcases bind_eq_error h with h1 | ⟨u, _, h1⟩
    · exact forLoopM_error (fun e => e = Fault.outOfBounds) _
        (fun i u e2 hu => by
          rcases bind_eq_error hu with h2 | ⟨v, _, h2⟩
          · exact rd_error h2
          · rcases bind_eq_error h2 with h3 | ⟨m, _, h3⟩
            · exact wr_error h3
            · rw [pure_eq_ok] at h3
              cases h3) _ _ e h1
    · rw [pure_eq_ok] at h1
      cases h1
  · cases h

/-- The inner switch of `case 0x0000` reaches `exit(3)` exactly in its `default`. -/
theorem case0_exit3 (s : Chip8) :
    case0 s = .error Fault.exit3 ↔ (s.opcode % 256 ≠ 0xE0 ∧ s.opcode % 256 ≠ 0xEE) := by
  constructor
  · intro h
    unfold case0 at h
    split at h
    · cases h
    · rcases bind_eq_error h with h1 | ⟨ret, _, h1⟩
      · cases rd_error h1
      · rw [pure_eq_ok] at h1
        cases h1
    · rename_i n1 n2
      rw [and_00FF] at n1 n2
      exact ⟨n1, n2⟩
  · rintro ⟨n1, n2⟩
    unfold case0
    split
    · rename_i hE0
      rw [and_00FF] at hE0
      exact (n1 hE0).elim
    · rename_i hEE
      rw [and_00FF] at hEE
      exact (n2 hEE).elim
    · rfl

/-- The inner switch of `case 0x8000` fails only in its `default`, with `exit(3)`. -/
theorem case8_error (s : Chip8) (e : Fault) (h : case8 s = .error e) :
    e = Fault.exit3 ∧ 8 ≤ s.opcode % 16 ∧ s.opcode % 16 ≠ 14 := by
  unfold case8 at h
  split at h
  all_goals cases h
  rename_i n0 n1 n2 n3 n4 n5 n6 n7 nE
  rw [and_000F] at n0 n1 n2 n3 n4 n5 n6 n7 nE
  have m0 : s.opcode % 16 ≠ 0 := n0
  have m1 : s.opcode % 16 ≠ 1 := n1
  have m2 : s.opcode % 16 ≠ 2 := n2
  have m3 : s.opcode % 16 ≠ 3 := n3
  have m4 : s.opcode % 16 ≠ 4 := n4
  have m5 : s.opcode % 16 ≠ 5 := n5
  have m6 : s.opcode % 16 ≠ 6 := n6
  have m7 : s.opcode % 16 ≠ 7 := n7
  have mE : s.opcode % 16 ≠ 14 := nE
  refine ⟨rfl, ?_, mE⟩
  omega

/-- The decoded instruction reaches `exit(3)` exactly in the `default` of the inner switch
of `case 0x0000` and in the `default` of the inner switch of `case 0x8000`. -/
theorem execute_exit3 (rnd : Nat) (s : Chip8) :
    execute rnd s = .error Fault.exit3 ↔
      (s.opcode / 4096 % 16 = 0 ∧ s.opcode % 256 ≠ 0xE0 ∧ s.opcode % 256 ≠ 0xEE) ∨
      (s.opcode / 4096 % 16 = 8 ∧ 8 ≤ s.opcode % 16 ∧ s.opcode % 16 ≠ 14) := by
  constructor
  · intro h
    unfold execute at h
    split at h
    · rename_i h0
      rw [and_F000] at h0
      rcases bind_eq_error h with h1 | ⟨u, _, h1⟩
      · exact Or.inl ⟨by omega, (case0_exit3 s).1 h1⟩
      · rw [pure_eq_ok] at h1
        cases h1
    · cases h
    · rcases bind_eq_error h with h1 | ⟨u, _, h1⟩
      · cases wr_error h1
      · rw [pure_eq_ok] at h1
        cases h1
    · have h1 : (if _ then (Except.ok (false, advance 4 s) : Except Fault (Bool × Chip8))
          else Except.ok (false, advance 2 s)) = .error Fault.exit3 := h
      split at h1 <;> cases h1
    · have h1 : (if _ then (Except.ok (false, advance 4 s) : Except Fault (Bool × Chip8))
          else Except.ok (false, advance 2 s)) = .error Fault.exit3 := h
      split at h1 <;> cases h1
    · have h1 : (if _ then (Except.ok (false, advance 4 s) : Except Fault (Bool × Chip8))
          else Except.ok (false, advance 2 s)) = .error Fault.exit3 := h
      split at h1 <;> cases h1
    · cases h
    · cases h
    · rename_i h8
      rw [and_F000] at h8
      rcases bind_eq_error h with h1 | ⟨u, _, h1⟩
      · exact Or.inr ⟨by omega, (case8_error s _ h1).2⟩
      · rw [pure_eq_ok] at h1
        cases h1
    · have h1 : (if _ then (Except.ok (false, advance 4 s) : Except Fault (Bool × Chip8))
          else Except.ok (false, advance 2 s)) = .error Fault.exit3 := h
      split at h1 <;> cases h1
    · cases h
    · cases h
    · cases h
    · rcases bind_eq_error h with h1 | ⟨u, _, h1⟩
      · cases caseD_error s _ h1
      · rw [pure_eq_ok] at h1
        cases h1
    · rcases bind_eq_error h with h1 | ⟨u, _, h1⟩
      · cases caseE_error s _ h1
      · rw [pure_eq_ok] at h1
        cases h1
    · cases caseF_error s _ h
    · rename_i n0 n1 n2 n3 n4 n5 n6 n7 n8 n9 nA nB nC nD nE nF
      rw [and_F000] at n0 n1 n2 n3 n4 n5 n6 n7 n8 n9 nA nB nC nD nE nF
      have m0 : s.opcode / 4096 % 16 * 4096 ≠ 0x0000 := n0
      have m1 : s.opcode / 4096 % 16 * 4096 ≠ 0x1000 := n1
      have m2 : s.opcode / 4096 % 16 * 4096 ≠ 0x2000 := n2
      have m3 : s.opcode / 4096 % 16 * 4096 ≠ 0x3000 := n3
      have m4 : s.opcode / 4096 % 16 * 4096 ≠ 0x4000 := n4
      have m5 : s.opcode / 4096 % 16 * 4096 ≠ 0x5000 := n5
      have m6 : s.opcode / 4096 % 16 * 4096 ≠ 0x6000 := n6
      have m7 : s.opcode / 4096 % 16 * 4096 ≠ 0x7000 := n7
      have m8 : s.opcode / 4096 % 16 * 4096 ≠ 0x8000 := n8
      have m9 : s.opcode / 4096 % 16 * 4096 ≠ 0x9000 := n9
      have mA : s.opcode / 4096 % 16 * 4096 ≠ 0xA000 := nA
      have mB : s.opcode / 4096 % 16 * 4096 ≠ 0xB000 := nB
      have mC : s.opcode / 4096 % 16 * 4096 ≠ 0xC000 := nC
      have mD : s.opcode / 4096 % 16 * 4096 ≠ 0xD000 := nD
      have mE : s.opcode / 4096 % 16 * 4096 ≠ 0xE000 := nE
      have mF : s.opcode / 4096 % 16 * 4096 ≠ 0xF000 := nF
      omega
  · rintro (⟨h0, n1, n2⟩ | ⟨h8, n1, n2⟩)
    · exact execute_0_error rnd s _ h0 ((case0_exit3 s).2 ⟨n1, n2⟩)
    · exact execute_8_error rnd s _ h8 (case8_default s n1 n2)

theorem emulateCycle_fault (rnd : Nat) (s : Chip8) (hi lo : Nat) (e : Fault)
    (h1 : rd s.memory s.pc = .ok hi) (h2 : rd s.memory (s.pc + 1) = .ok lo)
    (hex : execute rnd { s with opcode := ((hi <<< 8) ||| lo) % 65536 } = .error e) :
    emulateCycle rnd s = .error e := by
  simp only [emulateCycle, h1, h2, ok_bind, hex, error_bind]

/-- A step ends in `exit(3)` exactly when the fetched opcode has top nibble 0 and a low byte
other than `0xE0`, `0xEE`, or top nibble 8 and a low nibble other than 0..7 and `0xE`. -/
theorem emulateCycle_exit3 (rnd : Nat) (s : Chip8) :
    emulateCycle rnd s = .error Fault.exit3 ↔
      ∃ hi lo op, rd s.memory s.pc = .ok hi ∧ rd s.memory (s.pc + 1) = .ok lo ∧
        op = ((hi <<< 8) ||| lo) % 65536 ∧
        ((op / 4096 = 0 ∧ op % 256 ≠ 0xE0 ∧ op % 256 ≠ 0xEE) ∨
          (op / 4096 = 8 ∧ 8 ≤ op % 16 ∧ op % 16 ≠ 0xE)) := by
  constructor
  · intro h
    unfold emulateCycle at h
    rcases bind_eq_error h with h1 | ⟨hi, hhi, h1⟩
    · cases rd_error h1
    · rcases bind_eq_error h1 with h2 | ⟨lo, hlo, h2⟩
      · cases rd_error h2
      · rcases bind_eq_error h2 with h3 | ⟨p, _, h3⟩
        · have hlt : ((hi <<< 8) ||| lo) % 65536 < 65536 := Nat.mod_lt _ (by decide)
          have hc := (execute_exit3 rnd _).1 h3
          have hc2 : ((((hi <<< 8) ||| lo) % 65536) / 4096 % 16 = 0 ∧
              (((hi <<< 8) ||| lo) % 65536) % 256 ≠ 0xE0 ∧
              (((hi <<< 8) ||| lo) % 65536) % 256 ≠ 0xEE) ∨
              ((((hi <<< 8) ||| lo) % 65536) / 4096 % 16 = 8 ∧
              8 ≤ (((hi <<< 8) ||| lo) % 65536) % 16 ∧
              (((hi <<< 8) ||| lo) % 65536) % 16 ≠ 14) := hc
          refine ⟨hi, lo, _, hhi, hlo, rfl, ?_⟩
          rcases hc2 with ⟨a, b, c⟩ | ⟨a, b, c⟩
          · exact Or.inl ⟨by omega, b, c⟩
          · exact Or.inr ⟨by omega, b, c⟩
        · obtain ⟨b, u⟩ := p
          have h4 : (if b = true then (pure u : Except Fault Chip8) else pure (updateTimers u))
              = .error Fault.exit3 := h3
          split at h4 <;>
            (rw [pure_eq_ok] at h4
             cases h4)
  · rintro ⟨hi, lo, op, hhi, hlo, hop, hc⟩
    have hlt : op < 65536 := by
      rw [hop]
      exact Nat.mod_lt _ (by decide)
    refine emulateCycle_fault rnd s hi lo _ hhi hlo ((execute_exit3 rnd _).2 ?_)
    show (((hi <<< 8) ||| lo) % 65536 / 4096 % 16 = 0 ∧
        (((hi <<< 8) ||| lo) % 65536) % 256 ≠ 0xE0 ∧
        (((hi <<< 8) ||| lo) % 65536) % 256 ≠ 0xEE) ∨
        ((((hi <<< 8) ||| lo) % 65536) / 4096 % 16 = 8 ∧
        8 ≤ (((hi <<< 8) ||| lo) % 65536) % 16 ∧
        (((hi <<< 8) ||| lo) % 65536) % 16 ≠ 14)
    rw [← hop]
    rcases hc with ⟨a, b, c⟩ | ⟨a, b, c⟩
    · exact Or.inl ⟨by omega, b, c⟩
    · exact Or.inr ⟨by omega, b, c⟩

/-! ## The call with its store unguarded: agreement with `emulateCycle` -/

theorem emulateCycle_ok (rnd : Nat) (s t : Chip8) (hi lo : Nat)
    (h1 : rd s.memory s.pc = .ok hi) (h2 : rd s.memory (s.pc + 1) = .ok lo)
    (hex : execute rnd { s with opcode := ((hi <<< 8) ||| lo) % 65536 } = .ok (false, t)) :
    emulateCycle rnd s = .ok (updateTimers t) := by
  simp only [emulateCycle, h1, h2, ok_bind, hex]
  rfl

theorem case2Unguarded_of_lt (lands : Bool) (s : Chip8) (hsp : s.sp < 16) :
    case2Unguarded lands s = .ok
      { s with stack := upd s.stack s.sp s.pc, sp := (s.sp + 1) % 65536,
               pc := NNN s.opcode } := by
  simp only [case2Unguarded, hsp, if_true]

theorem case2Unguarded_full (lands : Bool) (s : Chip8) (hsp : s.sp = 16) :
    case2Unguarded lands s = .ok
      { s with sp := (if lands = true then (s.pc + 1) % 65536 else 17),
               pc := NNN s.opcode } := by
  have h1 : (s.sp < 16) = False := eq_false (by omega)
  have h2 : (s.sp = 16) = True := eq_true hsp
  cases lands
  · simp only [case2Unguarded, h1, h2, if_true, if_false, Bool.false_eq_true]
    rw [hsp]
  · simp only [case2Unguarded, h1, h2, if_true, if_false]

/-- A fetched `2NNN` is executed by the unguarded statements. -/
theorem emulateCycleUnguarded_call (lands : Bool) (rnd : Nat) (s : Chip8) (hi lo : Nat)
    (h1 : rd s.memory s.pc = .ok hi) (h2 : rd s.memory (s.pc + 1) = .ok lo)
    (hop : (((hi <<< 8) ||| lo) % 65536) / 4096 = 2) :
    emulateCycleUnguarded lands rnd s =
      (case2Unguarded lands { s with opcode := ((hi <<< 8) ||| lo) % 65536 }) >>=
        fun t => pure (updateTimers t) := by
  have hc : (((hi <<< 8) ||| lo) % 65536) &&& 0xF000 = 0x2000 := by
    rw [and_F000]
    omega
  simp only [emulateCycleUnguarded, h1, h2, ok_bind, hc, if_true]

/-- On every instruction other than a call with 16 or more entries on the stack, the step with
the unguarded store is `emulateCycle`. -/
theorem emulateCycleUnguarded_eq (lands : Bool) (rnd : Nat) (s : Chip8)
    (h : ∀ hi lo, rd s.memory s.pc = .ok hi → rd s.memory (s.pc + 1) = .ok lo →
      (((hi <<< 8) ||| lo) % 65536) / 4096 = 2 → s.sp < 16) :
    emulateCycleUnguarded lands rnd s = emulateCycle rnd s := by
  cases h1 : rd s.memory s.pc with
  | error e => simp only [emulateCycleUnguarded, emulateCycle, h1, error_bind]
  | ok hi =>
    cases h2 : rd s.memory (s.pc + 1) with
    | error e => simp only [emulateCycleUnguarded, emulateCycle, h1, h2, ok_bind, error_bind]
    | ok lo =>
      by_cases hop : (((hi <<< 8) ||| lo) % 65536) / 4096 = 2
      · have hsp := h hi lo h1 h2 hop
        rw [emulateCycleUnguarded_call lands rnd s hi lo h1 h2 hop,
          case2Unguarded_of_lt lands { s with opcode := ((hi <<< 8) ||| lo) % 65536 } hsp,
          ok_bind, pure_eq_ok]
        have hex := execute_2 rnd { s with opcode := ((hi <<< 8) ||| lo) % 65536 }
          (by show (((hi <<< 8) ||| lo) % 65536) / 4096 % 16 = 2; omega) hsp
        rw [emulateCycle_ok rnd s _ hi lo h1 h2 hex]
      · have hlt : ((hi <<< 8) ||| lo) % 65536 < 65536 := Nat.mod_lt _ (by decide)
        have hc : ¬ (((hi <<< 8) ||| lo) % 65536) &&& 0xF000 = 0x2000 := by
          rw [and_F000]
          omega
        simp only [emulateCycleUnguarded, h1, h2, ok_bind, hc, if_false]

/-! ## Claims -/

/-- C1: after `init`, from any prior machine state, `pc` is 0x200, the sixteen registers
are 0, `memory[i]` is the `i`-th byte of the 80-byte table `chip8_fontset` for `i < 80` and
0 for `80 ≤ i < 4096`, and the 2048 cells of `graphics` are 0. -/
theorem init_state (s : Chip8) :
    (init s).pc = 0x200 ∧
    (∀ i : Fin 16, (init s).V i = 0) ∧
    chip8_fontset.length = 80 ∧
    (∀ i : Fin 4096, i.val < 80 → chip8_fontset[i.val]? = some ((init s).memory i)) ∧
    (∀ i : Fin 4096, 80 ≤ i.val → (init s).memory i = 0) ∧
    (∀ i : Fin 2048, (init s).graphics i = 0) := by
  rw [init_eq]
  refine ⟨rfl, fun _ => rfl, rfl, ?_, ?_, fun _ => rfl⟩
  · intro i h
    have hlen : i.val < chip8_fontset.length := h
    simp only [h, if_true]
    rw [List.getD_eq_getElem _ _ hlen, List.getElem?_eq_getElem hlen]
  · intro i h
    have h80 : ¬ i.val < 80 := by omega
    simp [h80]

/-- C2: after a successful `load` of a file whose first two bytes are `0x6X` and `NN`, one
`emulateCycle` returns with the opcode fetched big-endian, `VX = NN`, `pc = 0x202` and
every other register still 0. -/
theorem load_step_6XNN (s0 : Chip8) (rom : List Nat) (x : Fin 16) (nn rnd : Nat)
    (hnn : nn < 256) (h0 : rom[0]? = some (0x60 + x.val)) (h1 : rom[1]? = some nn)
    (hload : (load (some rom) s0).1 = 1) :
    ∃ s', emulateCycle rnd (load (some rom) s0).2 = .ok s' ∧
      s'.opcode = 0x6000 + 0x100 * x.val + nn ∧
      s'.V x = nn ∧ s'.pc = 0x202 ∧ ∀ j : Fin 16, j ≠ x → s'.V j = 0 := by
  have hx := x.isLt
  have hlen := load_ret_one rom s0 hload
  have hl0 : 0 < rom.length := by
    rcases Nat.lt_or_ge 0 rom.length with h | h
    · exact h
    · rw [List.getElem?_eq_none h] at h0
      cases h0
  have hl1 : 1 < rom.length := by
    rcases Nat.lt_or_ge 1 rom.length with h | h
    · exact h
    · rw [List.getElem?_eq_none h] at h1
      cases h1
  rw [load_of_lt rom s0 hlen, init_eq]
  refine ⟨_, emulateCycle_next rnd _ _ (0x60 + x.val) nn ?_ ?_ (by omega) hnn
    (execute_6 rnd _ ?_), ?_, ?_, ?_, ?_⟩
  · have hc : 512 ≤ 512 ∧ 512 < 512 + rom.length := by omega
    simp only [rd]
    simp [hc, h0]
    omega
  · have hc : 512 ≤ 513 ∧ 513 < 512 + rom.length := by omega
    simp only [rd]
    simp [hc, h1]
    omega
  · show ((0x60 + x.val) * 256 + nn) / 4096 % 16 = 6
    omega
  · show (0x60 + x.val) * 256 + nn = 0x6000 + 0x100 * x.val + nn
    omega
  · have hX : X ((0x60 + x.val) * 256 + nn) = x := by
      apply Fin.ext
      rw [X_val]
      omega
    have hNN : NN ((0x60 + x.val) * 256 + nn) = nn := by
      rw [NN_eq]
      omega
    simp [updateTimers, advance, setV, upd, hX, hNN]
  · simp [updateTimers, advance, setV]
  · intro j hj
    have hX : X ((0x60 + x.val) * 256 + nn) = x := by
      apply Fin.ext
      rw [X_val]
      omega
    have hjx : j.val ≠ x.val := fun h => hj (Fin.ext h)
    simp [updateTimers, advance, setV, upd, hX, hjx]

/-- Witness for C2: the two-byte file `[0x60, 0x05]` is loaded and one cycle gives `V0 = 5`,
`pc = 0x202`. -/
theorem load_step_6XNN_witness :
    (load (some [0x60, 0x05]) blank).1 = 1 ∧
    ∃ s', emulateCycle 0 (load (some [0x60, 0x05]) blank).2 = .ok s' ∧
      s'.opcode = 0x6000 + 0x100 * (0 : Fin 16).val + 5 ∧
      s'.V 0 = 5 ∧ s'.pc = 0x202 ∧ ∀ j : Fin 16, j ≠ 0 → s'.V j = 0 :=
  ⟨by rw [load_of_lt _ _ (by decide)],
   load_step_6XNN blank [0x60, 0x05] 0 5 0 (by decide) rfl rfl
     (by rw [load_of_lt _ _ (by decide)])⟩

/-- What `8XY4` computes, for `X`, `Y` distinct and neither `0xF`: the sum wraps into `VX`,
and `VF` is the outcome of the test `VY + VY > 0xFF - VX` on the updated `VX`. -/
theorem step_8XY4 (rnd : Nat) (s : Chip8) (x y : Fin 16)
    (hx : x ≠ VF) (hy : y ≠ VF) (hxy : x ≠ y)
    (hhi : rd s.memory s.pc = .ok (0x80 + x.val))
    (hlo : rd s.memory (s.pc + 1) = .ok (0x10 * y.val + 0x4)) :
    ∃ s', emulateCycle rnd s = .ok s' ∧
      s'.V x = (s.V x + s.V y) % 256 ∧
      s'.V VF = if s.V y + s.V y + (s.V x + s.V y) % 256 > 255 then 1 else 0 := by
  have hxlt := x.isLt
  have hylt := y.isLt
  have hX : X ((0x80 + x.val) * 256 + (0x10 * y.val + 0x4)) = x :=
    X_bytes _ _ x (by omega) (by omega)
  have hY : Y ((0x80 + x.val) * 256 + (0x10 * y.val + 0x4)) = y :=
    Y_bytes _ _ y (by omega) (by omega)
  have hxF : x.val ≠ 15 := fun h => hx (Fin.ext h)
  have hyF : y.val ≠ 15 := fun h => hy (Fin.ext h)
  have hyx : y.val ≠ x.val := fun h => hxy (Fin.ext h.symm)
  refine ⟨_, emulateCycle_next rnd _ _ _ _ hhi hlo (by omega) (by omega)
    (execute_8 rnd _ _ ?_ (case8_4 _ ?_)), ?_, ?_⟩
  · show ((0x80 + x.val) * 256 + (0x10 * y.val + 0x4)) / 4096 % 16 = 8
    omega
  · show ((0x80 + x.val) * 256 + (0x10 * y.val + 0x4)) % 16 = 4
    omega
  · simp only [hX, hY]
    split <;> simp [upd_apply, hxF]
  · simp only [hX, hY]
    have e1 : upd s.V x.val ((s.V x + s.V y) % 256) y = s.V y := upd_other _ _ _ _ hyx
    have e2 : upd s.V x.val ((s.V x + s.V y) % 256) x = (s.V x + s.V y) % 256 := upd_same _ _ _
    simp only [setV_V, e1, e2]
    by_cases hc : s.V y + s.V y + (s.V x + s.V y) % 256 > 255
    · have hc2 : ((s.V y : Int) + s.V y > 0xFF - (((s.V x + s.V y) % 256 : Nat) : Int)) := by
        omega
      rw [if_pos hc2, if_pos hc]
      simp [upd_apply]
    · have hc2 : ¬ ((s.V y : Int) + s.V y > 0xFF - (((s.V x + s.V y) % 256 : Nat) : Int)) := by
        omega
      rw [if_neg hc2, if_neg hc]
      simp [upd_apply]

/-- C3 (the code at `Vx = 250`, `Vy = 10`): `8XY4` with `X = 0`, `Y = 1` leaves `V0 = 4` but
`VF = 0`, because the flag test reads `VY + VY > 0xFF - VX` after `VX` was updated. -/
theorem add_8XY4_flag_at_250_10 :
    ∃ s', emulateCycle 0 (atInstr 0x80 0x14 (two 0 250 1 10) (fun _ => 0)) = .ok s' ∧
      s'.V 0 = 4 ∧ s'.V VF = 0 :=
  step_8XY4 0 (atInstr 0x80 0x14 (two 0 250 1 10) (fun _ => 0)) 0 1
    (by decide) (by decide) (by decide) (atInstr_hi _ _ _ _) (atInstr_lo _ _ _ _)

/-- C4: `8XY5` with neither `X` nor `Y` equal to `0xF` (in particular for `X ≠ Y`) leaves `VX = (VX - VY) mod 256`,
`VF = 0` if `VY > VX` and `VF = 1` otherwise (both read before the instruction), and
advances `pc` by 2. -/
theorem step_8XY5 (rnd : Nat) (s : Chip8) (x y : Fin 16)
    (hx : x ≠ VF) (hy : y ≠ VF)
    (hhi : rd s.memory s.pc = .ok (0x80 + x.val))
    (hlo : rd s.memory (s.pc + 1) = .ok (0x10 * y.val + 0x5)) :
    ∃ s', emulateCycle rnd s = .ok s' ∧
      (s'.V x : Int) = ((s.V x : Int) - (s.V y : Int)) % 256 ∧
      s'.V VF = (if s.V y > s.V x then 0 else 1) ∧
      s'.pc = s.pc + 2 := by
  have hxlt := x.isLt
  have hylt := y.isLt
  obtain ⟨hpc, _⟩ := rd_eq_ok hlo
  have hX : X ((0x80 + x.val) * 256 + (0x10 * y.val + 0x5)) = x :=
    X_bytes _ _ x (by omega) (by omega)
  have hY : Y ((0x80 + x.val) * 256 + (0x10 * y.val + 0x5)) = y :=
    Y_bytes _ _ y (by omega) (by omega)
  have hxF : x.val ≠ 15 := fun h => hx (Fin.ext h)
  have hyF : y.val ≠ 15 := fun h => hy (Fin.ext h)
  have hFx : (15 : Nat) ≠ x.val := fun h => hxF h.symm
  refine ⟨_, emulateCycle_next rnd _ _ _ _ hhi hlo (by omega) (by omega)
    (execute_8 rnd _ _ ?_ (case8_5 _ ?_)), ?_, ?_, ?_⟩
  · show ((0x80 + x.val) * 256 + (0x10 * y.val + 0x5)) / 4096 % 16 = 8
    omega
  · show ((0x80 + x.val) * 256 + (0x10 * y.val + 0x5)) % 16 = 5
    omega
  · simp only [hX, hY]
    by_cases hc : s.V y > s.V x
    · rw [if_pos hc]
      simp only [updateTimers_V, advance_V, setV_V, upd_apply, VF_val, hxF, hyF, if_false,
        if_true]
      omega
    · rw [if_neg hc]
      simp only [updateTimers_V, advance_V, setV_V, upd_apply, VF_val, hxF, hyF, if_false,
        if_true]
      omega
  · simp only [hX, hY]
    by_cases hc : s.V y > s.V x
    · rw [if_pos hc, if_pos hc]
      simp [upd_apply, hFx]
    · rw [if_neg hc, if_neg hc]
      simp [upd_apply, hFx]
  · simp only [hX, hY]
    by_cases hc : s.V y > s.V x
    · rw [if_pos hc]
      simp
      omega
    · rw [if_neg hc]
      simp
      omega

/-- Witness for C4: `8015` (`X = 0`, `Y = 1`) with `V0 = 5`, `V1 = 10` gives `V0 = 251`,
`VF = 0` and `pc = 0x202`. -/
theorem step_8XY5_witness :
    ∃ s', emulateCycle 0 (atInstr 0x80 0x15 (two 0 5 1 10) (fun _ => 0)) = .ok s' ∧
      (s'.V 0 : Int) = ((5 : Int) - 10) % 256 ∧ s'.V VF = 0 ∧ s'.pc = 0x200 + 2 :=
  step_8XY5 0 (atInstr 0x80 0x15 (two 0 5 1 10) (fun _ => 0)) 0 1
    (by decide) (by decide) (atInstr_hi _ _ _ _) (atInstr_lo _ _ _ _)

/-- C6: the timer update takes 1 off a nonzero `delayTimer` and a nonzero `soundTimer`
and leaves a zero timer at 0; after `n` updates a timer that started at `t` holds
`max (t - n) 0`, so it never wraps to 255. -/
theorem updateTimers_iterate (s : Chip8) (n : Nat) :
    (updateTimers s).delayTimer = (if s.delayTimer > 0 then s.delayTimer - 1 else 0) ∧
    (updateTimers s).soundTimer = (if s.soundTimer > 0 then s.soundTimer - 1 else 0) ∧
    ((updateTimers^[n] s).delayTimer : Int) = max ((s.delayTimer : Int) - n) 0 ∧
    ((updateTimers^[n] s).soundTimer : Int) = max ((s.soundTimer : Int) - n) 0 := by
  refine ⟨?_, ?_, ?_, ?_⟩
  · rw [updateTimers_delayTimer]
    split <;> omega
  · rw [updateTimers_soundTimer]
    split <;> omega
  · induction n with
    | zero => simp
    | succ k ih =>
      rw [Function.iterate_succ_apply', updateTimers_delayTimer]
      omega
  · induction n with
    | zero => simp
    | succ k ih =>
      rw [Function.iterate_succ_apply', updateTimers_soundTimer]
      omega

/-- C7: with no key pressed, a cycle on `FX0A` changes no field of the machine except
the scratch `opcode`. -/
theorem step_FX0A_idle (rnd : Nat) (s : Chip8) (x : Fin 16)
    (hkeys : ∀ k : Fin 16, s.keys k = 0)
    (hhi : rd s.memory s.pc = .ok (0xF0 + x.val))
    (hlo : rd s.memory (s.pc + 1) = .ok 0x0A) :
    emulateCycle rnd s = .ok { s with opcode := 0xF00A + 0x100 * x.val } := by
  have hxlt := x.isLt
  have hop : (0xF0 + x.val) * 256 + 0x0A = 0xF00A + 0x100 * x.val := by omega
  have hscan := keyScan_loop_none
    { s with opcode := (0xF0 + x.val) * 256 + 0x0A } 16 (Nat.le_refl _) (fun k _ => hkeys k)
  have hex : execute rnd { s with opcode := (0xF0 + x.val) * 256 + 0x0A } =
      .ok (true, { s with opcode := (0xF0 + x.val) * 256 + 0x0A }) := by
    rw [execute_F rnd _ (by show ((0xF0 + x.val) * 256 + 0x0A) / 4096 % 16 = 15; omega),
      caseF_0A _ _ (by show ((0xF0 + x.val) * 256 + 0x0A) % 256 = 0x0A; omega) hscan]
    rfl
  rw [emulateCycle_return rnd _ _ _ _ hhi hlo (by omega) (by omega) hex, hop]

/-- Witness for C7: `F30A` on a machine with no key pressed. -/
theorem step_FX0A_idle_witness :
    emulateCycle 0 (atInstr 0xF3 0x0A (two 0 7 3 9) (fun _ => 0)) =
      .ok { atInstr 0xF3 0x0A (two 0 7 3 9) (fun _ => 0) with
            opcode := 0xF00A + 0x100 * (3 : Fin 16).val } :=
  step_FX0A_idle 0 (atInstr 0xF3 0x0A (two 0 7 3 9) (fun _ => 0)) 3 (fun _ => rfl)
    (atInstr_hi _ _ _ _) (atInstr_lo _ _ _ _)

/-- C8 as stated fails: with keys 1 and 2 both pressed, `F00A` stores 2 in `V0`, although
the lowest pressed key is 1. -/
theorem step_FX0A_two_keys :
    (two 1 1 2 1) 1 ≠ 0 ∧ (∀ k : Fin 16, k.val < 1 → (two 1 1 2 1) k = 0) ∧
    ∃ s', emulateCycle 0 (atInstr 0xF0 0x0A (fun _ => 0) (two 1 1 2 1)) = .ok s' ∧
      s'.V 0 = 2 ∧ s'.V 0 ≠ 1 := by
  refine ⟨by decide, ?_, ?_⟩
  · intro k hk
    have h0 : k = 0 := Fin.ext (by omega)
    rw [h0]
    rfl
  · obtain ⟨s', h1, h2, _⟩ := step_FX0A_pressed 0
      (atInstr 0xF0 0x0A (fun _ => 0) (two 1 1 2 1)) 0 2
      (atInstr_hi _ _ _ _) (atInstr_lo _ _ _ _) (by decide)
      (fun k hk => by
        have h1 : k.val ≠ 1 := by
          have : (2 : Fin 16).val = 2 := rfl
          omega
        have h2 : k.val ≠ 2 := by
          have : (2 : Fin 16).val = 2 := rfl
          omega
        show (two 1 1 2 1) k = 0
        simp [two, h1, h2])
    have h3 : s'.V 0 = 2 := h2
    exact ⟨s', h1, h3, by omega⟩

/-- C8 (amended): with at least one key pressed, a cycle on `FX0A` sets `VX` to the
highest index `m` of a pressed key and advances `pc` by 2. -/
theorem step_FX0A_highest (rnd : Nat) (s : Chip8) (x : Fin 16)
    (hhi : rd s.memory s.pc = .ok (0xF0 + x.val))
    (hlo : rd s.memory (s.pc + 1) = .ok 0x0A)
    (hkey : ∃ k : Fin 16, s.keys k ≠ 0) :
    ∃ (s' : Chip8) (m : Fin 16), emulateCycle rnd s = .ok s' ∧
      s.keys m ≠ 0 ∧ (∀ k : Fin 16, m < k → s.keys k = 0) ∧
      s'.V x = m.val ∧ s'.pc = s.pc + 2 := by
  obtain ⟨k, hk⟩ := hkey
  obtain ⟨m, _, hm, hmax⟩ := highest_pressed s.keys 16 (Nat.le_refl _) ⟨k, k.isLt, hk⟩
  obtain ⟨s', h1, h2, h3⟩ := step_FX0A_pressed rnd s x m hhi hlo hm
    (fun j hj => hmax j hj j.isLt)
  exact ⟨s', m, h1, hm, fun j hj => hmax j hj j.isLt, h2, h3⟩

/-- Witness for C8 (amended): keys 1 and 2 pressed, instruction `F00A`. -/
theorem step_FX0A_highest_witness :
    ∃ (s' : Chip8) (m : Fin 16),
      emulateCycle 0 (atInstr 0xF0 0x0A (fun _ => 0) (two 1 1 2 1)) = .ok s' ∧
      (atInstr 0xF0 0x0A (fun _ => 0) (two 1 1 2 1)).keys m ≠ 0 ∧
      (∀ k : Fin 16, m < k → (atInstr 0xF0 0x0A (fun _ => 0) (two 1 1 2 1)).keys k = 0) ∧
      s'.V 0 = m.val ∧ s'.pc = (atInstr 0xF0 0x0A (fun _ => 0) (two 1 1 2 1)).pc + 2 :=
  step_FX0A_highest 0 (atInstr 0xF0 0x0A (fun _ => 0) (two 1 1 2 1)) 0
    (atInstr_hi _ _ _ _) (atInstr_lo _ _ _ _) ⟨1, by decide⟩

/-- C9: a `2NNN` at `pc = p` with fewer than 16 stack entries, followed by the `00EE` stored
at `NNN ≤ 4094`, leaves `pc = p + 2` and the stack pointer at its value before the call,
with the stack entries below it unchanged. -/
theorem call_return (r1 r2 : Nat) (s : Chip8) (a b : Nat) (ha : a < 16) (hb : b < 256)
    (hsp : s.sp < 16)
    (hhi : rd s.memory s.pc = .ok (0x20 + a)) (hlo : rd s.memory (s.pc + 1) = .ok b)
    (hhi2 : rd s.memory (a * 256 + b) = .ok 0x00)
    (hlo2 : rd s.memory (a * 256 + b + 1) = .ok 0xEE) :
    ∃ s1 s2, emulateCycle r1 s = .ok s1 ∧ emulateCycle r2 s1 = .ok s2 ∧
      s1.pc = a * 256 + b ∧ s1.sp = s.sp + 1 ∧
      s2.pc = s.pc + 2 ∧ s2.sp = s.sp ∧
      ∀ k : Fin 16, k.val < s.sp → s2.stack k = s.stack k := by
  obtain ⟨hpc, _⟩ := rd_eq_ok hlo
  have h1 := step_2NNN r1 s a b ha hb hsp hhi hlo
  have hret : rd (upd s.stack s.sp s.pc) (s.sp + 1 - 1) = .ok s.pc := by
    rw [Nat.add_sub_cancel, rd_of_lt _ _ hsp]
    simp [upd_apply]
  have h2 := step_00EE r2
    (updateTimers
      { s with opcode := (0x20 + a) * 256 + b, stack := upd s.stack s.sp s.pc,
               sp := s.sp + 1, pc := a * 256 + b }) s.pc
    (by rw [updateTimers_memory, updateTimers_pc]; exact hhi2)
    (by rw [updateTimers_memory, updateTimers_pc]; exact hlo2)
    (by rw [updateTimers_sp]; show 0 < s.sp + 1; omega)
    (by rw [updateTimers_sp]; show s.sp + 1 < 65536; omega)
    (by rw [updateTimers_sp, updateTimers_stack]; exact hret)
  refine ⟨_, _, h1, h2, ?_, ?_, ?_, ?_, ?_⟩
  · simp
  · simp
  · simp
    omega
  · simp
  · intro k hk
    have hk2 : k.val ≠ s.sp := by omega
    simp [upd_apply, hk2]

/-- Witness for C9: `2300` at 0x200 with `00EE` at 0x300 and two entries on the stack. -/
theorem call_return_witness :
    ∃ s1 s2, emulateCycle 0 callMachine = .ok s1 ∧ emulateCycle 0 s1 = .ok s2 ∧
      s1.pc = 3 * 256 + 0 ∧ s1.sp = callMachine.sp + 1 ∧
      s2.pc = callMachine.pc + 2 ∧ s2.sp = callMachine.sp ∧
      ∀ k : Fin 16, k.val < callMachine.sp → s2.stack k = callMachine.stack k :=
  call_return 0 0 callMachine 3 0 (by decide) (by decide) (by decide) rfl rfl rfl rfl

/-- C10 (the code on a file of exactly 3584 bytes): `load` returns 0 and copies nothing,
because its size test is `(4096 - 512) > rom_size`. -/
theorem load_3584_bytes (s : Chip8) :
    (List.replicate 3584 0).length = 4096 - 512 ∧
    load (some (List.replicate 3584 0)) s = (0, init s) :=
  ⟨List.length_replicate _ _, load_of_ge _ _ (Nat.le_of_eq (List.length_replicate _ _).symm)⟩

/-- C5: for `DXYN` with `X ≠ 0xF`, `Y ≠ 0xF`, a sprite inside the framebuffer
(`Vx + 7 + 64 * (Vy + N - 1) < 2048`) and `I + N ≤ 4096`, executing the instruction twice in
a row returns every framebuffer cell to its value before the first draw; and if the first
draw turned some cell from 0 to 1, then `VF = 1` after the second draw. -/
theorem draw_twice (r1 r2 : Nat) (s : Chip8) (x y : Fin 16) (n : Nat) (hn : n < 16)
    (hx : x ≠ VF) (hy : y ≠ VF)
    (hhi : rd s.memory s.pc = .ok (0xD0 + x.val))
    (hlo : rd s.memory (s.pc + 1) = .ok (0x10 * y.val + n))
    (hhi2 : rd s.memory (s.pc + 2) = .ok (0xD0 + x.val))
    (hlo2 : rd s.memory (s.pc + 2 + 1) = .ok (0x10 * y.val + n))
    (hfit : (s.V x : Int) + 7 + 64 * ((s.V y : Int) + n - 1) < 2048)
    (hmem : s.I + n ≤ 4096) :
    ∃ s1 s2, emulateCycle r1 s = .ok s1 ∧ emulateCycle r2 s1 = .ok s2 ∧
      (∀ j, s2.graphics j = s.graphics j) ∧
      ((∃ j, s.graphics j = 0 ∧ s1.graphics j = 1) → s2.V VF = 1) := by
  obtain ⟨hpc, _⟩ := rd_eq_ok hlo2
  have hrd : ∀ r, r < n → rd s.memory (s.I + r) =
      .ok (if h : s.I + r < 4096 then s.memory ⟨s.I + r, h⟩ else 0) := by
    intro r hr
    have hlt : s.I + r < 4096 := by omega
    rw [rd_of_lt _ _ hlt, dif_pos hlt]
  have hfit2 : ∀ r c, r < n → c < 8 → s.V x + c + ((s.V y + r) * 64) < 2048 := by
    intro r c hr hc
    omega
  obtain ⟨t1, h1, d1⟩ := step_DXYN r1 s x y n hn _ hhi hlo hrd hfit2
  have hmem1 : (updateTimers (advance 2 { t1 with drawFlag := 1 })).memory = s.memory := by
    rw [updateTimers_memory, advance_memory]
    exact d1.memory_eq
  have hI1 : (updateTimers (advance 2 { t1 with drawFlag := 1 })).I = s.I := by
    rw [updateTimers_I, advance_I]
    exact d1.I_eq
  have hpc1 : (updateTimers (advance 2 { t1 with drawFlag := 1 })).pc = s.pc + 2 := by
    rw [updateTimers_pc, advance_pc]
    have e : t1.pc = s.pc := d1.pc_eq
    show (t1.pc + 2) % 65536 = s.pc + 2
    rw [e]
    omega
  have hxF : x.val ≠ 15 := fun h => hx (Fin.ext h)
  have hyF : y.val ≠ 15 := fun h => hy (Fin.ext h)
  have hVx : (updateTimers (advance 2 { t1 with drawFlag := 1 })).V x = s.V x := by
    rw [updateTimers_V, advance_V]
    have e := d1.V_eq x hx
    show t1.V x = s.V x
    rw [e]
    simp [upd_apply, hxF]
  have hVy : (updateTimers (advance 2 { t1 with drawFlag := 1 })).V y = s.V y := by
    rw [updateTimers_V, advance_V]
    have e := d1.V_eq y hy
    show t1.V y = s.V y
    rw [e]
    simp [upd_apply, hyF]
  have hg1 : (updateTimers (advance 2 { t1 with drawFlag := 1 })).graphics =
      xorMask (spriteMask (s.V x) (s.V y)
        (fun r => if h : s.I + r < 4096 then s.memory ⟨s.I + r, h⟩ else 0) n) s.graphics := by
    rw [updateTimers_graphics, advance_graphics]
    exact d1.graphics_eq
  obtain ⟨t2, h2, d2⟩ := step_DXYN r2 (updateTimers (advance 2 { t1 with drawFlag := 1 })) x y n hn
    (fun r => if h : s.I + r < 4096 then s.memory ⟨s.I + r, h⟩ else 0)
    (by rw [hmem1, hpc1]; exact hhi2) (by rw [hmem1, hpc1]; exact hlo2)
    (by rw [hmem1, hI1]; exact hrd) (by rw [hVx, hVy]; exact hfit2)
  rw [hVx, hVy] at d2
  have hg2 : (updateTimers (advance 2 { t2 with drawFlag := 1 })).graphics = s.graphics := by
    rw [updateTimers_graphics, advance_graphics]
    have e := d2.graphics_eq
    show t2.graphics = s.graphics
    rw [e]
    show xorMask _ (updateTimers (advance 2 { t1 with drawFlag := 1 })).graphics = s.graphics
    rw [hg1, xorMask_xorMask]
  refine ⟨_, _, h1, h2, fun j => by rw [hg2], ?_⟩
  rintro ⟨j, hj0, hj1⟩
  rw [hg1] at hj1
  have hm : spriteMask (s.V x) (s.V y)
      (fun r => if h : s.I + r < 4096 then s.memory ⟨s.I + r, h⟩ else 0) n j = true := by
    cases hm : spriteMask (s.V x) (s.V y)
      (fun r => if h : s.I + r < 4096 then s.memory ⟨s.I + r, h⟩ else 0) n j
    · simp [xorMask, hm, hj0] at hj1
    · rfl
  have hcell : (setV VF 0
      { (updateTimers (advance 2 { t1 with drawFlag := 1 })) with
        opcode := (0xD0 + x.val) * 256 + (0x10 * y.val + n) }).graphics j = 1 := by
    show (updateTimers (advance 2 { t1 with drawFlag := 1 })).graphics j = 1
    rw [hg1]
    exact hj1
  have hv := d2.collision j hm hcell
  rw [updateTimers_V, advance_V]
  exact hv

/-- Witness for C5: `D011` twice on a dark screen with the one-row sprite `0x80`.  The first
draw lights cell 0, the second draw darkens it again and leaves `VF = 1`. -/
theorem draw_twice_witness :
    ∃ s1 s2, emulateCycle 0 drawMachine = .ok s1 ∧ emulateCycle 0 s1 = .ok s2 ∧
      (∀ j, s2.graphics j = drawMachine.graphics j) ∧
      (∃ j, drawMachine.graphics j = 0 ∧ s1.graphics j = 1) ∧ s2.V VF = 1 := by
  obtain ⟨s1, s2, h1, h2, hg, hv⟩ :=
    draw_twice 0 0 drawMachine 0 1 1 (by decide) (by decide) (by decide) rfl rfl rfl rfl
      (by decide) (by decide)
  obtain ⟨t1, e1, d1⟩ := step_DXYN 0 drawMachine 0 1 1 (by decide) (fun _ => 0x80) rfl rfl
    (fun r hr => by
      have h0 : r = 0 := by omega
      rw [h0]
      rfl)
    (fun r c hr hc => by
      have h0 : r = 0 := by omega
      have hV0 : drawMachine.V 0 = 0 := rfl
      have hV1 : drawMachine.V 1 = 0 := rfl
      rw [h0, hV0, hV1]
      omega)
  have es : s1 = updateTimers (advance 2 { t1 with drawFlag := 1 }) := by
    rw [h1] at e1
    exact Except.ok.inj e1
  have hmask : spriteMask (drawMachine.V 0) (drawMachine.V 1) (fun _ => 0x80) 1 0 = true := by
    decide
  have hpix : s1.graphics 0 = 1 := by
    rw [es, updateTimers_graphics, advance_graphics]
    show t1.graphics 0 = 1
    rw [d1.graphics_eq]
    show xorMask _ drawMachine.graphics 0 = 1
    simp only [xorMask, hmask, if_true]
    rfl
  exact ⟨s1, s2, h1, h2, hg, ⟨0, rfl, hpix⟩, hv ⟨0, rfl, hpix⟩⟩

/-- C11: a file that `load` rejects (return value 0) leaves exactly the machine that
`init` produces: font in `memory[0..80)`, zeros in `memory[80..4096)`, `pc = 0x200`; no byte
of the file has been copied. -/
theorem load_rejected (rom : List Nat) (s : Chip8) (h : (load (some rom) s).1 = 0) :
    (load (some rom) s).2 = init s ∧
    (load (some rom) s).2.pc = 0x200 ∧
    (∀ i : Fin 4096, i.val < 80 →
      chip8_fontset[i.val]? = some ((load (some rom) s).2.memory i)) ∧
    (∀ i : Fin 4096, 80 ≤ i.val → (load (some rom) s).2.memory i = 0) := by
  have hge : 3584 ≤ rom.length := by
    by_contra hlt
    rw [load_of_lt rom s (by omega)] at h
    cases h
  rw [load_of_ge rom s hge]
  obtain ⟨h1, _, _, h4, h5, _⟩ := init_state s
  exact ⟨rfl, h1, h4, h5⟩

/-- Witness for C11: a file of 4000 bytes, all 7, offered to the blank machine. -/
theorem load_rejected_witness :
    (load (some (List.replicate 4000 7)) blank).1 = 0 ∧
    (load (some (List.replicate 4000 7)) blank).2 = init blank ∧
    (load (some (List.replicate 4000 7)) blank).2.pc = 0x200 ∧
    (∀ i : Fin 4096, i.val < 80 →
      chip8_fontset[i.val]? = some ((load (some (List.replicate 4000 7)) blank).2.memory i)) ∧
    (∀ i : Fin 4096, 80 ≤ i.val → (load (some (List.replicate 4000 7)) blank).2.memory i = 0) :=
  have h : (load (some (List.replicate 4000 7)) blank).1 = 0 := by
    rw [load_of_ge _ _ (by rw [List.length_replicate]; decide)]
  ⟨h, load_rejected (List.replicate 4000 7) blank h⟩

/-- C14 as stated fails: `F015` with `V0 = 5` leaves `delayTimer = 4`, not 5, because the
timer update at the end of the same cycle already counts the stored value down. -/
theorem step_FX15_counts_down :
    (atInstr 0xF0 0x15 (two 0 5 1 0) (fun _ => 0)).V 0 = 5 ∧
    ∃ s', emulateCycle 0 (atInstr 0xF0 0x15 (two 0 5 1 0) (fun _ => 0)) = .ok s' ∧
      s'.delayTimer = 4 ∧ s'.delayTimer ≠ (atInstr 0xF0 0x15 (two 0 5 1 0) (fun _ => 0)).V 0 := by
  refine ⟨rfl, _, step_FX15 0 _ 0 (atInstr_hi _ _ _ _) (atInstr_lo _ _ _ _), ?_, ?_⟩
  · rw [updateTimers_delayTimer]
    rfl
  · rw [updateTimers_delayTimer]
    decide

/-- C14 (amended): one cycle that executes `FX15` leaves `delayTimer = max (VX - 1) 0`, and
one cycle that executes `FX18` leaves `soundTimer = max (VX - 1) 0`, for the value `VX` held
before the cycle: the instruction stores `VX` and the timer update of the same cycle takes 1
off a nonzero timer.  The other timer is counted down as in every cycle. -/
theorem step_FX15_FX18 (rnd : Nat) (s : Chip8) (x : Fin 16) (lo : Nat)
    (hhi : rd s.memory s.pc = .ok (0xF0 + x.val))
    (hlo : rd s.memory (s.pc + 1) = .ok lo)
    (hcase : lo = 0x15 ∨ lo = 0x18) :
    ∃ s', emulateCycle rnd s = .ok s' ∧
      (lo = 0x15 → s'.delayTimer = s.V x - 1 ∧ s'.soundTimer = s.soundTimer - 1) ∧
      (lo = 0x18 → s'.soundTimer = s.V x - 1 ∧ s'.delayTimer = s.delayTimer - 1) := by
  rcases hcase with h | h
  · rw [h] at hlo
    refine ⟨_, step_FX15 rnd s x hhi hlo, fun _ => ?_, fun h2 => ?_⟩
    · rw [updateTimers_delayTimer, updateTimers_soundTimer]
      exact ⟨rfl, rfl⟩
    · rw [h] at h2
      cases h2
  · rw [h] at hlo
    refine ⟨_, step_FX18 rnd s x hhi hlo, fun h2 => ?_, fun _ => ?_⟩
    · rw [h] at h2
      cases h2
    · rw [updateTimers_delayTimer, updateTimers_soundTimer]
      exact ⟨rfl, rfl⟩

/-- Witness for C14 (amended): `F218` with `V2 = 9`. -/
theorem step_FX15_FX18_witness :
    ∃ s', emulateCycle 0 (atInstr 0xF2 0x18 (two 2 9 0 0) (fun _ => 0)) = .ok s' ∧
      ((0x18 : Nat) = 0x15 → s'.delayTimer = (atInstr 0xF2 0x18 (two 2 9 0 0) (fun _ => 0)).V 2 - 1
        ∧ s'.soundTimer = (atInstr 0xF2 0x18 (two 2 9 0 0) (fun _ => 0)).soundTimer - 1) ∧
      ((0x18 : Nat) = 0x18 → s'.soundTimer = (atInstr 0xF2 0x18 (two 2 9 0 0) (fun _ => 0)).V 2 - 1
        ∧ s'.delayTimer = (atInstr 0xF2 0x18 (two 2 9 0 0) (fun _ => 0)).delayTimer - 1) :=
  step_FX15_FX18 0 (atInstr 0xF2 0x18 (two 2 9 0 0) (fun _ => 0)) 2 0x18
    (atInstr_hi _ _ _ _) (atInstr_lo _ _ _ _) (Or.inr rfl)

/-- C15: `FX33` with `VX ≤ 255` and `I ≤ 4093` writes the hundreds, tens and ones digit of
`VX` to `memory[I]`, `memory[I+1]`, `memory[I+2]`, so that the three cells give back `VX` and
hold at most 2, 9 and 9; no other memory cell, no register and not `I` is changed, and `pc`
advances by 2. -/
theorem step_FX33 (rnd : Nat) (s : Chip8) (x : Fin 16)
    (hhi : rd s.memory s.pc = .ok (0xF0 + x.val))
    (hlo : rd s.memory (s.pc + 1) = .ok 0x33)
    (hV : s.V x ≤ 255) (hI : s.I ≤ 4093) :
    ∃ s', emulateCycle rnd s = .ok s' ∧
      rd s'.memory s.I = .ok (s.V x / 100) ∧
      rd s'.memory (s.I + 1) = .ok ((s.V x / 10) % 10) ∧
      rd s'.memory (s.I + 2) = .ok (s.V x % 10) ∧
      100 * (s.V x / 100) + 10 * ((s.V x / 10) % 10) + s.V x % 10 = s.V x ∧
      s.V x / 100 ≤ 2 ∧ (s.V x / 10) % 10 ≤ 9 ∧ s.V x % 10 ≤ 9 ∧
      (∀ j : Fin 4096, j.val ≠ s.I → j.val ≠ s.I + 1 → j.val ≠ s.I + 2 →
        s'.memory j = s.memory j) ∧
      s'.V = s.V ∧ s'.I = s.I ∧ s'.pc = s.pc + 2 := by
  obtain ⟨hpc, _⟩ := rd_eq_ok hlo
  refine ⟨_, step_FX33_eq rnd s x hhi hlo (by omega), ?_, ?_, ?_, by omega, by omega, by omega,
    by omega, ?_, ?_, ?_, ?_⟩
  · rw [updateTimers_memory, advance_memory, rd_of_lt _ _ (show s.I < 4096 by omega)]
    simp [upd_apply]
  · rw [updateTimers_memory, advance_memory, rd_of_lt _ _ (show s.I + 1 < 4096 by omega)]
    simp [upd_apply]
  · rw [updateTimers_memory, advance_memory, rd_of_lt _ _ (show s.I + 2 < 4096 by omega)]
    simp [upd_apply]
  · intro j h0 h1 h2
    rw [updateTimers_memory, advance_memory]
    simp [upd_apply, h0, h1, h2]
  · rw [updateTimers_V, advance_V]
  · rw [updateTimers_I, advance_I]
  · rw [updateTimers_pc, advance_pc]
    show (s.pc + 2) % 65536 = s.pc + 2
    omega

/-- Witness for C15: `F133` with `V1 = 254` and `I = 0`. -/
theorem step_FX33_witness :
    ∃ s', emulateCycle 0 (atInstr 0xF1 0x33 (two 1 254 0 0) (fun _ => 0)) = .ok s' ∧
      rd s'.memory (atInstr 0xF1 0x33 (two 1 254 0 0) (fun _ => 0)).I = .ok (254 / 100) ∧
      rd s'.memory ((atInstr 0xF1 0x33 (two 1 254 0 0) (fun _ => 0)).I + 1)
        = .ok ((254 / 10) % 10) ∧
      rd s'.memory ((atInstr 0xF1 0x33 (two 1 254 0 0) (fun _ => 0)).I + 2) = .ok (254 % 10) ∧
      100 * (254 / 100) + 10 * ((254 / 10) % 10) + 254 % 10 = 254 ∧
      254 / 100 ≤ 2 ∧ (254 / 10) % 10 ≤ 9 ∧ 254 % 10 ≤ 9 ∧
      (∀ j : Fin 4096, j.val ≠ (atInstr 0xF1 0x33 (two 1 254 0 0) (fun _ => 0)).I →
        j.val ≠ (atInstr 0xF1 0x33 (two 1 254 0 0) (fun _ => 0)).I + 1 →
        j.val ≠ (atInstr 0xF1 0x33 (two 1 254 0 0) (fun _ => 0)).I + 2 →
        s'.memory j = (atInstr 0xF1 0x33 (two 1 254 0 0) (fun _ => 0)).memory j) ∧
      s'.V = (atInstr 0xF1 0x33 (two 1 254 0 0) (fun _ => 0)).V ∧
      s'.I = (atInstr 0xF1 0x33 (two 1 254 0 0) (fun _ => 0)).I ∧
      s'.pc = (atInstr 0xF1 0x33 (two 1 254 0 0) (fun _ => 0)).pc + 2 :=
  step_FX33 0 (atInstr 0xF1 0x33 (two 1 254 0 0) (fun _ => 0)) 1
    (atInstr_hi _ _ _ _) (atInstr_lo _ _ _ _) (by decide) (by decide)

/-- C17 as stated fails for `Y = 0xF`: `80F7` with `V0 = 3`, `VF = 10` leaves `V0 = 254`,
not `(10 - 3) mod 256 = 7`, because `VF` is overwritten with the flag 1 before `VY - VX`
is computed. -/
theorem step_8XY7_Y_is_F :
    (atInstr 0x80 0xF7 (two 0 3 15 10) (fun _ => 0)).V 0 = 3 ∧
    (atInstr 0x80 0xF7 (two 0 3 15 10) (fun _ => 0)).V VF = 10 ∧
    ∃ s', emulateCycle 0 (atInstr 0x80 0xF7 (two 0 3 15 10) (fun _ => 0)) = .ok s' ∧
      s'.V 0 = 254 ∧ s'.V VF = 1 := by
  refine ⟨rfl, rfl, _, step_8XY7_eq 0 _ 0 15 (atInstr_hi _ _ _ _) (atInstr_lo _ _ _ _), ?_, ?_⟩
  · rw [updateTimers_V, advance_V, setV_V, setV_V]
    decide
  · rw [updateTimers_V, advance_V, setV_V, setV_V]
    decide

/-- C17 (amended): `8XY7` with neither `X` nor `Y` equal to `0xF` leaves
`VX = (VY - VX) mod 256` computed from the values before the instruction, and `VF = 0` if
`VX > VY`, else `VF = 1`. -/
theorem step_8XY7 (rnd : Nat) (s : Chip8) (x y : Fin 16)
    (hx : x ≠ VF) (hy : y ≠ VF)
    (hhi : rd s.memory s.pc = .ok (0x80 + x.val))
    (hlo : rd s.memory (s.pc + 1) = .ok (0x10 * y.val + 0x7)) :
    ∃ s', emulateCycle rnd s = .ok s' ∧
      (s'.V x : Int) = ((s.V y : Int) - (s.V x : Int)) % 256 ∧
      s'.V VF = (if s.V x > s.V y then 0 else 1) := by
  have hxF : x.val ≠ 15 := fun h => hx (Fin.ext h)
  have hyF : y.val ≠ 15 := fun h => hy (Fin.ext h)
  have hFx : (15 : Nat) ≠ x.val := fun h => hxF h.symm
  refine ⟨_, step_8XY7_eq rnd s x y hhi hlo, ?_, ?_⟩
  · simp only [updateTimers_V, advance_V, setV_V, upd_apply, VF_val, hxF, hyF, if_false,
      if_true]
    omega
  · simp only [updateTimers_V, advance_V, setV_V, upd_apply, VF_val, hFx, if_false,
      if_true]

/-- Witness for C17 (amended): `8017` with `V0 = 10`, `V1 = 3`. -/
theorem step_8XY7_witness :
    ∃ s', emulateCycle 0 (atInstr 0x80 0x17 (two 0 10 1 3) (fun _ => 0)) = .ok s' ∧
      (s'.V 0 : Int) = ((3 : Int) - 10) % 256 ∧ s'.V VF = 0 :=
  step_8XY7 0 (atInstr 0x80 0x17 (two 0 10 1 3) (fun _ => 0)) 0 1
    (by decide) (by decide) (atInstr_hi _ _ _ _) (atInstr_lo _ _ _ _)

/-- C18 as stated fails in all three groups: `8008` ends in `exit(3)`, and `E000` and `F000`
return with `pc` still 0x200, not 0x202. -/
theorem step_unrecognised_fails :
    emulateCycle 0 (atInstr 0x80 0x08 (fun _ => 0) (fun _ => 0)) = .error Fault.exit3 ∧
    (∃ s', emulateCycle 0 (atInstr 0xE0 0x00 (fun _ => 0) (fun _ => 0)) = .ok s' ∧
      s'.pc = 0x200) ∧
    (∃ s', emulateCycle 0 (atInstr 0xF0 0x00 (fun _ => 0) (fun _ => 0)) = .ok s' ∧
      s'.pc = 0x200) := by
  refine ⟨?_, ?_, ?_⟩
  · exact step_8XYn_default 0 _ 0x80 0x08 (atInstr_hi _ _ _ _) (atInstr_lo _ _ _ _)
      (by decide) (by decide) (by decide) (by decide)
  · exact ⟨_, step_EXNN_default 0 _ 0xE0 0x00 (atInstr_hi _ _ _ _) (atInstr_lo _ _ _ _)
      (by decide) (by decide) (by decide) (by decide), by rw [updateTimers_pc]; rfl⟩
  · exact ⟨_, step_FXNN_default 0 _ 0xF0 0x00 (atInstr_hi _ _ _ _) (atInstr_lo _ _ _ _)
      (by decide) (by decide) (by decide) (by decide), by rw [updateTimers_pc]; rfl⟩

/-- C18 (amended): an `8XYn` with `n` not in {0,...,7,E} ends the step fatally (`exit(3)`);
an `EXNN` with `NN` not in {9E, A1} and an `FXNN` with `NN` not in
{07, 0A, 15, 18, 1E, 29, 33, 55, 65} yield a state in which registers, `I`, memory, call
stack, framebuffer and keypad are unchanged. -/
theorem step_unrecognised (rnd : Nat) (s : Chip8) (hi lo : Nat)
    (hhi : rd s.memory s.pc = .ok hi) (hlo : rd s.memory (s.pc + 1) = .ok lo)
    (hhi2 : hi < 256) (hlo2 : lo < 256)
    (hcase : (hi / 16 = 8 ∧ ¬ (lo % 16 ≤ 7 ∨ lo % 16 = 0xE)) ∨
      (hi / 16 = 0xE ∧ lo ≠ 0x9E ∧ lo ≠ 0xA1) ∨
      (hi / 16 = 0xF ∧ lo ≠ 0x07 ∧ lo ≠ 0x0A ∧ lo ≠ 0x15 ∧ lo ≠ 0x18 ∧ lo ≠ 0x1E ∧
        lo ≠ 0x29 ∧ lo ≠ 0x33 ∧ lo ≠ 0x55 ∧ lo ≠ 0x65)) :
    (hi / 16 = 8 → emulateCycle rnd s = .error Fault.exit3) ∧
    (hi / 16 ≠ 8 → ∃ s', emulateCycle rnd s = .ok s' ∧
      s'.V = s.V ∧ s'.I = s.I ∧ s'.memory = s.memory ∧ s'.stack = s.stack ∧ s'.sp = s.sp ∧
      s'.graphics = s.graphics ∧ s'.keys = s.keys) := by
  rcases hcase with ⟨h8, hn⟩ | ⟨hE, hn⟩ | ⟨hF, hn⟩
  · exact ⟨fun _ => step_8XYn_default rnd s hi lo hhi hlo hhi2 hlo2 h8 hn,
      fun h => absurd h8 h⟩
  · refine ⟨fun h => ?_, fun _ => ⟨_, step_EXNN_default rnd s hi lo hhi hlo hhi2 hlo2 hE hn,
      ?_, ?_, ?_, ?_, ?_, ?_, ?_⟩⟩
    · omega
    · rw [updateTimers_V]
    · rw [updateTimers_I]
    · rw [updateTimers_memory]
    · rw [updateTimers_stack]
    · rw [updateTimers_sp]
    · rw [updateTimers_graphics]
    · rw [updateTimers_keys]
  · refine ⟨fun h => ?_, fun _ => ⟨_, step_FXNN_default rnd s hi lo hhi hlo hhi2 hlo2 hF hn,
      ?_, ?_, ?_, ?_, ?_, ?_, ?_⟩⟩
    · omega
    · rw [updateTimers_V]
    · rw [updateTimers_I]
    · rw [updateTimers_memory]
    · rw [updateTimers_stack]
    · rw [updateTimers_sp]
    · rw [updateTimers_graphics]
    · rw [updateTimers_keys]

/-- Witness for C18 (amended): `F1FF` on a machine with `V1 = 7`. -/
theorem step_unrecognised_witness :
    ((0xF1 : Nat) / 16 = 8 →
      emulateCycle 0 (atInstr 0xF1 0xFF (two 1 7 0 0) (fun _ => 0)) = .error Fault.exit3) ∧
    ((0xF1 : Nat) / 16 ≠ 8 →
      ∃ s', emulateCycle 0 (atInstr 0xF1 0xFF (two 1 7 0 0) (fun _ => 0)) = .ok s' ∧
        s'.V = (atInstr 0xF1 0xFF (two 1 7 0 0) (fun _ => 0)).V ∧
        s'.I = (atInstr 0xF1 0xFF (two 1 7 0 0) (fun _ => 0)).I ∧
        s'.memory = (atInstr 0xF1 0xFF (two 1 7 0 0) (fun _ => 0)).memory ∧
        s'.stack = (atInstr 0xF1 0xFF (two 1 7 0 0) (fun _ => 0)).stack ∧
        s'.sp = (atInstr 0xF1 0xFF (two 1 7 0 0) (fun _ => 0)).sp ∧
        s'.graphics = (atInstr 0xF1 0xFF (two 1 7 0 0) (fun _ => 0)).graphics ∧
        s'.keys = (atInstr 0xF1 0xFF (two 1 7 0 0) (fun _ => 0)).keys) :=
  step_unrecognised 0 (atInstr 0xF1 0xFF (two 1 7 0 0) (fun _ => 0)) 0xF1 0xFF
    (atInstr_hi _ _ _ _) (atInstr_lo _ _ _ _) (by decide) (by decide)
    (Or.inr (Or.inr (by decide)))

/-- C19 (the code on a machine whose `drawFlag` is 1): `init` writes every field except
`drawFlag`, so the flag is still 1 afterwards and two prior machines that differ in it
are not reset to the same machine; every other field is the same after `init`. -/
theorem init_keeps_drawFlag :
    (init { blank with drawFlag := 1 }).drawFlag = 1 ∧
    init blank ≠ init { blank with drawFlag := 1 } ∧
    ∀ s t : Chip8, init s = { init t with drawFlag := s.drawFlag } := by
  refine ⟨?_, ?_, ?_⟩
  · rw [init_eq]
  · intro h
    have h2 := congrArg Chip8.drawFlag h
    rw [init_eq, init_eq] at h2
    cases h2
  · intro s t
    rw [init_eq, init_eq]

/-- C16: `FX55` with `I + X ≤ 4095` writes `memory[I + i] = Vi` for every `i ≤ X` and changes
no other memory cell, no register and not `I`; a later `FX65` with the same `X` and `I`, on
any machine whose cells `memory[I..I+X]` still hold the stored values, sets `Vi` back to the
stored value for every `i ≤ X` and leaves `Vj` for `j > X`, `I` and memory unchanged. -/
theorem store_load_round_trip (r1 r2 : Nat) (s : Chip8) (x : Fin 16)
    (hhi : rd s.memory s.pc = .ok (0xF0 + x.val))
    (hlo : rd s.memory (s.pc + 1) = .ok 0x55) (hI : s.I + x.val ≤ 4095) :
    ∃ s1, emulateCycle r1 s = .ok s1 ∧
      (∀ i : Fin 16, i ≤ x → rd s1.memory (s.I + i.val) = .ok (s.V i)) ∧
      (∀ j : Fin 4096, (j.val < s.I ∨ s.I + x.val < j.val) → s1.memory j = s.memory j) ∧
      s1.V = s.V ∧ s1.I = s.I ∧
      ∀ s2 : Chip8, s2.I = s.I →
        (∀ i : Fin 16, i ≤ x → rd s2.memory (s.I + i.val) = rd s1.memory (s.I + i.val)) →
        rd s2.memory s2.pc = .ok (0xF0 + x.val) → rd s2.memory (s2.pc + 1) = .ok 0x65 →
        ∃ s3, emulateCycle r2 s2 = .ok s3 ∧
          (∀ i : Fin 16, i ≤ x → s3.V i = s.V i) ∧
          (∀ j : Fin 16, x < j → s3.V j = s2.V j) ∧
          s3.I = s2.I ∧ s3.memory = s2.memory := by
  obtain ⟨m, h1, hm1, hm2⟩ := step_FX55 r1 s x hhi hlo hI
  have hstored : ∀ i : Fin 16, i ≤ x →
      rd (updateTimers (advance 2
        { s with opcode := (0xF0 + x.val) * 256 + 0x55, memory := m })).memory (s.I + i.val)
        = .ok (s.V i) := by
    intro i hi
    have hi2 : i.val ≤ x.val := hi
    rw [updateTimers_memory, advance_memory]
    show rd m (s.I + i.val) = .ok (s.V i)
    rw [hm1 i.val (by omega), rd_val]
  refine ⟨_, h1, hstored, ?_, ?_, ?_, ?_⟩
  · intro j hj
    rw [updateTimers_memory, advance_memory]
    exact hm2 j (by omega)
  · rw [updateTimers_V, advance_V]
  · rw [updateTimers_I, advance_I]
  · intro s2 hI2 hmem hhi2 hlo2
    obtain ⟨r, h2, hr1, hr2⟩ := step_FX65 r2 s2 x hhi2 hlo2 (by omega)
    refine ⟨_, h2, ?_, ?_, ?_, ?_⟩
    · intro i hi
      have hi2 : i.val ≤ x.val := hi
      rw [updateTimers_V, advance_V]
      show r i = s.V i
      have e := hr1 i.val (by omega)
      rw [rd_val, hI2, hmem i hi, hstored i hi] at e
      exact Except.ok.inj e
    · intro j hj
      have hj2 : x.val < j.val := hj
      rw [updateTimers_V, advance_V]
      exact hr2 j (by omega)
    · rw [updateTimers_I, advance_I]
    · rw [updateTimers_memory, advance_memory]

/-- Witness for C16: `F155` with `V0 = 7`, `V1 = 9`, `V2 = 4` and `I = 0x300`. -/
theorem store_load_round_trip_witness :
    ∃ s1, emulateCycle 0 storeMachine = .ok s1 ∧
      (∀ i : Fin 16, i ≤ 1 → rd s1.memory (storeMachine.I + i.val) = .ok (storeMachine.V i)) ∧
      (∀ j : Fin 4096, (j.val < storeMachine.I ∨ storeMachine.I + (1 : Fin 16).val < j.val) →
        s1.memory j = storeMachine.memory j) ∧
      s1.V = storeMachine.V ∧ s1.I = storeMachine.I ∧
      ∀ s2 : Chip8, s2.I = storeMachine.I →
        (∀ i : Fin 16, i ≤ 1 →
          rd s2.memory (storeMachine.I + i.val) = rd s1.memory (storeMachine.I + i.val)) →
        rd s2.memory s2.pc = .ok (0xF0 + (1 : Fin 16).val) →
        rd s2.memory (s2.pc + 1) = .ok 0x65 →
        ∃ s3, emulateCycle 0 s2 = .ok s3 ∧
          (∀ i : Fin 16, i ≤ 1 → s3.V i = storeMachine.V i) ∧
          (∀ j : Fin 16, 1 < j → s3.V j = s2.V j) ∧
          s3.I = s2.I ∧ s3.memory = s2.memory :=
  store_load_round_trip 0 0 storeMachine 1 rfl rfl (by decide)

/-- C12 (the code at `Vx = 60`): `D011` with `V0 = 60`, `V1 = 0` and the row byte `0xFF` on
a dark screen lights cells 60..67, that is columns 60..63 of row 0 and columns 0..3 of
row 1; cells 0..3 of row 0 stay dark.  The index is `x + xline + (y + yline) * 64`, with no
reduction of the column modulo 64. -/
theorem step_DXYN_at_60 :
    ∃ t, emulateCycle 0 wrapMachine = .ok t ∧
      (∀ j : Fin 2048, j.val < 4 → wrapMachine.graphics j = 0 ∧ t.graphics j = 0) ∧
      (∀ j : Fin 2048, 60 ≤ j.val → j.val < 68 →
        wrapMachine.graphics j = 0 ∧ t.graphics j = 1) := by
  obtain ⟨t, ht, hg, _⟩ := step_DXYN_frame 0 wrapMachine 0 1 1 (by decide) (fun _ => 0xFF)
    rfl rfl
    (fun r hr => by
      have h0 : r = 0 := by omega
      rw [h0]
      rfl)
    (fun r c hr hc => by
      have h0 : r = 0 := by omega
      have hV0 : wrapMachine.V 0 = 60 := rfl
      have hV1 : wrapMachine.V 1 = 0 := rfl
      rw [h0, hV0, hV1]
      omega)
  have hV0 : wrapMachine.V 0 = 60 := rfl
  have hV1 : wrapMachine.V 1 = 0 := rfl
  rw [hV0, hV1] at hg
  refine ⟨t, ht, ?_, ?_⟩
  · intro j hj
    refine ⟨rfl, ?_⟩
    have hm : spriteMask 60 0 (fun _ => 0xFF) 1 j = false := by
      cases hm : spriteMask 60 0 (fun _ => 0xFF) 1 j
      · rfl
      · obtain ⟨r, c, _, _, _, hidx⟩ := (spriteMask_iff 60 0 (fun _ => 0xFF) 1 j).1 hm
        omega
    rw [hg]
    simp only [xorMask, hm, Bool.false_eq_true, if_false]
    rfl
  · intro j h1 h2
    refine ⟨rfl, ?_⟩
    have hm : spriteMask 60 0 (fun _ => 0xFF) 1 j = true := by
      rw [spriteMask_iff]
      refine ⟨0, j.val - 60, by omega, by omega, ?_, by omega⟩
      have hc : j.val - 60 < 8 := by omega
      generalize j.val - 60 = c at hc
      interval_cases c <;> decide
    have h0 : wrapMachine.graphics j = 0 := rfl
    rw [hg]
    simp only [xorMask, hm, if_true, h0]
    rfl

/-- C12 (amended): for `DXYN` with a sprite inside the framebuffer
(`Vx + 7 + 64 * (Vy + N - 1) < 2048`) and `I + N ≤ 4096`, the step completes, and each set
bit at column `c` (bit `7 - c` of the row byte) of sprite row `r` toggles the cell at index
`Vx + c + 64 * (Vy + r)`, the column not being reduced modulo 64; a cell that no set bit
addresses in this way keeps its value. -/
theorem step_DXYN_no_wrap (rnd : Nat) (s : Chip8) (x y : Fin 16) (n : Nat) (hn : n < 16)
    (hhi : rd s.memory s.pc = .ok (0xD0 + x.val))
    (hlo : rd s.memory (s.pc + 1) = .ok (0x10 * y.val + n))
    (hfit : (s.V x : Int) + 7 + 64 * ((s.V y : Int) + n - 1) < 2048)
    (hmem : s.I + n ≤ 4096) :
    ∃ t, emulateCycle rnd s = .ok t ∧
      ∀ j : Fin 2048,
        ((∃ r c p, r < n ∧ c < 8 ∧ rd s.memory (s.I + r) = .ok p ∧
            p.testBit (7 - c) = true ∧ j.val = s.V x + c + 64 * (s.V y + r)) →
          t.graphics j = s.graphics j ^^^ 1) ∧
        ((¬ ∃ r c p, r < n ∧ c < 8 ∧ rd s.memory (s.I + r) = .ok p ∧
            p.testBit (7 - c) = true ∧ j.val = s.V x + c + 64 * (s.V y + r)) →
          t.graphics j = s.graphics j) := by
  have hrd : ∀ r, r < n → rd s.memory (s.I + r) =
      .ok (if h : s.I + r < 4096 then s.memory ⟨s.I + r, h⟩ else 0) := by
    intro r hr
    have hlt : s.I + r < 4096 := by omega
    rw [rd_of_lt _ _ hlt, dif_pos hlt]
  have hfit2 : ∀ r c, r < n → c < 8 → s.V x + c + ((s.V y + r) * 64) < 2048 := by
    intro r c hr hc
    omega
  obtain ⟨t, ht, hg, _⟩ := step_DXYN_frame rnd s x y n hn _ hhi hlo hrd hfit2
  refine ⟨t, ht, fun j => ⟨fun hhit => ?_, fun hmiss => ?_⟩⟩
  · have hm := (spriteMask_hit s.memory s.I (s.V x) (s.V y) n j hmem).2 hhit
    rw [hg]
    simp only [xorMask, hm, if_true]
  · have hm : spriteMask (s.V x) (s.V y)
        (fun r => if h : s.I + r < 4096 then s.memory ⟨s.I + r, h⟩ else 0) n j = false := by
      cases hm : spriteMask (s.V x) (s.V y)
        (fun r => if h : s.I + r < 4096 then s.memory ⟨s.I + r, h⟩ else 0) n j
      · rfl
      · exact (hmiss ((spriteMask_hit s.memory s.I (s.V x) (s.V y) n j hmem).1 hm)).elim
    rw [hg]
    simp only [xorMask, hm, Bool.false_eq_true, if_false]

/-- Witness for C12: `D011` with `V0 = 60`, `V1 = 0`, `I = 0x300` and the row byte `0xFF`
stored there. -/
theorem step_DXYN_no_wrap_witness :
    ∃ t, emulateCycle 0 wrapMachine = .ok t ∧
      ∀ j : Fin 2048,
        ((∃ r c p, r < 1 ∧ c < 8 ∧ rd wrapMachine.memory (wrapMachine.I + r) = .ok p ∧
            p.testBit (7 - c) = true ∧ j.val = wrapMachine.V 0 + c + 64 * (wrapMachine.V 1 + r)) →
          t.graphics j = wrapMachine.graphics j ^^^ 1) ∧
        ((¬ ∃ r c p, r < 1 ∧ c < 8 ∧ rd wrapMachine.memory (wrapMachine.I + r) = .ok p ∧
            p.testBit (7 - c) = true ∧ j.val = wrapMachine.V 0 + c + 64 * (wrapMachine.V 1 + r)) →
          t.graphics j = wrapMachine.graphics j) :=
  step_DXYN_no_wrap 0 wrapMachine 0 1 1 (by decide) rfl rfl (by decide) (by decide)

/-- C13: for `DXYN` with a sprite inside the framebuffer
(`Vx + 7 + 64 * (Vy + N - 1) < 2048`) and `I + N ≤ 4096`, the step completes and afterwards
`VF = 1` exactly when some set sprite bit addressed a cell that held 1 before the draw,
otherwise `VF = 0`; every such cell holds 0 afterwards; the redraw flag is set, `pc` has
advanced by 2, and memory, `I` and the registers other than `VF` are unchanged.  This holds
for every `X` and `Y` and every framebuffer content. -/
theorem step_DXYN_collision (rnd : Nat) (s : Chip8) (x y : Fin 16) (n : Nat) (hn : n < 16)
    (hhi : rd s.memory s.pc = .ok (0xD0 + x.val))
    (hlo : rd s.memory (s.pc + 1) = .ok (0x10 * y.val + n))
    (hfit : (s.V x : Int) + 7 + 64 * ((s.V y : Int) + n - 1) < 2048)
    (hmem : s.I + n ≤ 4096) :
    ∃ t, emulateCycle rnd s = .ok t ∧
      (t.V VF = 1 ↔ ∃ r c p, r < n ∧ c < 8 ∧ rd s.memory (s.I + r) = .ok p ∧
        p.testBit (7 - c) = true ∧ rd s.graphics (s.V x + c + 64 * (s.V y + r)) = .ok 1) ∧
      (t.V VF = 1 ∨ t.V VF = 0) ∧
      (∀ r c p, r < n → c < 8 → rd s.memory (s.I + r) = .ok p → p.testBit (7 - c) = true →
        rd s.graphics (s.V x + c + 64 * (s.V y + r)) = .ok 1 →
        rd t.graphics (s.V x + c + 64 * (s.V y + r)) = .ok 0) ∧
      t.drawFlag = 1 ∧ t.pc = s.pc + 2 ∧ t.memory = s.memory ∧ t.I = s.I ∧
      (∀ i, i ≠ VF → t.V i = s.V i) := by
  have hrd : ∀ r, r < n → rd s.memory (s.I + r) =
      .ok (if h : s.I + r < 4096 then s.memory ⟨s.I + r, h⟩ else 0) := by
    intro r hr
    have hlt : s.I + r < 4096 := by omega
    rw [rd_of_lt _ _ hlt, dif_pos hlt]
  have hfit2 : ∀ r c, r < n → c < 8 → s.V x + c + ((s.V y + r) * 64) < 2048 := by
    intro r c hr hc
    omega
  obtain ⟨t, ht, hg, hv, h01, hdf, hpc, hm, hI, hV⟩ :=
    step_DXYN_frame rnd s x y n hn _ hhi hlo hrd hfit2
  refine ⟨t, ht, ?_, h01, ?_, hdf, hpc, hm, hI, hV⟩
  · rw [hv]
    constructor
    · rintro ⟨j, hj, hc⟩
      obtain ⟨r, c, p, hr, hcc, hp, hb, hidx⟩ :=
        (spriteMask_hit s.memory s.I (s.V x) (s.V y) n j hmem).1 hj
      refine ⟨r, c, p, hr, hcc, hp, hb, ?_⟩
      rw [← hidx, rd_val, hc]
    · rintro ⟨r, c, p, hr, hcc, hp, hb, hc⟩
      obtain ⟨hlt, hcell⟩ := rd_eq_ok hc
      exact ⟨⟨_, hlt⟩, (spriteMask_hit s.memory s.I (s.V x) (s.V y) n ⟨_, hlt⟩ hmem).2
        ⟨r, c, p, hr, hcc, hp, hb, rfl⟩, hcell⟩
  · intro r c p hr hcc hp hb hc
    obtain ⟨hlt, hcell⟩ := rd_eq_ok hc
    have hmask := (spriteMask_hit s.memory s.I (s.V x) (s.V y) n ⟨_, hlt⟩ hmem).2
      ⟨r, c, p, hr, hcc, hp, hb, rfl⟩
    rw [rd_of_lt _ _ hlt, hg]
    simp only [xorMask, hmask, if_true, hcell]
    rfl

/-- Witness for C13: `D011` at `(0, 0)` with the one-row sprite `0x80` on a dark screen. -/
theorem step_DXYN_collision_witness :
    ∃ t, emulateCycle 0 drawMachine = .ok t ∧
      (t.V VF = 1 ↔ ∃ r c p, r < 1 ∧ c < 8 ∧ rd drawMachine.memory (drawMachine.I + r) = .ok p ∧
        p.testBit (7 - c) = true ∧
        rd drawMachine.graphics (drawMachine.V 0 + c + 64 * (drawMachine.V 1 + r)) = .ok 1) ∧
      (t.V VF = 1 ∨ t.V VF = 0) ∧
      (∀ r c p, r < 1 → c < 8 → rd drawMachine.memory (drawMachine.I + r) = .ok p →
        p.testBit (7 - c) = true →
        rd drawMachine.graphics (drawMachine.V 0 + c + 64 * (drawMachine.V 1 + r)) = .ok 1 →
        rd t.graphics (drawMachine.V 0 + c + 64 * (drawMachine.V 1 + r)) = .ok 0) ∧
      t.drawFlag = 1 ∧ t.pc = drawMachine.pc + 2 ∧ t.memory = drawMachine.memory ∧
      t.I = drawMachine.I ∧ (∀ i, i ≠ VF → t.V i = drawMachine.V i) :=
  step_DXYN_collision 0 drawMachine 0 1 1 (by decide) rfl rfl (by decide) (by decide)

/-- C20 (the code with 16 entries on the stack): `2300` executed with `sp = 16`.  No test
of `sp` stands before the store `chip.stack[chip.sp] = chip.pc`, which addresses the cell
behind the last stack entry, and `chip.sp++; chip.pc = NNN;` follow: the step returns in the
subroutine with the pointer above 16 and nothing reported.  The pointer is 17 when the store
is dropped, and `pc + 1 = 513` when it reaches the field `sp`, which lies at that address in
`struct Chip8`. -/
theorem call_on_full_stack :
    fullStackMachine.sp = 16 ∧
    (∃ t, emulateCycleUnguarded false 0 fullStackMachine = .ok t ∧
      t.sp = 17 ∧ t.pc = 0x300 ∧ t.stack = fullStackMachine.stack) ∧
    (∃ t, emulateCycleUnguarded true 0 fullStackMachine = .ok t ∧
      t.sp = 513 ∧ t.pc = 0x300 ∧ t.stack = fullStackMachine.stack) := by
  have hcall : ∀ lands, emulateCycleUnguarded lands 0 fullStackMachine = .ok (updateTimers
      { ({ fullStackMachine with opcode := ((0x23 <<< 8) ||| 0x00) % 65536 } : Chip8) with
        sp := (if lands = true then (fullStackMachine.pc + 1) % 65536 else 17)
        pc := NNN (((0x23 <<< 8) ||| 0x00) % 65536) }) := by
    intro lands
    rw [emulateCycleUnguarded_call lands 0 fullStackMachine 0x23 0x00 rfl rfl (by decide),
      case2Unguarded_full lands _ rfl, ok_bind, pure_eq_ok]
  refine ⟨rfl, ⟨_, hcall false, ?_, ?_, ?_⟩, ⟨_, hcall true, ?_, ?_, ?_⟩⟩
  · rw [updateTimers_sp]
    rfl
  · rw [updateTimers_pc]
    exact NNN_eq _
  · rw [updateTimers_stack]
  · rw [updateTimers_sp]
    rfl
  · rw [updateTimers_pc]
    exact NNN_eq _
  · rw [updateTimers_stack]

/-- C20 (amended): for every machine with `sp ≤ 16` and every instruction at `pc` other
than a call (`2NNN`) met with 16 entries on the stack and a return (top nibble 0, low byte
`0xEE`) met with an empty stack: a call completes with `sp + 1`, a return completes with
`sp - 1`, every step that completes leaves `sp ≤ 16`, changing the pointer only in a call
or a return, and the step with the unguarded store is the same step. -/
theorem step_keeps_sp_bound (rnd : Nat) (s : Chip8) (hi lo op : Nat)
    (hhi : rd s.memory s.pc = .ok hi) (hlo : rd s.memory (s.pc + 1) = .ok lo)
    (hop : op = ((hi <<< 8) ||| lo) % 65536)
    (hsp : s.sp ≤ 16)
    (hcall : op / 4096 = 2 → s.sp < 16)
    (hret : op / 4096 = 0 → op % 256 = 0xEE → 0 < s.sp) :
    (op / 4096 = 2 → ∃ t, emulateCycle rnd s = .ok t ∧ t.sp = s.sp + 1) ∧
    (op / 4096 = 0 → op % 256 = 0xEE → ∃ t, emulateCycle rnd s = .ok t ∧ t.sp + 1 = s.sp) ∧
    (∀ t, emulateCycle rnd s = .ok t →
      t.sp ≤ 16 ∧ (t.sp = s.sp ∨ (op / 4096 = 2 ∧ t.sp = s.sp + 1) ∨
        (op / 4096 = 0 ∧ op % 256 = 0xEE ∧ t.sp + 1 = s.sp))) ∧
    (∀ lands, emulateCycleUnguarded lands rnd s = emulateCycle rnd s) := by
  subst hop
  have hlt : ((hi <<< 8) ||| lo) % 65536 < 65536 := Nat.mod_lt _ (by decide)
  refine ⟨fun h2 => ?_, fun h0 hEE => ?_, fun t ht => ?_, fun lands => ?_⟩
  · have hs := hcall h2
    have hex := execute_2 rnd { s with opcode := ((hi <<< 8) ||| lo) % 65536 }
      (by show (((hi <<< 8) ||| lo) % 65536) / 4096 % 16 = 2; omega) hs
    refine ⟨_, emulateCycle_ok rnd s _ hi lo hhi hlo hex, ?_⟩
    rw [updateTimers_sp]
    show (s.sp + 1) % 65536 = s.sp + 1
    omega
  · have hs := hret h0 hEE
    have hsp1 : (s.sp + 65535) % 65536 = s.sp - 1 := by omega
    have hin : s.sp - 1 < 16 := by omega
    have hc0 := case0_EE { s with opcode := ((hi <<< 8) ||| lo) % 65536 }
      (s.stack ⟨s.sp - 1, hin⟩) hEE (by
        show rd s.stack ((s.sp + 65535) % 65536) = .ok (s.stack ⟨s.sp - 1, hin⟩)
        rw [hsp1]
        exact rd_of_lt _ _ hin)
    have hex := execute_0 rnd _ _
      (by show (((hi <<< 8) ||| lo) % 65536) / 4096 % 16 = 0; omega) hc0
    refine ⟨_, emulateCycle_ok rnd s _ hi lo hhi hlo hex, ?_⟩
    rw [updateTimers_sp, advance_sp]
    show (s.sp + 65535) % 65536 + 1 = s.sp
    omega
  · obtain ⟨hi2, lo2, op2, h1, h2, hop2, hc⟩ := emulateCycle_sp rnd s t ht
    have e1 : hi2 = hi := Except.ok.inj (h1.symm.trans hhi)
    have e2 : lo2 = lo := Except.ok.inj (h2.symm.trans hlo)
    subst e1 e2 hop2
    rcases hc with e | ⟨a, e⟩ | ⟨a, c, e⟩
    · exact ⟨by omega, Or.inl e⟩
    · have hs := hcall a
      have e3 : t.sp = s.sp + 1 := by omega
      exact ⟨by omega, Or.inr (Or.inl ⟨a, e3⟩)⟩
    · have hs := hret a c
      have e3 : t.sp + 1 = s.sp := by omega
      exact ⟨by omega, Or.inr (Or.inr ⟨a, c, e3⟩)⟩
  · refine emulateCycleUnguarded_eq lands rnd s (fun hi2 lo2 h1 h2 h3 => ?_)
    have e1 : hi2 = hi := Except.ok.inj (h1.symm.trans hhi)
    have e2 : lo2 = lo := Except.ok.inj (h2.symm.trans hlo)
    subst e1 e2
    exact hcall h3

/-- Witness for C20: the call `2300` executed with two entries on the stack. -/
theorem step_keeps_sp_bound_witness :
    callMachine.sp ≤ 16 ∧
    ((0x2300 : Nat) / 4096 = 2 →
      ∃ t, emulateCycle 0 callMachine = .ok t ∧ t.sp = callMachine.sp + 1) ∧
    ((0x2300 : Nat) / 4096 = 0 → (0x2300 : Nat) % 256 = 0xEE →
      ∃ t, emulateCycle 0 callMachine = .ok t ∧ t.sp + 1 = callMachine.sp) ∧
    (∀ t, emulateCycle 0 callMachine = .ok t →
      t.sp ≤ 16 ∧ (t.sp = callMachine.sp ∨ ((0x2300 : Nat) / 4096 = 2 ∧
        t.sp = callMachine.sp + 1) ∨
        ((0x2300 : Nat) / 4096 = 0 ∧ (0x2300 : Nat) % 256 = 0xEE ∧
          t.sp + 1 = callMachine.sp))) ∧
    (∀ lands, emulateCycleUnguarded lands 0 callMachine = emulateCycle 0 callMachine) :=
  ⟨by decide, step_keeps_sp_bound 0 callMachine 0x23 0x00 0x2300 rfl rfl (by decide)
    (by decide) (fun _ => by decide) (fun h => absurd h (by decide))⟩

/-- C21 (the code on opcode `01E0`): the decoder selects clear screen by the top nibble 0
and the low byte `0xE0` alone, so the opcode `01E0`, which is neither `00E0` nor a `DXYN`,
changes the framebuffer: cell 0 goes from 1 to 0. -/
theorem step_01E0_clears :
    (∀ j, litMachine.graphics j = 0 ∨ litMachine.graphics j = 1) ∧
    rd litMachine.memory litMachine.pc = .ok 0x01 ∧
    rd litMachine.memory (litMachine.pc + 1) = .ok 0xE0 ∧
    ∃ t, emulateCycle 0 litMachine = .ok t ∧ t.opcode = 0x01E0 ∧
      litMachine.graphics 0 = 1 ∧ t.graphics 0 = 0 := by
  refine ⟨fun j => ?_, rfl, rfl, _, step_0aE0 0 litMachine 1 (by decide) rfl rfl, ?_, rfl, ?_⟩
  · show (if j.val = 0 then 1 else 0) = 0 ∨ (if j.val = 0 then 1 else 0) = 1
    split
    · exact Or.inr rfl
    · exact Or.inl rfl
  · rw [updateTimers_opcode, advance_opcode]
    exact clearDisplay_opcode _
  · rw [updateTimers_graphics, advance_graphics]
    exact clearDisplay_graphics _ 0

/-- C21 (amended): `init` leaves every framebuffer cell 0; for every machine whose cells are
all 0 or 1, a step that completes leaves all cells 0 or 1; and a step that completes changes
the framebuffer only when the fetched opcode has top nibble 0 and low byte `0xE0` (the case
`0x00E0` of the decoder) or has top nibble `0xD` (`DXYN`). -/
theorem step_keeps_cells (rnd : Nat) (s t : Chip8)
    (h01 : ∀ j, s.graphics j = 0 ∨ s.graphics j = 1)
    (h : emulateCycle rnd s = .ok t) :
    (∀ (s0 : Chip8) (j : Fin 2048), (init s0).graphics j = 0) ∧
    (∀ j, t.graphics j = 0 ∨ t.graphics j = 1) ∧
    ∃ hi lo op, rd s.memory s.pc = .ok hi ∧ rd s.memory (s.pc + 1) = .ok lo ∧
      op = ((hi <<< 8) ||| lo) % 65536 ∧
      (t.graphics ≠ s.graphics → (op / 4096 = 0 ∧ op % 256 = 0xE0) ∨ op / 4096 = 0xD) := by
  obtain ⟨hi, lo, op, hhi, hlo, hop, hcells, hchg⟩ := emulateCycle_graphics rnd s t h
  refine ⟨fun s0 j => ?_, hcells h01, hi, lo, op, hhi, hlo, hop, fun hne => ?_⟩
  · rw [init_eq]
  · exact hchg.resolve_left hne

/-- Witness for C21: `D011` with the one-row sprite `0x80` on a dark screen. -/
theorem step_keeps_cells_witness :
    (∀ j, drawMachine.graphics j = 0 ∨ drawMachine.graphics j = 1) ∧
    ∃ t, emulateCycle 0 drawMachine = .ok t ∧
      (∀ (s0 : Chip8) (j : Fin 2048), (init s0).graphics j = 0) ∧
      (∀ j, t.graphics j = 0 ∨ t.graphics j = 1) ∧
      ∃ hi lo op, rd drawMachine.memory drawMachine.pc = .ok hi ∧
        rd drawMachine.memory (drawMachine.pc + 1) = .ok lo ∧
        op = ((hi <<< 8) ||| lo) % 65536 ∧
        (t.graphics ≠ drawMachine.graphics →
          (op / 4096 = 0 ∧ op % 256 = 0xE0) ∨ op / 4096 = 0xD) := by
  obtain ⟨t, ht, _⟩ := step_DXYN_frame 0 drawMachine 0 1 1 (by decide) (fun _ => 0x80) rfl rfl
    (fun r hr => by
      have h0 : r = 0 := by omega
      rw [h0]
      rfl)
    (fun r c hr hc => by
      have h0 : r = 0 := by omega
      have hV0 : drawMachine.V 0 = 0 := rfl
      have hV1 : drawMachine.V 1 = 0 := rfl
      rw [h0, hV0, hV1]
      omega)
  exact ⟨fun _ => Or.inl rfl, t, ht, step_keeps_cells 0 drawMachine t (fun _ => Or.inl rfl) ht⟩

/-- C22: for every opcode value, `opcode & 0xF000` is one of the 16 case labels `0x0000`,
`0x1000`, ..., `0xF000` of the outer switch, so its `default` is never taken; and a step
ends in `exit(3)` exactly when the fetched opcode is a `0NNN` whose low byte is neither
`0xE0` nor `0xEE`, or an `8XYn` whose `n` is none of 0..7 and `0xE`. -/
theorem exit3_only_in_inner_defaults (rnd : Nat) (s : Chip8) :
    (∀ op : Nat, ∃ k, k < 16 ∧ op &&& 0xF000 = k * 0x1000) ∧
    (emulateCycle rnd s = .error Fault.exit3 ↔
      ∃ hi lo op, rd s.memory s.pc = .ok hi ∧ rd s.memory (s.pc + 1) = .ok lo ∧
        op = ((hi <<< 8) ||| lo) % 65536 ∧
        ((op / 4096 = 0 ∧ op % 256 ≠ 0xE0 ∧ op % 256 ≠ 0xEE) ∨
          (op / 4096 = 8 ∧ 8 ≤ op % 16 ∧ op % 16 ≠ 0xE))) :=
  ⟨fun op => ⟨op / 4096 % 16, Nat.mod_lt _ (by decide), and_F000 op⟩, emulateCycle_exit3 rnd s⟩

end Chip8Emu
